import Mathlib

/-!
# MP4 boxes (lib/mp4.cpp)

A shallow embedding of `MP4::Box`, of the bootstrap-info box `MP4::ABST`, of the
movie-fragment header `MP4::MFHD`, of the track-fragment run `MP4::TRUN` and of the
track-fragment header `MP4::TFHD`, and the
properties of the box specification settled against it.

* A byte is a natural number, below 256 wherever the code stores one. The buffer `data`
  points to is the list of the bytes of its allocation: the length of the list is the size
  the allocator really gave, which the code never sees; it keeps `data_size` instead.
* Operations return an `Option`; `none` is undefined behaviour, a read or write outside the
  allocation. What the allocator decides (whether a request is granted, what uninitialised
  memory holds) is a parameter, `Heap`.
* Offsets of type `size_t` and `int` are natural numbers, `long` arguments and results are
  integers. The machine width is modelled where the code depends on it: the unsigned
  subtraction that counts the bytes `reserve` moves, the 32-bit length prefix, the
  conversions between `char`, `long` and `size_t`. The `int` offsets of `ABST` are taken to
  stay below 2^31.
* `char` is signed and `long` has 64 bits, as on the x86-64 Linux targets of the code.
-/

namespace MP4

/-- Allocator behaviour the box code cannot control: `grants n` tells whether a request
for `n` bytes is honoured, `fresh k` is the content of uninitialised byte `k` of a new
allocation. -/
structure Heap where
  grants : Nat → Bool
  fresh : Nat → Nat

/-- Members of `MP4::Box`: the buffer, the recorded capacity and the ownership flag. -/
structure Box where
  data : List Nat
  data_size : Nat
  managed : Bool
deriving DecidableEq

/-- Value of the four bytes at `i`, most significant first: `ntohl(((int*)(d+i))[0])`. -/
def ntohl (d : List Nat) (i : Nat) : Option Nat :=
  match d[i]?, d[i + 1]?, d[i + 2]?, d[i + 3]? with
  | some b0, some b1, some b2, some b3 =>
    some (b0 % 256 * 16777216 + b1 % 256 * 65536 + b2 % 256 * 256 + b3 % 256)
  | _, _, _, _ => none

/-- Four bytes of the low 32 bits of `v`, most significant first. -/
def htonl (v : Nat) : List Nat :=
  [v / 16777216 % 256, v / 65536 % 256, v / 256 % 256, v % 256]

/-- The buffer with the bytes `src` written over those at position `dst`. -/
def patch (d : List Nat) (dst : Nat) (src : List Nat) : List Nat :=
  d.take dst ++ src ++ d.drop (dst + src.length)

/-- Copy of the bytes `src` to position `dst` of the buffer: `memcpy(d + dst, src, n)`. -/
def memcpy (d : List Nat) (dst : Nat) (src : List Nat) : Option (List Nat) :=
  if dst + src.length ≤ d.length then some (patch d dst src) else none

/-- Move of `n` bytes inside the buffer from `src` to `dst`; the ranges may overlap. -/
def memmove (d : List Nat) (dst src n : Nat) : Option (List Nat) :=
  if src + n ≤ d.length then memcpy d dst ((d.drop src).take n) else none

/-- Fill of `n` bytes at `dst` with the byte `v`: `memset(d + dst, v, n)`. -/
def memset (d : List Nat) (dst v n : Nat) : Option (List Nat) :=
  if dst + n ≤ d.length then some (patch d dst (List.replicate n (v % 256))) else none

/-- The buffer a granted `realloc(data, n)` gives: the old bytes, as far as they fit, then
uninitialised ones. -/
def regrown (H : Heap) (d : List Nat) (n : Nat) : List Nat :=
  d.take n ++ (List.range (n - d.length)).map fun k => H.fresh (d.length + k) % 256

/-- Result of `realloc(data, n)`: `none` is the null pointer of a refused request. -/
def realloc (H : Heap) (d : List Nat) (n : Nat) : Option (List Nat) :=
  if H.grants n then some (regrown H d n) else none

/-- Difference of two `size_t` values, wrapping around below zero. -/
def subSizeT (a b : Nat) : Nat :=
  (a + 18446744073709551616 - b % 18446744073709551616) % 18446744073709551616

/-- Conversion of a `long` to `size_t`. -/
def toSizeT (x : Int) : Nat := (x % 18446744073709551616).toNat

/-- Conversion of a byte to a signed `char`. -/
def toChar (x : Nat) : Int := if x % 256 < 128 then (x % 256 : Nat) else (x % 256 : Nat) - 256

/-- Conversion of a `char`, or of an integer narrowed to one, to the byte stored. -/
def ofChar (v : Int) : Nat := (v % 256).toNat

/-- Declared total length: `Box::boxedSize`. -/
def Box.boxedSize (b : Box) : Option Nat := ntohl b.data 0

/-- Declared payload length: `Box::payloadSize`, an unsigned subtraction. -/
def Box.payloadSize (b : Box) : Option Nat := b.boxedSize.map fun s => subSizeT s 8

/-- Reset to the 8-byte minimum: `Box::clear`. A refused `malloc` leaves the null pointer,
an empty allocation. -/
def Box.clear (H : Heap) (_b : Box) : Box :=
  if H.grants 8 then
    { data := htonl 8 ++ (List.range 4).map (fun k => H.fresh (4 + k) % 256),
      data_size := 8, managed := true }
  else { data := [], data_size := 0, managed := true }

/-- Constructor `Box::Box(datapointer, manage)`: `none` is the null pointer, `some d` a
pointer to the bytes `d`. -/
def Box.construct (H : Heap) (datapointer : Option (List Nat)) (manage : Bool) : Option Box :=
  match datapointer with
  | none => some (Box.clear H { data := [], data_size := 0, managed := manage })
  | some d => (ntohl d 0).map fun s => { data := d, data_size := s, managed := manage }

/-- Whole-box deserialisation: `Box::read`. Returns the verdict, the box and what is left of
the stream. -/
def Box.read (H : Heap) (b : Box) (newData : List Nat) : Option (Bool × Box × List Nat) :=
  if b.managed = false then some (false, b, newData)
  else if newData.length > 4 then
    (ntohl newData 0).bind fun size =>
      if newData.length ≥ size then
        if H.grants size then
          some (true, { b with data := newData.take size }, newData.drop size)
        else some (false, b, newData)
      else some (false, b, newData)
  else some (false, b, newData)

/-- The `memmove` both branches of `Box::reserve` share: the bytes behind the reserved region
go from `position + current` to `position + wanted`. -/
def moveTail (d : List Nat) (position current wanted : Nat) : Option (List Nat) :=
  (ntohl d 0).bind fun size =>
    if subSizeT size (position + current) > 0 then
      memmove d (position + wanted) (position + current) (subSizeT size (position + current))
    else some d

/-- Grow branch of `Box::reserve` after the capacity check: move the tail, store the new
length. -/
def growTail (b : Box) (position current wanted : Nat) : Option (Bool × Box) :=
  (moveTail b.data position current wanted).bind fun d =>
    (ntohl d 0).bind fun size =>
      (memcpy d 0 (htonl (size + (wanted - current)))).map fun d2 =>
        (true, { b with data := d2 })

/-- Resize primitive: `Box::reserve`. -/
def Box.reserve (H : Heap) (b : Box) (position current wanted : Nat) : Option (Bool × Box) :=
  if current = wanted then some (true, b)
  else if current < wanted then
    b.boxedSize.bind fun size =>
      if size + (wanted - current) > b.data_size then
        if b.managed = false then some (false, b)
        else
          match realloc H b.data (size + (wanted - current)) with
          | none => some (false, b)
          | some d =>
            (ntohl d 0).bind fun size1 =>
              growTail { b with data := d, data_size := size1 + (wanted - current) }
                position current wanted
      else growTail b position current wanted
  else
    (moveTail b.data position current wanted).bind fun d =>
      (ntohl d 0).bind fun size =>
        (memcpy d 0 (htonl (subSizeT size (current - wanted)))).map fun d2 =>
          (true, { b with data := d2 })

/-- Length of the zero-terminated string that starts the list: `strlen`. A string that is
not terminated inside the allocation is read past its end. -/
def strlenFrom : List Nat → Option Nat
  | [] => none
  | x :: xs => if x = 0 then some 0 else (strlenFrom xs).map (· + 1)

/-- Result of `strlen(d + i)`. -/
def strlen (d : List Nat) (i : Nat) : Option Nat := strlenFrom (d.drop i)

/-- The zero-terminated string a `char*` to position `i` of the buffer denotes. -/
def cstring (d : List Nat) (i : Nat) : Option (List Nat) :=
  (strlen d i).map fun n => (d.drop i).take n

/-- Store of one byte: `data[index] = v`. -/
def poke (d : List Nat) (index v : Nat) : Option (List Nat) := memcpy d index [v % 256]

/-- Setter `Box::setInt8`. -/
def Box.setInt8 (H : Heap) (b : Box) (newData : Int) (index : Nat) : Option Box :=
  let index := index + 8
  b.boxedSize.bind fun size =>
    if index ≥ size then
      (b.reserve H index 0 1).bind fun r =>
        if r.1 = false then some r.2
        else (poke r.2.data index (ofChar newData)).map fun d => { r.2 with data := d }
    else (poke b.data index (ofChar newData)).map fun d => { b with data := d }

/-- Getter `Box::getInt8`; the value is a signed `char`. -/
def Box.getInt8 (H : Heap) (b : Box) (index : Nat) : Option (Int × Box) :=
  let index := index + 8
  b.boxedSize.bind fun size =>
    if index ≥ size then
      (b.reserve H index 0 1).bind fun r =>
        if r.1 = false then some (0, r.2)
        else r.2.data[index]?.map fun x => (toChar x, r.2)
    else b.data[index]?.map fun x => (toChar x, b)

/-- Value `Box::getInt16` reads at the absolute position `index`: `ntohs` of two bytes, as
a `short`. -/
def short16 (d : List Nat) (index : Nat) : Option Int :=
  match d[index]?, d[index + 1]? with
  | some b0, some b1 =>
    some (if b0 % 256 * 256 + b1 % 256 < 32768 then ((b0 % 256 * 256 + b1 % 256 : Nat) : Int)
      else ((b0 % 256 * 256 + b1 % 256 : Nat) : Int) - 65536)
  | _, _ => none

/-- Getter `Box::getInt16`. -/
def Box.getInt16 (H : Heap) (b : Box) (index : Nat) : Option (Int × Box) :=
  let index := index + 8
  b.boxedSize.bind fun size =>
    if index + 1 ≥ size then
      (b.reserve H index 0 2).bind fun r =>
        if r.1 = false then some (0, r.2)
        else (short16 r.2.data index).map fun x => (x, r.2)
    else (short16 b.data index).map fun x => (x, b)

/-- Value `Box::getInt24` reads at the absolute position `index`: the three bytes are shifted
in and added as signed `char`s. -/
def long24 (d : List Nat) (index : Nat) : Option Int :=
  match d[index]?, d[index + 1]?, d[index + 2]? with
  | some b0, some b1, some b2 => some ((toChar b0 * 256 + toChar b1) * 256 + toChar b2)
  | _, _, _ => none

/-- Getter `Box::getInt24`. -/
def Box.getInt24 (H : Heap) (b : Box) (index : Nat) : Option (Int × Box) :=
  let index := index + 8
  b.boxedSize.bind fun size =>
    if index + 2 ≥ size then
      (b.reserve H index 0 3).bind fun r =>
        if r.1 = false then some (0, r.2)
        else (long24 r.2.data index).map fun x => (x, r.2)
    else (long24 b.data index).map fun x => (x, b)

/-- Getter `Box::getInt32`; `ntohl` of the four bytes, returned as a 64-bit `long`. -/
def Box.getInt32 (H : Heap) (b : Box) (index : Nat) : Option (Int × Box) :=
  let index := index + 8
  b.boxedSize.bind fun size =>
    if index + 3 ≥ size then
      (b.reserve H index 0 4).bind fun r =>
        if r.1 = false then some (0, r.2)
        else (ntohl r.2.data index).map fun x => (Int.ofNat x, r.2)
    else (ntohl b.data index).map fun x => (Int.ofNat x, b)

/-- Reduction of an integer to the range of a signed 64-bit `long`. -/
def wrap64 (x : Int) : Int :=
  (x + 9223372036854775808) % 18446744073709551616 - 9223372036854775808

/-- Value `Box::getInt64` reads at the absolute position `index`: the eight bytes are shifted
in and added as signed `char`s in a 64-bit `long`. -/
def long64 (d : List Nat) (index : Nat) : Option Int :=
  match d[index]?, d[index + 1]?, d[index + 2]?, d[index + 3]?,
    d[index + 4]?, d[index + 5]?, d[index + 6]?, d[index + 7]? with
  | some b0, some b1, some b2, some b3, some b4, some b5, some b6, some b7 =>
    some (wrap64 (((((((toChar b0 * 256 + toChar b1) * 256 + toChar b2) * 256 + toChar b3) * 256
      + toChar b4) * 256 + toChar b5) * 256 + toChar b6) * 256 + toChar b7))
  | _, _, _, _, _, _, _, _ => none

/-- Getter `Box::getInt64`. -/
def Box.getInt64 (H : Heap) (b : Box) (index : Nat) : Option (Int × Box) :=
  let index := index + 8
  b.boxedSize.bind fun size =>
    if index + 7 ≥ size then
      (b.reserve H index 0 8).bind fun r =>
        if r.1 = false then some (0, r.2)
        else (long64 r.2.data index).map fun x => (x, r.2)
    else (long64 b.data index).map fun x => (x, b)

/-- Getter `Box::getStringLen`. -/
def Box.getStringLen (b : Box) (index : Nat) : Option Nat :=
  let index := index + 8
  b.boxedSize.bind fun size =>
    if index ≥ size then some 0 else strlen b.data index

/-- Getter `Box::getString`. The `char*` it returns is given as the string it points to;
the inner `none` is the null pointer of a failed resize. -/
def Box.getString (H : Heap) (b : Box) (index : Nat) : Option (Option (List Nat) × Box) :=
  let index := index + 8
  b.boxedSize.bind fun size =>
    if index ≥ size then
      (b.reserve H index 0 1).bind fun r =>
        if r.1 = false then some (none, r.2)
        else
          (poke r.2.data index 0).bind fun d =>
            (cstring d index).map fun s => (some s, { r.2 with data := d })
    else (cstring b.data index).map fun s => (some s, b)

/-- Last two statements of `Box::setString`, where `index` already is the absolute position
(the payload offset plus 8). The old length is asked of `getStringLen`, which adds 8 to
the position it is given once more. -/
def Box.replaceString (H : Heap) (b : Box) (newData : List Nat) (index : Nat) : Option Box :=
  (b.getStringLen index).bind fun len =>
    if len ≠ newData.length then
      (b.getStringLen index).bind fun len1 =>
        (b.reserve H index (len1 + 1) (newData.length + 1)).bind fun r =>
          if r.1 = false then some r.2
          else (memcpy r.2.data index (newData ++ [0])).map fun d => { r.2 with data := d }
    else (memcpy b.data index (newData ++ [0])).map fun d => { b with data := d }

/-- Setter `Box::setString` on the `size` bytes of a `std::string`. -/
def Box.setString (H : Heap) (b : Box) (newData : List Nat) (index : Nat) : Option Box :=
  let index := index + 8
  b.boxedSize.bind fun size =>
    if index ≥ size then
      (b.reserve H index 0 1).bind fun r =>
        if r.1 = false then some r.2
        else
          (poke r.2.data index 0).bind fun d =>
            Box.replaceString H { r.2 with data := d } newData index
    else Box.replaceString H b newData index

/-- Loop `for (int i = 0; i < no; i++){tempLoc += getStringLen(tempLoc)+1;}` with `n`
rounds left. -/
def skipStrings (b : Box) : Nat → Nat → Option Nat
  | 0, tempLoc => some tempLoc
  | n + 1, tempLoc =>
    (b.getStringLen tempLoc).bind fun len => skipStrings b n (tempLoc + len + 1)

/-- Loop `for (int i = 0; i < count(); i++){loc += getStringLen(loc)+1;}` whose bound is
asked of the box again in every round. The bound is a signed `char`, so the test fails at
`i = 128` at the latest and 129 tests are all the loop can make; `fuel` counts them. -/
def skipCounted (count : Box → Option (Int × Box)) : Nat → Nat → Nat → Box → Option (Nat × Box)
  | 0, _, _, _ => none
  | fuel + 1, i, loc, b =>
    (count b).bind fun r =>
      if (i : Int) < r.1 then
        (r.2.getStringLen loc).bind fun len =>
          skipCounted count fuel (i + 1) (loc + len + 1) r.2
      else some (loc, r.2)

/-- Getter `ABST::getMovieIdentifier`. -/
def ABST.getMovieIdentifier (H : Heap) (b : Box) : Option (Option (List Nat) × Box) :=
  b.getString H 29

/-- Getter `ABST::getServerEntryCount`. -/
def ABST.getServerEntryCount (H : Heap) (b : Box) : Option (Int × Box) :=
  (b.getStringLen 29).bind fun len => b.getInt8 H (29 + len + 1)

/-- Getter `ABST::getServerEntry`. -/
def ABST.getServerEntry (H : Heap) (b : Box) (no : Int) : Option (Option (List Nat) × Box) :=
  (ABST.getServerEntryCount H b).bind fun r =>
    if no > r.1 then some (some [], r.2)
    else
      (r.2.getStringLen 29).bind fun len =>
        (skipStrings r.2 no.toNat (29 + len + 1 + 1)).bind fun tempLoc =>
          r.2.getString H tempLoc

/-- Getter `ABST::getQualityEntryCount`. -/
def ABST.getQualityEntryCount (H : Heap) (b : Box) : Option (Int × Box) :=
  (b.getStringLen 29).bind fun len =>
    (skipCounted (ABST.getServerEntryCount H) 129 0 (29 + len + 1 + 1) b).bind fun r =>
      r.2.getInt8 H r.1

/-- Getter `ABST::getQualityEntry`. -/
def ABST.getQualityEntry (H : Heap) (b : Box) (no : Int) : Option (Option (List Nat) × Box) :=
  (ABST.getQualityEntryCount H b).bind fun r =>
    if no > r.1 then some (some [], r.2)
    else
      (r.2.getStringLen 29).bind fun len =>
        (skipCounted (ABST.getServerEntryCount H) 129 0 (29 + len + 1 + 1) r.2).bind fun r1 =>
          (skipStrings r1.2 no.toNat (r1.1 + 1)).bind fun tempLoc =>
            r1.2.getString H tempLoc

/-- Offset of the DRM data, as `ABST::getDrmData`, `setDrmData`, `getMetaData` and their
siblings all compute it first. -/
def ABST.drmOffset (H : Heap) (b : Box) : Option (Nat × Box) :=
  (b.getStringLen 29).bind fun len =>
    (skipCounted (ABST.getServerEntryCount H) 129 0 (29 + len + 1 + 1) b).bind fun r =>
      skipCounted (ABST.getQualityEntryCount H) 129 0 (r.1 + 1) r.2

/-- Getter `ABST::getDrmData`. -/
def ABST.getDrmData (H : Heap) (b : Box) : Option (Option (List Nat) × Box) :=
  (ABST.drmOffset H b).bind fun r => r.2.getString H r.1

/-- Getter `ABST::getMetaData`. -/
def ABST.getMetaData (H : Heap) (b : Box) : Option (Option (List Nat) × Box) :=
  (ABST.drmOffset H b).bind fun r =>
    (r.2.getStringLen r.1).bind fun len => r.2.getString H (r.1 + len + 1)

/-- Loop of `ABST::setServerEntry` with `n` rounds left before `i` reaches `no`. The result
tells whether the function goes on to its final `setString` (it returns early when `reserve`
fails), and gives `tempLoc` and the box. As in the source, `reserve` and `memset` are handed
`tempLoc` itself, a payload offset, where the accessors hand on the offset plus 8. -/
def ABST.setServerEntryLoop (H : Heap) (no : Int) (countLoc : Nat) :
    Nat → Nat → Nat → Box → Option (Bool × Nat × Box)
  | 0, _, tempLoc, b => some (true, tempLoc, b)
  | n + 1, i, tempLoc, b =>
    (ABST.getServerEntryCount H b).bind fun r =>
      if (i : Int) < r.1 then
        (r.2.getStringLen tempLoc).bind fun len =>
          ABST.setServerEntryLoop H no countLoc n (i + 1) (tempLoc + len + 1) r.2
      else
        (ABST.getServerEntryCount H r.2).bind fun r1 =>
          (r1.2.reserve H tempLoc 0 (toSizeT (no - r1.1))).bind fun r2 =>
            if r2.1 = false then some (false, tempLoc, r2.2)
            else
              (ABST.getServerEntryCount H r2.2).bind fun r3 =>
                (memset r3.2.data tempLoc 0 (toSizeT (no - r3.1))).bind fun d =>
                  (ABST.getServerEntryCount H { r3.2 with data := d }).bind fun r4 =>
                    (r4.2.setInt8 H no countLoc).map fun b5 =>
                      (true, toSizeT ((tempLoc : Int) + (no - r4.1)), b5)

/-- Setter `ABST::setServerEntry`. -/
def ABST.setServerEntry (H : Heap) (b : Box) (newEntry : List Nat) (no : Int) : Option Box :=
  (b.getStringLen 29).bind fun len =>
    (ABST.setServerEntryLoop H no (29 + len + 1) no.toNat 0 (29 + len + 1 + 1) b).bind fun r =>
      if r.1 = false then some r.2.2 else r.2.2.setString H newEntry r.2.1

/-- Conversion of a `short` to the 16 bits `htons` is given. -/
def toUInt16 (x : Int) : Nat := (x % 65536).toNat

/-- Conversion of a `long` to the 32 bits `htonl` is given. -/
def toUInt32 (x : Int) : Nat := (x % 4294967296).toNat

/-- Two bytes of the low 16 bits of `v`, most significant first. -/
def htons (v : Nat) : List Nat := [v / 256 % 256, v % 256]

/-- Setter `Box::setInt16`. -/
def Box.setInt16 (H : Heap) (b : Box) (newData : Int) (index : Nat) : Option Box :=
  let index := index + 8
  b.boxedSize.bind fun size =>
    if index + 1 ≥ size then
      (b.reserve H index 0 2).bind fun r =>
        if r.1 = false then some r.2
        else (memcpy r.2.data index (htons (toUInt16 newData))).map fun d => { r.2 with data := d }
    else (memcpy b.data index (htons (toUInt16 newData))).map fun d => { b with data := d }

/-- The three bytes `Box::setInt24` stores: bits 16 to 23, 8 to 15 and 0 to 7 of the `long`. -/
def bytes24 (newData : Int) : List Nat :=
  [toSizeT newData / 65536 % 256, toSizeT newData / 256 % 256, toSizeT newData % 256]

/-- Setter `Box::setInt24`. -/
def Box.setInt24 (H : Heap) (b : Box) (newData : Int) (index : Nat) : Option Box :=
  let index := index + 8
  b.boxedSize.bind fun size =>
    if index + 2 ≥ size then
      (b.reserve H index 0 3).bind fun r =>
        if r.1 = false then some r.2
        else (memcpy r.2.data index (bytes24 newData)).map fun d => { r.2 with data := d }
    else (memcpy b.data index (bytes24 newData)).map fun d => { b with data := d }

/-- Setter `Box::setInt32`. -/
def Box.setInt32 (H : Heap) (b : Box) (newData : Int) (index : Nat) : Option Box :=
  let index := index + 8
  b.boxedSize.bind fun size =>
    if index + 3 ≥ size then
      (b.reserve H index 0 4).bind fun r =>
        if r.1 = false then some r.2
        else (memcpy r.2.data index (htonl (toUInt32 newData))).map fun d => { r.2 with data := d }
    else (memcpy b.data index (htonl (toUInt32 newData))).map fun d => { b with data := d }

/-- The eight bytes `Box::setInt64` stores: the bytes of the 64-bit value, most significant
first. -/
def bytes64 (newData : Int) : List Nat :=
  [toSizeT newData / 72057594037927936 % 256, toSizeT newData / 281474976710656 % 256,
    toSizeT newData / 1099511627776 % 256, toSizeT newData / 4294967296 % 256,
    toSizeT newData / 16777216 % 256, toSizeT newData / 65536 % 256,
    toSizeT newData / 256 % 256, toSizeT newData % 256]

/-- Setter `Box::setInt64`. -/
def Box.setInt64 (H : Heap) (b : Box) (newData : Int) (index : Nat) : Option Box :=
  let index := index + 8
  b.boxedSize.bind fun size =>
    if index + 7 ≥ size then
      (b.reserve H index 0 8).bind fun r =>
        if r.1 = false then some r.2
        else (memcpy r.2.data index (bytes64 newData)).map fun d => { r.2 with data := d }
    else (memcpy b.data index (bytes64 newData)).map fun d => { b with data := d }

/-- Default constructor of a box variant: `Box()` followed by `memcpy(data + 4, tag, 4)`. -/
def stamped (H : Heap) (tag : List Nat) : Option Box :=
  (memcpy (Box.clear H ⟨[], 0, true⟩).data 4 tag).map fun d =>
    { Box.clear H ⟨[], 0, true⟩ with data := d }

/-- Constructor `MFHD::MFHD`. -/
def MFHD.construct (H : Heap) : Option Box :=
  (stamped H [109, 102, 104, 100]).bind fun b => b.setInt32 H 0 0

/-- Setter `MFHD::setSequenceNumber`. -/
def MFHD.setSequenceNumber (H : Heap) (b : Box) (newSequenceNumber : Int) : Option Box :=
  b.setInt32 H newSequenceNumber 4

/-- Getter `MFHD::getSequenceNumber`. -/
def MFHD.getSequenceNumber (H : Heap) (b : Box) : Option (Int × Box) := b.getInt32 H 4

/-- Setter `ABST::setVersion`. -/
def ABST.setVersion (H : Heap) (b : Box) (newVersion : Int) : Option Box := b.setInt8 H newVersion 0

/-- Setter `ABST::setFlags`. -/
def ABST.setFlags (H : Heap) (b : Box) (newFlags : Int) : Option Box := b.setInt24 H newFlags 1

/-- Setter `ABST::setBootstrapinfoVersion`. -/
def ABST.setBootstrapinfoVersion (H : Heap) (b : Box) (newVersion : Int) : Option Box :=
  b.setInt32 H newVersion 4

/-- Setter `ABST::setProfile`: `(getInt8(8) & 0x3F) + ((newProfile & 0x03) << 6)`. -/
def ABST.setProfile (H : Heap) (b : Box) (newProfile : Int) : Option Box :=
  (b.getInt8 H 8).bind fun r =>
    r.2.setInt8 H (Int.ofNat (Nat.land (ofChar r.1) 63 + Nat.land (ofChar newProfile) 3 * 64)) 8

/-- Setter `ABST::setLive`: `(getInt8(8) & 0xDF) + (newLive ? 0x10 : 0)`. -/
def ABST.setLive (H : Heap) (b : Box) (newLive : Bool) : Option Box :=
  (b.getInt8 H 8).bind fun r =>
    r.2.setInt8 H (Int.ofNat (Nat.land (ofChar r.1) 223 + (if newLive then 16 else 0))) 8

/-- Setter `ABST::setUpdate`: `(getInt8(8) & 0xEF) + (newUpdate ? 0x08 : 0)`. -/
def ABST.setUpdate (H : Heap) (b : Box) (newUpdate : Bool) : Option Box :=
  (b.getInt8 H 8).bind fun r =>
    r.2.setInt8 H (Int.ofNat (Nat.land (ofChar r.1) 239 + (if newUpdate then 8 else 0))) 8

/-- Setter `ABST::setTimeScale`. -/
def ABST.setTimeScale (H : Heap) (b : Box) (newScale : Int) : Option Box := b.setInt32 H newScale 9

/-- Setter `ABST::setCurrentMediaTime`. -/
def ABST.setCurrentMediaTime (H : Heap) (b : Box) (newTime : Int) : Option Box :=
  b.setInt64 H newTime 13

/-- Setter `ABST::setSmpteTimeCodeOffset`. -/
def ABST.setSmpteTimeCodeOffset (H : Heap) (b : Box) (newTime : Int) : Option Box :=
  b.setInt64 H newTime 21

/-- Setter `ABST::setMovieIdentifier`. -/
def ABST.setMovieIdentifier (H : Heap) (b : Box) (newIdentifier : List Nat) : Option Box :=
  b.setString H newIdentifier 29

/-- Setter `ABST::setDrmData`. -/
def ABST.setDrmData (H : Heap) (b : Box) (newDrm : List Nat) : Option Box :=
  (ABST.drmOffset H b).bind fun r => r.2.setString H newDrm r.1

/-- Setter `ABST::setMetaData`. -/
def ABST.setMetaData (H : Heap) (b : Box) (newMetaData : List Nat) : Option Box :=
  (ABST.drmOffset H b).bind fun r =>
    (r.2.getStringLen r.1).bind fun len => r.2.setString H newMetaData (r.1 + len + 1)

/-- Constructor `ABST::ABST`. -/
def ABST.construct (H : Heap) : Option Box :=
  (stamped H [97, 98, 115, 116]).bind fun b0 =>
  (ABST.setVersion H b0 0).bind fun b1 =>
  (ABST.setFlags H b1 0).bind fun b2 =>
  (ABST.setBootstrapinfoVersion H b2 0).bind fun b3 =>
  (ABST.setProfile H b3 0).bind fun b4 =>
  (ABST.setLive H b4 true).bind fun b5 =>
  (ABST.setUpdate H b5 false).bind fun b6 =>
  (ABST.setTimeScale H b6 1000).bind fun b7 =>
  (ABST.setCurrentMediaTime H b7 0).bind fun b8 =>
  (ABST.setSmpteTimeCodeOffset H b8 0).bind fun b9 =>
  (ABST.setMovieIdentifier H b9 []).bind fun b10 =>
  (ABST.setDrmData H b10 []).bind fun b11 =>
  ABST.setMetaData H b11 []

/-- Masks of the enumeration `trunflags`. It is declared in mp4.h, which is not among the
sources at hand, so the masks are parameters of the track-fragment-run functions. -/
structure TrunFlags where
  dataOffset : Nat
  firstSampleFlags : Nat
  sampleDuration : Nat
  sampleSize : Nat
  sampleFlags : Nat
  sampleOffsets : Nat

/-- Record `trunSampleInformation` of mp4.h. -/
structure TrunSampleInformation where
  sampleDuration : Int
  sampleSize : Int
  sampleFlags : Int
  sampleOffset : Int
deriving DecidableEq

/-- Test `flags & mask` on a `long`. -/
def hasFlag (flags : Int) (mask : Nat) : Bool := Nat.land (toSizeT flags) mask != 0

/-- Constructor `TRUN::TRUN`. -/
def TRUN.construct (H : Heap) : Option Box := stamped H [116, 114, 117, 110]

/-- Setter `TRUN::setFlags`. -/
def TRUN.setFlags (H : Heap) (b : Box) (newFlags : Int) : Option Box := b.setInt24 H newFlags 1

/-- Getter `TRUN::getFlags`. -/
def TRUN.getFlags (H : Heap) (b : Box) : Option (Int × Box) := b.getInt24 H 1

/-- Getter `TRUN::getSampleInformationCount`. -/
def TRUN.getSampleInformationCount (H : Heap) (b : Box) : Option (Int × Box) := b.getInt32 H 4

/-- Width of one sample record under `flags`: `sampInfoSize`. -/
def TRUN.sampInfoSize (F : TrunFlags) (flags : Int) : Int :=
  (if hasFlag flags F.sampleDuration then 4 else 0) + (if hasFlag flags F.sampleSize then 4 else 0)
    + (if hasFlag flags F.sampleFlags then 4 else 0)
    + (if hasFlag flags F.sampleOffsets then 4 else 0)

/-- Offset of the first sample record under `flags`: `offset`. -/
def TRUN.firstSample (F : TrunFlags) (flags : Int) : Int :=
  8 + (if hasFlag flags F.dataOffset then 4 else 0)
    + (if hasFlag flags F.firstSampleFlags then 4 else 0)

/-- One of the four guarded stores of `TRUN::setSampleInformation`; the result carries the
box and `innerOffset`. -/
def TRUN.storeField (H : Heap) (present : Bool) (value base : Int) (s : Box × Int) :
    Option (Box × Int) :=
  if present then (s.1.setInt32 H value (toSizeT (base + s.2))).map fun b => (b, s.2 + 4)
  else some s

/-- Setter `TRUN::setSampleInformation`. -/
def TRUN.setSampleInformation (H : Heap) (F : TrunFlags) (b : Box)
    (newSample : TrunSampleInformation) (no : Int) : Option Box :=
  (TRUN.getFlags H b).bind fun r =>
    let flags := r.1
    let base := TRUN.firstSample F flags + no * TRUN.sampInfoSize F flags
    (TRUN.storeField H (hasFlag flags F.sampleDuration) newSample.sampleDuration base
        (r.2, 0)).bind fun s1 =>
    (TRUN.storeField H (hasFlag flags F.sampleSize) newSample.sampleSize base s1).bind fun s2 =>
    (TRUN.storeField H (hasFlag flags F.sampleFlags) newSample.sampleFlags base s2).bind fun s3 =>
    (TRUN.storeField H (hasFlag flags F.sampleOffsets) newSample.sampleOffset base s3).bind
      fun s4 =>
    (TRUN.getSampleInformationCount H s4.1).bind fun c =>
      if c.1 < no + 1 then c.2.setInt32 H (no + 1) 4 else some c.2

/-- One of the four guarded loads of `TRUN::getSampleInformation`; the result carries the
value read (or the one given), the box and `innerOffset`. -/
def TRUN.loadField (H : Heap) (present : Bool) (base : Int) (s : Box × Int) :
    Option (Int × Box × Int) :=
  if present then (s.1.getInt32 H (toSizeT (base + s.2))).map fun r => (r.1, r.2, s.2 + 4)
  else some (0, s)

/-- Getter `TRUN::getSampleInformation`. -/
def TRUN.getSampleInformation (H : Heap) (F : TrunFlags) (b : Box) (no : Int) :
    Option (TrunSampleInformation × Box) :=
  (TRUN.getSampleInformationCount H b).bind fun c =>
    if c.1 < no + 1 then some (⟨0, 0, 0, 0⟩, c.2)
    else
      (TRUN.getFlags H c.2).bind fun r =>
        let flags := r.1
        let base := TRUN.firstSample F flags + no * TRUN.sampInfoSize F flags
        (TRUN.loadField H (hasFlag flags F.sampleDuration) base (r.2, 0)).bind fun v1 =>
        (TRUN.loadField H (hasFlag flags F.sampleSize) base v1.2).bind fun v2 =>
        (TRUN.loadField H (hasFlag flags F.sampleFlags) base v2.2).bind fun v3 =>
        (TRUN.loadField H (hasFlag flags F.sampleOffsets) base v3.2).map fun v4 =>
          (⟨v1.1, v2.1, v3.1, v4.1⟩, v4.2.1)

/-- Getter `ABST::getProfile`: `getInt8(8) & 0xC0`, returned as a `char`. -/
def ABST.getProfile (H : Heap) (b : Box) : Option (Int × Box) :=
  (b.getInt8 H 8).map fun r => (toChar (Nat.land (ofChar r.1) 192), r.2)

/-- Getter `ABST::getLive`: `getInt8(8) & 0x10`, returned as a `bool`. -/
def ABST.getLive (H : Heap) (b : Box) : Option (Bool × Box) :=
  (b.getInt8 H 8).map fun r => (Nat.land (ofChar r.1) 16 != 0, r.2)

/-- Getter `ABST::getUpdate`: `getInt8(8) & 0x08`, returned as a `bool`. -/
def ABST.getUpdate (H : Heap) (b : Box) : Option (Bool × Box) :=
  (b.getInt8 H 8).map fun r => (Nat.land (ofChar r.1) 8 != 0, r.2)

/-- Setter `TRUN::setDataOffset`. -/
def TRUN.setDataOffset (H : Heap) (F : TrunFlags) (b : Box) (newOffset : Int) : Option Box :=
  (TRUN.getFlags H b).bind fun r =>
    if hasFlag r.1 F.dataOffset then r.2.setInt32 H newOffset 8 else some r.2

/-- Getter `TRUN::getDataOffset`. -/
def TRUN.getDataOffset (H : Heap) (F : TrunFlags) (b : Box) : Option (Int × Box) :=
  (TRUN.getFlags H b).bind fun r =>
    if hasFlag r.1 F.dataOffset then r.2.getInt32 H 8 else some (0, r.2)

/-- Setter `TRUN::setFirstSampleFlags`. -/
def TRUN.setFirstSampleFlags (H : Heap) (F : TrunFlags) (b : Box) (newSampleFlags : Int) :
    Option Box :=
  (TRUN.getFlags H b).bind fun r =>
    if hasFlag r.1 F.firstSampleFlags = false then some r.2
    else
      (TRUN.getFlags H r.2).bind fun r1 =>
        if hasFlag r1.1 F.dataOffset then r1.2.setInt32 H newSampleFlags 12
        else r1.2.setInt32 H newSampleFlags 8

/-- Getter `TRUN::getFirstSampleFlags`. -/
def TRUN.getFirstSampleFlags (H : Heap) (F : TrunFlags) (b : Box) : Option (Int × Box) :=
  (TRUN.getFlags H b).bind fun r =>
    if hasFlag r.1 F.firstSampleFlags = false then some (0, r.2)
    else
      (TRUN.getFlags H r.2).bind fun r1 =>
        if hasFlag r1.1 F.dataOffset then r1.2.getInt32 H 12 else r1.2.getInt32 H 8

/-- Masks of the flag enumeration of the track-fragment header (`tfhdBaseOffset` and its
siblings). It is declared in mp4.h, which is not among the sources at hand, so the masks
are parameters of the track-fragment-header functions. -/
structure TfhdFlags where
  baseOffset : Nat
  sampleDesc : Nat
  sampleDura : Nat
  sampleSize : Nat
  sampleFlag : Nat
  noDuration : Nat

/-- Setter `TFHD::setFlags`. -/
def TFHD.setFlags (H : Heap) (b : Box) (newFlags : Int) : Option Box := b.setInt24 H newFlags 1

/-- Getter `TFHD::getFlags`. -/
def TFHD.getFlags (H : Heap) (b : Box) : Option (Int × Box) := b.getInt24 H 1

/-- Statement `if (getFlags() & mask){offset += step;}` of the track-fragment-header
accessors; the state is `offset` and the box. -/
def TFHD.bump (H : Heap) (mask step : Nat) (s : Nat × Box) : Option (Nat × Box) :=
  (TFHD.getFlags H s.2).map fun r => (if hasFlag r.1 mask then s.1 + step else s.1, r.2)

/-- Setter `TFHD::setBaseDataOffset`. -/
def TFHD.setBaseDataOffset (H : Heap) (F : TfhdFlags) (b : Box) (newOffset : Int) : Option Box :=
  (TFHD.getFlags H b).bind fun r =>
    if hasFlag r.1 F.baseOffset then r.2.setInt64 H newOffset 8 else some r.2

/-- Getter `TFHD::getBaseDataOffset`. -/
def TFHD.getBaseDataOffset (H : Heap) (F : TfhdFlags) (b : Box) : Option (Int × Box) :=
  (TFHD.getFlags H b).bind fun r =>
    if hasFlag r.1 F.baseOffset then r.2.getInt64 H 8 else some (0, r.2)

/-- Setter `TFHD::setSampleDescriptionIndex`. -/
def TFHD.setSampleDescriptionIndex (H : Heap) (F : TfhdFlags) (b : Box) (newIndex : Int) :
    Option Box :=
  (TFHD.getFlags H b).bind fun r =>
    if hasFlag r.1 F.sampleDesc = false then some r.2
    else (TFHD.bump H F.baseOffset 8 (8, r.2)).bind fun s => s.2.setInt32 H newIndex s.1

/-- Getter `TFHD::getSampleDescriptionIndex`. -/
def TFHD.getSampleDescriptionIndex (H : Heap) (F : TfhdFlags) (b : Box) : Option (Int × Box) :=
  (TFHD.getFlags H b).bind fun r =>
    if hasFlag r.1 F.sampleDesc = false then some (0, r.2)
    else (TFHD.bump H F.baseOffset 8 (8, r.2)).bind fun s => s.2.getInt32 H s.1

/-- Setter `TFHD::setDefaultSampleDuration`. -/
def TFHD.setDefaultSampleDuration (H : Heap) (F : TfhdFlags) (b : Box) (newDuration : Int) :
    Option Box :=
  (TFHD.getFlags H b).bind fun r =>
    if hasFlag r.1 F.sampleDura = false then some r.2
    else
      (TFHD.bump H F.baseOffset 8 (8, r.2)).bind fun s1 =>
      (TFHD.bump H F.sampleDesc 4 s1).bind fun s => s.2.setInt32 H newDuration s.1

/-- Getter `TFHD::getDefaultSampleDuration`. -/
def TFHD.getDefaultSampleDuration (H : Heap) (F : TfhdFlags) (b : Box) : Option (Int × Box) :=
  (TFHD.getFlags H b).bind fun r =>
    if hasFlag r.1 F.sampleDura = false then some (0, r.2)
    else
      (TFHD.bump H F.baseOffset 8 (8, r.2)).bind fun s1 =>
      (TFHD.bump H F.sampleDesc 4 s1).bind fun s => s.2.getInt32 H s.1

/-- Setter `TFHD::setDefaultSampleSize`. -/
def TFHD.setDefaultSampleSize (H : Heap) (F : TfhdFlags) (b : Box) (newSize : Int) :
    Option Box :=
  (TFHD.getFlags H b).bind fun r =>
    if hasFlag r.1 F.sampleSize = false then some r.2
    else
      (TFHD.bump H F.baseOffset 8 (8, r.2)).bind fun s1 =>
      (TFHD.bump H F.sampleDesc 4 s1).bind fun s2 =>
      (TFHD.bump H F.sampleDura 4 s2).bind fun s => s.2.setInt32 H newSize s.1

/-- Getter `TFHD::getDefaultSampleSize`. -/
def TFHD.getDefaultSampleSize (H : Heap) (F : TfhdFlags) (b : Box) : Option (Int × Box) :=
  (TFHD.getFlags H b).bind fun r =>
    if hasFlag r.1 F.sampleSize = false then some (0, r.2)
    else
      (TFHD.bump H F.baseOffset 8 (8, r.2)).bind fun s1 =>
      (TFHD.bump H F.sampleDesc 4 s1).bind fun s2 =>
      (TFHD.bump H F.sampleDura 4 s2).bind fun s => s.2.getInt32 H s.1

/-- Setter `TFHD::setDefaultSampleFlags`. -/
def TFHD.setDefaultSampleFlags (H : Heap) (F : TfhdFlags) (b : Box) (newFlags : Int) :
    Option Box :=
  (TFHD.getFlags H b).bind fun r =>
    if hasFlag r.1 F.sampleFlag = false then some r.2
    else
      (TFHD.bump H F.baseOffset 8 (8, r.2)).bind fun s1 =>
      (TFHD.bump H F.sampleDesc 4 s1).bind fun s2 =>
      (TFHD.bump H F.sampleDura 4 s2).bind fun s3 =>
      (TFHD.bump H F.sampleSize 4 s3).bind fun s => s.2.setInt32 H newFlags s.1

/-- Getter `TFHD::getDefaultSampleFlags`. -/
def TFHD.getDefaultSampleFlags (H : Heap) (F : TfhdFlags) (b : Box) : Option (Int × Box) :=
  (TFHD.getFlags H b).bind fun r =>
    if hasFlag r.1 F.sampleFlag = false then some (0, r.2)
    else
      (TFHD.bump H F.baseOffset 8 (8, r.2)).bind fun s1 =>
      (TFHD.bump H F.sampleDesc 4 s1).bind fun s2 =>
      (TFHD.bump H F.sampleDura 4 s2).bind fun s3 =>
      (TFHD.bump H F.sampleSize 4 s3).bind fun s => s.2.getInt32 H s.1

/-- Getter `ABST::getVersion`. -/
def ABST.getVersion (H : Heap) (b : Box) : Option (Int × Box) := b.getInt8 H 0

/-- Getter `ABST::getFlags`. -/
def ABST.getFlags (H : Heap) (b : Box) : Option (Int × Box) := b.getInt24 H 1

/-- Getter `ABST::getBootstrapinfoVersion`. -/
def ABST.getBootstrapinfoVersion (H : Heap) (b : Box) : Option (Int × Box) := b.getInt32 H 4

/-- Getter `ABST::getTimeScale`. -/
def ABST.getTimeScale (H : Heap) (b : Box) : Option (Int × Box) := b.getInt32 H 9

/-- Getter `ABST::getCurrentMediaTime`. -/
def ABST.getCurrentMediaTime (H : Heap) (b : Box) : Option (Int × Box) := b.getInt64 H 13

/-- Getter `ABST::getSmpteTimeCodeOffset`. -/
def ABST.getSmpteTimeCodeOffset (H : Heap) (b : Box) : Option (Int × Box) := b.getInt64 H 21

/-- Setter `TFHD::setTrackID`. -/
def TFHD.setTrackID (H : Heap) (b : Box) (newID : Int) : Option Box := b.setInt32 H newID 4

/-- Getter `TFHD::getTrackID`. -/
def TFHD.getTrackID (H : Heap) (b : Box) : Option (Int × Box) := b.getInt32 H 4

/-- Record `asrt_runtable` of mp4.h. -/
structure AsrtRun where
  firstSegment : Int
  fragmentsPerSegment : Int
deriving DecidableEq

/-- Getter `ASRT::getQualityEntryCount`. -/
def ASRT.getQualityEntryCount (H : Heap) (b : Box) : Option (Int × Box) := b.getInt8 H 4

/-- Getter `ASRT::getSegmentRunEntryCount`. -/
def ASRT.getSegmentRunEntryCount (H : Heap) (b : Box) : Option (Int × Box) :=
  (skipCounted (ASRT.getQualityEntryCount H) 129 0 5 b).bind fun r => r.2.getInt32 H r.1

/-- Getter `ASRT::getSegmentRun`. The local `res` is returned as it was declared when `no`
exceeds the count; its type is declared in mp4.h, which is not among the sources at hand, so
the value it then has is a parameter. The loop over the strings is bounded by
`getSegmentRunEntryCount()`, a 32-bit count, so it makes at most 2^32 + 1 tests. -/
def ASRT.getSegmentRun (H : Heap) (res : AsrtRun) (b : Box) (no : Int) :
    Option (AsrtRun × Box) :=
  (ASRT.getSegmentRunEntryCount H b).bind fun c =>
    if no > c.1 then some (res, c.2)
    else
      (skipCounted (ASRT.getSegmentRunEntryCount H) 4294967297 0 5 c.2).bind fun r =>
        (r.2.getInt32 H (r.1 + 4 + 8 * no.toNat)).bind fun v1 =>
          (v1.2.getInt32 H (r.1 + 4 + 8 * no.toNat + 4)).map fun v2 =>
            (⟨v1.1, v2.1⟩, v2.2)

/-- Record `afrt_runtable` of mp4.h. -/
structure AfrtRun where
  firstFragment : Int
  firstTimestamp : Int
  duration : Int
  discontinuity : Int
deriving DecidableEq

/-- Getter `AFRT::getQualityEntryCount`. -/
def AFRT.getQualityEntryCount (H : Heap) (b : Box) : Option (Int × Box) := b.getInt8 H 8

/-- Getter `AFRT::getFragmentRunCount`. -/
def AFRT.getFragmentRunCount (H : Heap) (b : Box) : Option (Int × Box) :=
  (skipCounted (AFRT.getQualityEntryCount H) 129 0 9 b).bind fun r => r.2.getInt32 H r.1

/-- Loop of `AFRT::setFragmentRun` with `n` rounds left before `i` reaches `no`. The result
tells whether the function goes on to its four stores (it returns early when `reserve`
fails), and gives `tempLoc` and the box. As in the source, the number of records added is
counted from `getQualityEntryCount()`, and `reserve` and `memset` are handed `tempLoc`
itself, a payload offset. -/
def AFRT.setFragmentRunLoop (H : Heap) (no : Int) (countLoc : Nat) :
    Nat → Nat → Nat → Box → Option (Bool × Nat × Box)
  | 0, _, tempLoc, b => some (true, tempLoc, b)
  | n + 1, i, tempLoc, b =>
    (AFRT.getFragmentRunCount H b).bind fun r =>
      if (i : Int) < r.1 then AFRT.setFragmentRunLoop H no countLoc n (i + 1) (tempLoc + 17) r.2
      else
        (AFRT.getQualityEntryCount H r.2).bind fun q1 =>
          (q1.2.reserve H tempLoc 0 (toSizeT (17 * (no - q1.1)))).bind fun r2 =>
            if r2.1 = false then some (false, tempLoc, r2.2)
            else
              (AFRT.getQualityEntryCount H r2.2).bind fun q3 =>
                (memset q3.2.data tempLoc 0 (toSizeT (17 * (no - q3.1)))).bind fun d =>
                  (AFRT.getQualityEntryCount H { q3.2 with data := d }).bind fun q4 =>
                    (q4.2.setInt32 H no countLoc).map fun b5 =>
                      (true, toSizeT ((tempLoc : Int) + 17 * (no - q4.1)), b5)

/-- Setter `AFRT::setFragmentRun`. -/
def AFRT.setFragmentRun (H : Heap) (b : Box) (newRun : AfrtRun) (no : Int) : Option Box :=
  (skipCounted (AFRT.getQualityEntryCount H) 129 0 9 b).bind fun s =>
    (AFRT.setFragmentRunLoop H no s.1 no.toNat 0 (s.1 + 4) s.2).bind fun r =>
      if r.1 = false then some r.2.2
      else
        (r.2.2.setInt32 H newRun.firstFragment r.2.1).bind fun b1 =>
        (b1.setInt64 H newRun.firstTimestamp (r.2.1 + 4)).bind fun b2 =>
        (b2.setInt32 H newRun.duration (r.2.1 + 12)).bind fun b3 =>
          b3.setInt8 H newRun.discontinuity (r.2.1 + 16)

/-- Getter `AFRT::getFragmentRun`. The local `res` is returned as it was declared when `no`
exceeds the count; the value it then has is a parameter, as for `ASRT::getSegmentRun`. -/
def AFRT.getFragmentRun (H : Heap) (res : AfrtRun) (b : Box) (no : Int) :
    Option (AfrtRun × Box) :=
  (AFRT.getFragmentRunCount H b).bind fun c =>
    if no > c.1 then some (res, c.2)
    else
      (skipCounted (AFRT.getQualityEntryCount H) 129 0 9 c.2).bind fun r =>
        (r.2.getInt32 H (r.1 + 4 + 17 * no.toNat)).bind fun v1 =>
        (v1.2.getInt64 H (r.1 + 4 + 17 * no.toNat + 4)).bind fun v2 =>
        (v2.2.getInt32 H (r.1 + 4 + 17 * no.toNat + 12)).bind fun v3 =>
        (v3.2.getInt8 H (r.1 + 4 + 17 * no.toNat + 16)).map fun v4 =>
          (⟨v1.1, v2.1, v3.1, v4.1⟩, v4.2)

/-- What `Box::toPrettyString` returns: the output of the formatter of one of the five
variants its `switch` names, or the line of the `default` case, given as its bytes. -/
inductive Pretty where
  | mfhd
  | moof
  | abst
  | afrt
  | asrt
  | unimplemented (line : List Nat)
deriving DecidableEq

/-- The bytes of the text "Unimplemented pretty-printing for box ". -/
def unimplementedText : List Nat :=
  [85, 110, 105, 109, 112, 108, 101, 109, 101, 110, 116, 101, 100, 32, 112, 114, 101, 116, 116,
    121, 45, 112, 114, 105, 110, 116, 105, 110, 103, 32, 102, 111, 114, 32, 98, 111, 120, 32]

/-- Dispatch of `Box::toPrettyString`: the `switch` on `ntohl(*((int*)(data+4)))`. The
`default` case builds `indent` spaces, the text, the four tag bytes and a newline. -/
def Box.toPrettyString (b : Box) (indent : Nat) : Option Pretty :=
  (ntohl b.data 4).map fun tag =>
    if tag = 1835427940 then Pretty.mfhd
    else if tag = 1836019558 then Pretty.moof
    else if tag = 1633842036 then Pretty.abst
    else if tag = 1634103924 then Pretty.afrt
    else if tag = 1634955892 then Pretty.asrt
    else Pretty.unimplemented
      (List.replicate indent 32 ++ unimplementedText ++ (b.data.drop 4).take 4 ++ [10])

/-- One test and round of the loop of `MOOF::toPrettyString`, from the cursor `tempLoc`:
`none` is undefined behaviour, `some none` the end of the loop, and `some (some (p, c))` a
round that printed the child `p` and moved the cursor to `c`. The child is the view
`Box(data+8+tempLoc, false)`. -/
def MOOF.round (b : Box) (indent tempLoc : Nat) : Option (Option (Pretty × Nat)) :=
  b.payloadSize.bind fun payload =>
    if tempLoc < payload then
      (ntohl b.data (tempLoc + 8)).bind fun size =>
        (Box.toPrettyString ⟨b.data.drop (tempLoc + 8), size, false⟩ (indent + 1)).map fun p =>
          some (p, tempLoc + size)
    else some none

/-- The loop of `MOOF::toPrettyString` run for at most `n` rounds from the cursor `tempLoc`:
the children printed so far, and the cursor if the loop has not ended by then (`none` when
it has). -/
def MOOF.walk (b : Box) (indent : Nat) : Nat → Nat → Option (List Pretty × Option Nat)
  | 0, tempLoc => some ([], some tempLoc)
  | n + 1, tempLoc =>
    (MOOF.round b indent tempLoc).bind fun r =>
      match r with
      | none => some ([], none)
      | some (p, c) => (MOOF.walk b indent n c).map fun w => (p :: w.1, w.2)

/-- The buffer `Box::reserve` produces from the buffer `d` of a box of declared length `T`:
the tail moved from `p + c` to `p + w`, then the new length stored in the prefix. -/
def resized (d : List Nat) (T p c w : Nat) : List Nat :=
  patch (patch d (p + w) ((d.drop (p + c)).take (T - (p + c)))) 0 (htonl (T + w - c))

/-- An allocator that grants every request and hands out zeroed memory. -/
def generous : Heap := ⟨fun _ => true, fun _ => 0⟩

/-- An allocator that refuses every request. -/
def exhausted : Heap := ⟨fun _ => false, fun _ => 0⟩

/-- An owning `mfhd` box that is its 8-byte header alone. -/
def emptyMfhd : Box := ⟨[0, 0, 0, 8, 109, 102, 104, 100], 8, true⟩

/-- An owning `mfhd` box with the four payload bytes 1, 2, 3, 4. -/
def smallMfhd : Box := ⟨[0, 0, 0, 12, 109, 102, 104, 100, 1, 2, 3, 4], 12, true⟩

/-- A freshly constructed owning box on the generous allocator. -/
def freshBox : Box := Box.clear generous ⟨[], 0, true⟩

/-- The box that `setString("ABCDEFGHIJ", 0)`, `setString("", 0)` and `setInt8('X', 8)` leave
of a fresh one: 17 declared bytes in an allocation of 19. -/
def slackBox : Box :=
  ⟨[0, 0, 0, 17, 0, 0, 0, 0, 0, 68, 69, 70, 71, 72, 73, 74, 88, 74, 0], 19, true⟩

/-- The box `read` makes of the 17 declared bytes of `slackBox`. -/
def rereadBox : Box := ⟨[0, 0, 0, 17, 0, 0, 0, 0, 0, 68, 69, 70, 71, 72, 73, 74, 88], 8, true⟩

/-- Strings written one after the other, each followed by its zero byte. -/
def zstrings : List (List Nat) → List Nat
  | [] => []
  | s :: ss => s ++ 0 :: zstrings ss

/-- Payload of a bootstrap-info box up to its metadata: the fixed fields, the movie
identifier, the counted server entries, the counted quality entries, the DRM data and the
metadata, every string followed by its zero byte. -/
def abstPayload (fixed ident : List Nat) (servers qualities : List (List Nat))
    (drm meta : List Nat) : List Nat :=
  fixed ++ (ident ++ 0 :: (servers.length :: (zstrings servers ++
    (qualities.length :: (zstrings qualities ++ (drm ++ 0 :: (meta ++ [0])))))))

/-- A well-formed bootstrap-info box: its declared length is `T`, its buffer is an 8-byte
header followed by the payload `abstPayload` describes and by whatever bytes come after the
metadata, the described payload lies inside the declared length, no string holds a zero
byte and each table has fewer than 128 entries. -/
structure AbstLaidOut (b : Box) (T : Nat) (hdr fixed ident : List Nat)
    (servers qualities : List (List Nat)) (drm meta rest : List Nat) : Prop where
  size : b.boxedSize = some T
  data : b.data = hdr ++ (abstPayload fixed ident servers qualities drm meta ++ rest)
  inside : 8 + (abstPayload fixed ident servers qualities drm meta).length ≤ T
  hdr8 : hdr.length = 8
  fixed29 : fixed.length = 29
  identNZ : ∀ x ∈ ident, x ≠ 0
  serversNZ : ∀ s ∈ servers, ∀ x ∈ s, x ≠ 0
  qualitiesNZ : ∀ s ∈ qualities, ∀ x ∈ s, x ≠ 0
  drmNZ : ∀ x ∈ drm, x ≠ 0
  metaNZ : ∀ x ∈ meta, x ≠ 0
  servers128 : servers.length < 128
  qualities128 : qualities.length < 128

/-- A bootstrap-info box with identifier "i", server entries "ab" and "cd", quality entry
"q", DRM data "D", metadata "M" and two empty run tables. -/
def sampleAbst : Box :=
  ⟨[0, 0, 0, 55, 97, 98, 115, 116] ++
    (abstPayload (List.replicate 29 0) [105] [[97, 98], [99, 100]] [[113]] [68] [77] ++ [0, 0]),
    55, true⟩

/-- An owning box that holds the string "ABC" and its zero byte at payload offset 0, and
nothing behind it. -/
def abcBox : Box := ⟨[0, 0, 0, 12, 109, 102, 104, 100, 65, 66, 67, 0], 12, true⟩

instance (b : Box) (T : Nat) (hdr fixed ident : List Nat) (servers qualities : List (List Nat))
    (drm meta rest : List Nat) :
    Decidable (AbstLaidOut b T hdr fixed ident servers qualities drm meta rest) :=
  decidable_of_iff
    (b.boxedSize = some T ∧
      b.data = hdr ++ (abstPayload fixed ident servers qualities drm meta ++ rest) ∧
      8 + (abstPayload fixed ident servers qualities drm meta).length ≤ T ∧
      hdr.length = 8 ∧ fixed.length = 29 ∧ (∀ x ∈ ident, x ≠ 0) ∧
      (∀ s ∈ servers, ∀ x ∈ s, x ≠ 0) ∧ (∀ s ∈ qualities, ∀ x ∈ s, x ≠ 0) ∧
      (∀ x ∈ drm, x ≠ 0) ∧ (∀ x ∈ meta, x ≠ 0) ∧ servers.length < 128 ∧
      qualities.length < 128)
    ⟨fun h => ⟨h.1, h.2.1, h.2.2.1, h.2.2.2.1, h.2.2.2.2.1, h.2.2.2.2.2.1, h.2.2.2.2.2.2.1,
      h.2.2.2.2.2.2.2.1, h.2.2.2.2.2.2.2.2.1, h.2.2.2.2.2.2.2.2.2.1, h.2.2.2.2.2.2.2.2.2.2.1,
      h.2.2.2.2.2.2.2.2.2.2.2⟩,
     fun L => ⟨L.size, L.data, L.inside, L.hdr8, L.fixed29, L.identNZ, L.serversNZ,
      L.qualitiesNZ, L.drmNZ, L.metaNZ, L.servers128, L.qualities128⟩⟩

/-- A non-owning view over the twelve bytes of `smallMfhd`, as `Box(pointer, false)` makes
it. -/
def viewMfhd : Box := ⟨[0, 0, 0, 12, 109, 102, 104, 100, 1, 2, 3, 4], 12, false⟩

/-- An allocator that grants every request and hands out memory full of the byte 255. -/
def dirty : Heap := ⟨fun _ => true, fun _ => 255⟩

/-- The bootstrap-info box `ABST::ABST` builds on zeroed memory: 42 bytes. -/
def abstFresh : Box :=
  ⟨[0, 0, 0, 42, 97, 98, 115, 116] ++ (List.replicate 9 0 ++ [0, 0, 3, 232] ++
    List.replicate 16 0 ++ [0, 0, 0, 0, 0]), 42, true⟩

/-- What `setMovieIdentifier("abc")` makes of `abstFresh`. -/
def abstNamed : Box :=
  ⟨[0, 0, 0, 45, 97, 98, 115, 116] ++ (List.replicate 9 0 ++ [0, 0, 3, 232] ++
    List.replicate 16 0 ++ [97, 98, 99, 0, 0, 0, 0, 0]), 45, true⟩

/-- What `setServerEntry("s1", 0)` makes of `abstNamed`. -/
def abstOneEntry : Box :=
  ⟨[0, 0, 0, 47, 97, 98, 115, 116] ++ (List.replicate 9 0 ++ [0, 0, 3, 232] ++
    List.replicate 16 0 ++ [97, 98, 99, 0, 0, 115, 49, 0, 0, 0]), 47, true⟩

/-- The track-fragment-run box `TRUN::TRUN` builds on zeroed memory: the header alone. -/
def trunFresh : Box := ⟨[0, 0, 0, 8, 116, 114, 117, 110], 8, true⟩

/-- An owning `mfhd` box with eight zero payload bytes. -/
def wideMfhd : Box := ⟨[0, 0, 0, 16, 109, 102, 104, 100, 0, 0, 0, 0, 0, 0, 0, 0], 16, true⟩

/-- The bootstrap-info box `abstFresh` with `x` for its profile/live/update byte (the byte
at payload offset 8). -/
def abstFlagged (x : Nat) : Box :=
  ⟨[0, 0, 0, 42, 97, 98, 115, 116] ++ (List.replicate 8 0 ++ [x] ++ [0, 0, 3, 232] ++
    List.replicate 16 0 ++ [0, 0, 0, 0, 0]), 42, true⟩

/-- An allocator that grants the requests of at most `k` bytes and refuses the larger ones;
its memory is zeroed. -/
def frugal (k : Nat) : Heap := ⟨fun n => decide (n ≤ k), fun _ => 0⟩

/-- Flag masks of a track-fragment header as ISO 14496-12 numbers them. -/
def isoTfhdFlags : TfhdFlags := ⟨1, 2, 8, 16, 32, 65536⟩

/-- Flag masks of a track-fragment run as ISO 14496-12 numbers them. -/
def isoTrunFlags : TrunFlags := ⟨1, 4, 256, 512, 1024, 2048⟩

/-- An owning box whose payload is version 0, no flag set, and twenty bytes 9 behind them. -/
def plainFragment : Box :=
  ⟨[0, 0, 0, 32, 116, 102, 104, 100, 0, 0, 0, 0] ++ List.replicate 20 9, 32, true⟩

/-- An owning 17-byte box whose nine payload bytes are eight zeros and a final 1. -/
def openEnded : Box :=
  ⟨[0, 0, 0, 17, 109, 102, 104, 100, 0, 0, 0, 0, 0, 0, 0, 0, 1], 17, true⟩

/-- What the stores of `TRUN::setSampleInformation` keep of a track-fragment-run box: the
declared length `T` covers the version, the flags and the count slot and lies, with the
recorded capacity, inside the allocation, and the count slot holds `C`. -/
def TrunKept (b : Box) (T C : Nat) : Prop :=
  b.boxedSize = some T ∧ 16 ≤ T ∧ T ≤ b.data.length ∧ b.data_size ≤ b.data.length ∧
    ntohl b.data 12 = some C

/-- A box of declared length `T` that cannot grow by four bytes: the capacity is used up
and the box is a view, or the allocator refuses `T + 4` bytes. -/
def Stuck (H : Heap) (b : Box) (T : Nat) : Prop :=
  b.data_size < T + 4 ∧ (b.managed = false ∨ H.grants (T + 4) = false)

/-- A track-fragment-run box with no flag set and the sample count 1: its records have no
field. -/
def trunBare : Box := ⟨[0, 0, 0, 16, 116, 114, 117, 110, 0, 0, 0, 0, 0, 0, 0, 1], 16, true⟩

/-- A track-fragment-run box with the flag 0x100 (by ISO 14496-12 the sample duration) and
the sample count 0. -/
def trunTimed : Box := ⟨[0, 0, 0, 16, 116, 114, 117, 110, 0, 0, 1, 0, 0, 0, 0, 0], 16, true⟩

/-- A track-fragment-run box with the flags 0x300 (sample duration and sample size) and one
sample record, duration 5 and size 6. -/
def trunOneSample : Box :=
  ⟨[0, 0, 0, 24, 116, 114, 117, 110, 0, 0, 3, 0, 0, 0, 0, 1, 0, 0, 0, 5, 0, 0, 0, 6], 24, true⟩

/-- A track-fragment-run box of 24 bytes with the flag 0x100 (by ISO 14496-12 the sample
duration), the sample count 0 and eight bytes 9 behind the count slot. -/
def trunSpare : Box :=
  ⟨[0, 0, 0, 24, 116, 114, 117, 110, 0, 0, 1, 0, 0, 0, 0, 0, 9, 9, 9, 9, 9, 9, 9, 9], 24, true⟩

/-- A segment-run-table box with no quality entry and one run record, first segment 5 and
6 fragments per segment: version, flags, the count 0, the 32-bit count 1 and the record. -/
def asrtOneRun : Box :=
  ⟨[0, 0, 0, 25, 97, 115, 114, 116, 0, 0, 0, 0, 0, 0, 0, 0, 1, 0, 0, 0, 5, 0, 0, 0, 6],
    25, true⟩

/-- A fragment-run-table box with no quality entry and no run record: version, update
flags, the time scale 1000, the count 0 and the 32-bit count 0. -/
def afrtEmpty : Box :=
  ⟨[0, 0, 0, 21, 97, 102, 114, 116, 0, 0, 0, 0, 0, 0, 3, 232, 0, 0, 0, 0, 0], 21, true⟩

/-- A track-fragment-header box that is its 8-byte header alone. -/
def tfhdFresh : Box := ⟨[0, 0, 0, 8, 116, 102, 104, 100], 8, true⟩

/-- A movie-fragment box whose payload is one child of declared length 0: eight zero
bytes. -/
def moofStalled : Box :=
  ⟨[0, 0, 0, 16, 109, 111, 111, 102, 0, 0, 0, 0, 0, 0, 0, 0], 16, true⟩

/-- A movie-fragment box whose payload is one `mfhd` child of 16 bytes. -/
def moofOneChild : Box :=
  ⟨[0, 0, 0, 24, 109, 111, 111, 102, 0, 0, 0, 16, 109, 102, 104, 100, 0, 0, 0, 0, 0, 0, 0, 7],
    24, true⟩

/-- The optional fields of a track-fragment header in their order, base data offset, sample
description index, default sample duration, default sample size and default sample flags,
each with its flag mask and its width in bytes. -/
def TfhdFlags.fields (F : TfhdFlags) : List (Nat × Nat) :=
  [(F.baseOffset, 8), (F.sampleDesc, 4), (F.sampleDura, 4), (F.sampleSize, 4),
    (F.sampleFlag, 4)]

/-- Payload offset of the optional field number `k` of a track-fragment header as the
specification gives it: 8 plus the widths of the fields earlier in the order whose flag bit
is set in the flags `f`. -/
def tfhdOffset (F : TfhdFlags) (f : Int) (k : Nat) : Nat :=
  8 + ((F.fields.take k).map fun mw => if hasFlag f mw.1 then mw.2 else 0).sum

/-- What the getters of a track-fragment header return, in the order `getFlags`,
`getTrackID`, `getBaseDataOffset`, `getSampleDescriptionIndex`, `getDefaultSampleDuration`,
`getDefaultSampleSize`, `getDefaultSampleFlags`. -/
def tfhdView (H : Heap) (F : TfhdFlags) (b : Box) : List (Option Int) :=
  [(TFHD.getFlags H b).map Prod.fst, (TFHD.getTrackID H b).map Prod.fst,
    (TFHD.getBaseDataOffset H F b).map Prod.fst,
    (TFHD.getSampleDescriptionIndex H F b).map Prod.fst,
    (TFHD.getDefaultSampleDuration H F b).map Prod.fst,
    (TFHD.getDefaultSampleSize H F b).map Prod.fst,
    (TFHD.getDefaultSampleFlags H F b).map Prod.fst]

/-- A 32-bit field read at position `q` of a buffer when it is present, 0 when it is not. -/
def field32 (present : Bool) (d : List Nat) (q : Nat) : Option Int :=
  if present then (ntohl d q).map Int.ofNat else some 0

/-- A 64-bit field read at position `q` of a buffer, as `getInt64` sums it, when it is
present, 0 when it is not. -/
def field64 (present : Bool) (d : List Nat) (q : Nat) : Option Int :=
  if present then long64 d q else some 0

/-- A track-fragment-header box of 40 bytes with the flags 59, under which all five optional
fields are present by the ISO masks: track 7, base data offset 1, sample description
index 2, default sample duration 3, size 4 and flags 5. -/
def tfhdFull : Box :=
  ⟨[0, 0, 0, 40, 116, 102, 104, 100, 0, 0, 0, 59, 0, 0, 0, 7, 0, 0, 0, 0, 0, 0, 0, 1,
    0, 0, 0, 2, 0, 0, 0, 3, 0, 0, 0, 4, 0, 0, 0, 5], 40, true⟩

theorem ntohl_lt {d : List Nat} {i v : Nat} (h : ntohl d i = some v) : v < 4294967296 := by
  unfold ntohl at h
  split at h
  · simp only [Option.some.injEq] at h
    omega
  · simp at h

theorem ntohl_congr {d e : List Nat} {i k : Nat}
    (h : ∀ j, j < 4 → d[i + j]? = e[k + j]?) : ntohl d i = ntohl e k := by
  have h0 := h 0 (by omega)
  have h1 := h 1 (by omega)
  have h2 := h 2 (by omega)
  have h3 := h 3 (by omega)
  simp only [Nat.add_zero] at h0
  simp only [ntohl, h0, h1, h2, h3]

theorem ntohl_isSome {d : List Nat} {i : Nat} (h : i + 4 ≤ d.length) :
    ∃ v, ntohl d i = some v := by
  have h0 : i < d.length := by omega
  have h1 : i + 1 < d.length := by omega
  have h2 : i + 2 < d.length := by omega
  have h3 : i + 3 < d.length := by omega
  simp [ntohl, List.getElem?_eq_getElem, h0, h1, h2, h3]

theorem ntohl_some_length {d : List Nat} {i v : Nat} (h : ntohl d i = some v) :
    i + 4 ≤ d.length := by
  unfold ntohl at h
  split at h
  · rename_i b0 b1 b2 b3 e0 e1 e2 e3
    have := (List.getElem?_eq_some.mp e3).1
    omega
  · simp at h

theorem length_patch {d : List Nat} {dst : Nat} {src : List Nat}
    (h : dst + src.length ≤ d.length) : (patch d dst src).length = d.length := by
  simp only [patch, List.length_append, List.length_take, List.length_drop]
  omega

theorem getElem?_patch {d : List Nat} {dst : Nat} {src : List Nat}
    (h : dst + src.length ≤ d.length) (j : Nat) :
    (patch d dst src)[j]? =
      if j < dst then d[j]? else if j < dst + src.length then src[j - dst]? else d[j]? := by
  have hl : (d.take dst).length = dst := by simp only [List.length_take]; omega
  simp only [patch, List.append_assoc]
  by_cases h1 : j < dst
  · rw [List.getElem?_append_left (by omega), List.getElem?_take_of_lt h1, if_pos h1]
  · rw [List.getElem?_append_right (by omega), if_neg h1, hl]
    by_cases h2 : j < dst + src.length
    · rw [List.getElem?_append_left (by omega), if_pos h2]
    · rw [List.getElem?_append_right (by omega), if_neg h2, List.getElem?_drop]
      congr 1
      omega

theorem htonl_length (v : Nat) : (htonl v).length = 4 := rfl

theorem ntohl_patch_htonl {d : List Nat} (h : 4 ≤ d.length) (v : Nat) :
    ntohl (patch d 0 (htonl v)) 0 = some (v % 4294967296) := by
  have hp : 0 + (htonl v).length ≤ d.length := by simp [htonl_length]; omega
  unfold ntohl
  simp only [getElem?_patch hp, htonl_length]
  simp [htonl]
  omega


theorem subSizeT_of_le {a b : Nat} (h : b ≤ a) (ha : a < 18446744073709551616) :
    subSizeT a b = a - b := by
  unfold subSizeT
  omega

theorem length_tail {d : List Nat} {T q : Nat} (hlen : T ≤ d.length) :
    ((d.drop q).take (T - q)).length = T - q := by
  simp only [List.length_take, List.length_drop]
  omega

theorem moveTail_eq {d : List Nat} {T p c w : Nat} (hT : ntohl d 0 = some T)
    (hpc : p + c ≤ T) (hlen : T ≤ d.length) (hdst : T + w ≤ d.length + c) :
    moveTail d p c w = some (patch d (p + w) ((d.drop (p + c)).take (T - (p + c)))) := by
  have hT32 := ntohl_lt hT
  have hs : subSizeT T (p + c) = T - (p + c) := subSizeT_of_le hpc (by omega)
  have hl := length_tail (q := p + c) hlen
  unfold moveTail
  rw [hT, Option.some_bind, hs]
  by_cases h0 : T - (p + c) > 0
  · rw [if_pos h0]
    unfold memmove
    rw [if_pos (by omega)]
    unfold memcpy
    rw [if_pos (by omega)]
  · rw [if_neg h0]
    have : T - (p + c) = 0 := by omega
    simp [this, patch]

theorem ntohl_moved {d : List Nat} {T p c w : Nat} (hT : ntohl d 0 = some T)
    (hlen : T ≤ d.length) (hdst : T + w ≤ d.length + c) (hpc : p + c ≤ T) (h4 : 4 ≤ p + w) :
    ntohl (patch d (p + w) ((d.drop (p + c)).take (T - (p + c)))) 0 = some T := by
  rw [← hT]
  apply ntohl_congr
  intro j hj
  have hl := length_tail (q := p + c) hlen
  rw [getElem?_patch (by omega), if_pos (by omega)]

theorem reserve_shrink_eq (H : Heap) {b : Box} {T p c w : Nat} (hT : b.boxedSize = some T)
    (hwc : w < c) (hpc : p + c ≤ T) (hlen : T ≤ b.data.length) (h4 : 4 ≤ p + w) :
    b.reserve H p c w = some (true, { b with data := resized b.data T p c w }) := by
  have hT32 := ntohl_lt hT
  have hl := length_tail (q := p + c) hlen
  have h4l := ntohl_some_length hT
  unfold Box.reserve
  rw [if_neg (by omega), if_neg (by omega), moveTail_eq hT hpc hlen (by omega), Option.some_bind,
    ntohl_moved hT hlen (by omega) hpc h4, Option.some_bind,
    subSizeT_of_le (by omega) (by omega)]
  unfold memcpy
  rw [if_pos (by rw [length_patch (by omega), htonl_length]; omega)]
  have : T - (c - w) = T + w - c := by omega
  simp [resized, this]

theorem growTail_eq {b : Box} {T p c w : Nat} (hT : b.boxedSize = some T)
    (hcw : c < w) (hpc : p + c ≤ T) (hlen : T + w ≤ b.data.length + c) (h4 : 4 ≤ p + w) :
    growTail b p c w = some (true, { b with data := resized b.data T p c w }) := by
  have hl := length_tail (d := b.data) (T := T) (q := p + c) (by omega)
  unfold growTail
  rw [moveTail_eq hT hpc (by omega) hlen, Option.some_bind,
    ntohl_moved hT (by omega) hlen hpc h4, Option.some_bind]
  unfold memcpy
  rw [if_pos (by rw [length_patch (by omega), htonl_length]; omega)]
  have : T + (w - c) = T + w - c := by omega
  simp [resized, this]

theorem length_regrown (H : Heap) (d : List Nat) (n : Nat) : (regrown H d n).length = n := by
  simp only [regrown, List.length_append, List.length_take, List.length_map, List.length_range]
  omega

theorem getElem?_regrown (H : Heap) {d : List Nat} {n j : Nat} (hj : j < n)
    (hd : j < d.length) : (regrown H d n)[j]? = d[j]? := by
  unfold regrown
  rw [List.getElem?_append_left (by simp only [List.length_take]; omega),
    List.getElem?_take_of_lt hj]

theorem reserve_grow_eq (H : Heap) {b : Box} {T p c w : Nat} (hT : b.boxedSize = some T)
    (hcw : c < w) (hpc : p + c ≤ T) (hcap : T + (w - c) ≤ b.data_size)
    (hlen : b.data_size ≤ b.data.length) (h4 : 4 ≤ p + w) :
    b.reserve H p c w = some (true, { b with data := resized b.data T p c w }) := by
  unfold Box.reserve
  rw [if_neg (by omega), if_pos hcw, hT, Option.some_bind, if_neg (by omega)]
  exact growTail_eq hT hcw hpc (by omega) h4

theorem reserve_realloc_eq (H : Heap) {b : Box} {T p c w : Nat} (hT : b.boxedSize = some T)
    (hcw : c < w) (hpc : p + c ≤ T) (hcap : b.data_size < T + (w - c))
    (hm : b.managed = true) (hg : H.grants (T + (w - c)) = true) (h4 : 4 ≤ p + w) :
    b.reserve H p c w = some (true,
      { data := resized (regrown H b.data (T + (w - c))) T p c w,
        data_size := T + (w - c), managed := true }) := by
  have h4l := ntohl_some_length hT
  have hT1 : ntohl (regrown H b.data (T + (w - c))) 0 = some T := by
    rw [← hT]
    apply ntohl_congr
    intro j hj
    exact getElem?_regrown H (by omega) (by omega)
  unfold Box.reserve
  rw [if_neg (by omega), if_pos hcw, hT, Option.some_bind, if_pos (by omega), if_neg (by simp [hm])]
  simp only [realloc, hg, if_true]
  rw [hT1, Option.some_bind]
  rw [growTail_eq (b := ⟨regrown H b.data (T + (w - c)), T + (w - c), b.managed⟩) (T := T)
    hT1 hcw hpc (by simp only [length_regrown]; omega) h4]
  simp [hm]


theorem getElem?_resized {d : List Nat} {T p c w : Nat} (hpc : p + c ≤ T)
    (hsrc : T ≤ d.length) (hdst : T + w ≤ d.length + c) (h4 : 4 ≤ d.length) {j : Nat}
    (hj : 4 ≤ j) : (resized d T p c w)[j]? =
      if p + w ≤ j ∧ j < T + w - c then d[j + c - w]? else d[j]? := by
  have hl := length_tail (q := p + c) hsrc
  have hin : p + w + ((d.drop (p + c)).take (T - (p + c))).length ≤ d.length := by omega
  unfold resized
  rw [getElem?_patch (by rw [length_patch hin, htonl_length]; omega), if_neg (by omega),
    if_neg (by rw [htonl_length]; omega), getElem?_patch hin, hl]
  by_cases h1 : j < p + w
  · rw [if_pos h1, if_neg (by omega)]
  · rw [if_neg h1]
    by_cases h2 : j < p + w + (T - (p + c))
    · rw [if_pos h2, if_pos (by omega), List.getElem?_take_of_lt (by omega), List.getElem?_drop]
      congr 1
      omega
    · rw [if_neg h2, if_neg (by omega)]

theorem length_resized {d : List Nat} {T p c w : Nat} (hpc : p + c ≤ T)
    (hsrc : T ≤ d.length) (hdst : T + w ≤ d.length + c) (h4 : 4 ≤ d.length) :
    (resized d T p c w).length = d.length := by
  have hl := length_tail (q := p + c) hsrc
  have hin : p + w + ((d.drop (p + c)).take (T - (p + c))).length ≤ d.length := by omega
  unfold resized
  rw [length_patch (by rw [length_patch hin, htonl_length]; omega), length_patch hin]

theorem ntohl_resized {d : List Nat} {T p c w : Nat} (hpc : p + c ≤ T)
    (hsrc : T ≤ d.length) (hdst : T + w ≤ d.length + c) (h4 : 4 ≤ d.length) :
    ntohl (resized d T p c w) 0 = some ((T + w - c) % 4294967296) := by
  have hl := length_tail (q := p + c) hsrc
  have hin : p + w + ((d.drop (p + c)).take (T - (p + c))).length ≤ d.length := by omega
  unfold resized
  exact ntohl_patch_htonl (by rw [length_patch hin]; omega) _


theorem moveTail_keeps_size {d d2 : List Nat} {p c w : Nat} (h : moveTail d p c w = some d2)
    (h4 : 4 ≤ p + w) : ntohl d2 0 = ntohl d 0 := by
  unfold moveTail at h
  cases hT : ntohl d 0 with
  | none => rw [hT] at h; simp at h
  | some T =>
    rw [hT, Option.some_bind] at h
    split at h
    · unfold memmove at h
      split at h
      · unfold memcpy at h
        split at h
        · rename_i hb
          simp only [Option.some.injEq] at h
          subst h
          rw [← hT]
          apply ntohl_congr
          intro j hj
          rw [getElem?_patch hb, if_pos (by omega)]
        · simp at h
      · simp at h
    · simp only [Option.some.injEq] at h
      subst h
      exact hT

theorem memcpy_htonl {d d3 : List Nat} {v : Nat} (h : memcpy d 0 (htonl v) = some d3) :
    ntohl d3 0 = some (v % 4294967296) ∧ d3.take 4 = htonl v := by
  unfold memcpy at h
  split at h
  · rename_i hb
    simp only [Option.some.injEq] at h
    subst h
    rw [htonl_length] at hb
    refine ⟨ntohl_patch_htonl (by omega) v, ?_⟩
    simp [patch, htonl]
  · simp at h

theorem growTail_size {b b' : Box} {r : Bool} {T p c w : Nat}
    (h : growTail b p c w = some (r, b')) (hT : b.boxedSize = some T) (h4 : 4 ≤ p + w) :
    b'.boxedSize = some ((T + (w - c)) % 4294967296) ∧ b'.data.take 4 = htonl (T + (w - c)) := by
  unfold growTail at h
  cases hm : moveTail b.data p c w with
  | none => rw [hm] at h; simp at h
  | some d =>
    have hd : ntohl d 0 = some T := by rw [moveTail_keeps_size hm h4]; exact hT
    rw [hm, Option.some_bind, hd, Option.some_bind] at h
    cases hc : memcpy d 0 (htonl (T + (w - c))) with
    | none => rw [hc] at h; simp at h
    | some d3 =>
      rw [hc] at h
      simp only [Option.map_some', Option.some.injEq, Prod.mk.injEq] at h
      obtain ⟨-, rfl⟩ := h
      exact memcpy_htonl hc

theorem reserve_size {H : Heap} {b b' : Box} {T p c w : Nat}
    (h : b.reserve H p c w = some (true, b')) (hT : b.boxedSize = some T) (hpc : p + c ≤ T)
    (h4 : 4 ≤ p + w) (hne : c ≠ w) :
    b'.boxedSize = some ((T + w - c) % 4294967296) ∧ b'.data.take 4 = htonl (T + w - c) := by
  have hT32 := ntohl_lt hT
  have h4l := ntohl_some_length hT
  unfold Box.reserve at h
  rw [if_neg hne] at h
  by_cases hcw : c < w
  · have e : T + (w - c) = T + w - c := by omega
    rw [if_pos hcw, hT, Option.some_bind] at h
    by_cases hcap : T + (w - c) > b.data_size
    · rw [if_pos hcap] at h
      by_cases hm : b.managed = false
      · rw [if_pos hm] at h; simp at h
      · rw [if_neg hm] at h
        unfold realloc at h
        by_cases hg : H.grants (T + (w - c)) = true
        · rw [if_pos hg] at h
          have hT1 : ntohl (regrown H b.data (T + (w - c))) 0 = some T := by
            rw [← hT]
            apply ntohl_congr
            intro j hj
            exact getElem?_regrown H (by omega) (by omega)
          simp only [hT1, Option.some_bind] at h
          rw [← e]
          exact growTail_size h hT1 h4
        · rw [if_neg hg] at h; simp at h
    · rw [if_neg hcap] at h
      rw [← e]
      exact growTail_size h hT h4
  · rw [if_neg hcw] at h
    cases hm : moveTail b.data p c w with
    | none => rw [hm] at h; simp at h
    | some d =>
      have hd : ntohl d 0 = some T := by rw [moveTail_keeps_size hm h4]; exact hT
      rw [hm, Option.some_bind, hd, Option.some_bind,
        subSizeT_of_le (by omega) (by omega)] at h
      cases hc : memcpy d 0 (htonl (T - (c - w))) with
      | none => rw [hc] at h; simp at h
      | some d3 =>
        rw [hc] at h
        simp only [Option.map_some', Option.some.injEq, Prod.mk.injEq, true_and] at h
        subst h
        have e : T + w - c = T - (c - w) := by omega
        rw [e]
        exact memcpy_htonl hc

/-- C1, counterexample: growing at position 0 of an 8-byte box by one byte moves the old
byte 2 (value 0) to position 3, where the new length is then stored over it. -/
theorem reserve_grow_counterexample :
    emptyMfhd.managed = true ∧ emptyMfhd.boxedSize = some 8 ∧
    emptyMfhd.reserve generous 0 0 1 =
      some (true, ⟨[0, 0, 0, 1, 8, 109, 102, 104, 100], 9, true⟩) ∧
    emptyMfhd.data[0 + 0 + 2]? = some 0 ∧
    (⟨[0, 0, 0, 1, 8, 109, 102, 104, 100], 9, true⟩ : Box).data[0 + 1 + 2]? = some 1 := by
  decide

/-- C1, as amended: on an owning box of declared length `T` whose declared length and
recorded capacity lie inside its allocation, growing `c` bytes at `p` to `w` bytes with
`p + c ≤ T` and `4 ≤ p + w`, the reallocation being granted, returns true; every byte that
was at `p + c + k` for `k < T - p - c` is afterwards at `p + w + k`, and every byte before
`p` outside the length prefix is unchanged. -/
theorem reserve_grow_moves_tail (H : Heap) (b : Box) (T p c w : Nat)
    (hm : b.managed = true) (hT : b.boxedSize = some T) (hlen : T ≤ b.data.length)
    (hcap : b.data_size ≤ b.data.length) (hcw : c < w) (hpc : p + c ≤ T) (h4 : 4 ≤ p + w)
    (hg : H.grants (T + (w - c)) = true) :
    ∃ b', b.reserve H p c w = some (true, b') ∧
      (∀ k, k < T - p - c → ∃ x, b.data[p + c + k]? = some x ∧ b'.data[p + w + k]? = some x) ∧
      (∀ j, 4 ≤ j → j < p → ∃ x, b.data[j]? = some x ∧ b'.data[j]? = some x) := by
  have h4l := ntohl_some_length hT
  by_cases hfit : T + (w - c) ≤ b.data_size
  · refine ⟨_, reserve_grow_eq H hT hcw hpc hfit hcap h4, ?_, ?_⟩
    · intro k hk
      refine ⟨b.data[p + c + k], List.getElem?_eq_getElem (by omega), ?_⟩
      show (resized b.data T p c w)[p + w + k]? = _
      rw [getElem?_resized hpc hlen (by omega) (by omega) (by omega), if_pos (by omega),
        ← List.getElem?_eq_getElem]
      congr 1
      omega
    · intro j hj4 hjp
      refine ⟨b.data[j], List.getElem?_eq_getElem (by omega), ?_⟩
      show (resized b.data T p c w)[j]? = _
      rw [getElem?_resized hpc hlen (by omega) (by omega) hj4, if_neg (by omega),
        ← List.getElem?_eq_getElem]
  · have hn := length_regrown H b.data (T + (w - c))
    refine ⟨_, reserve_realloc_eq H hT hcw hpc (by omega) hm hg h4, ?_, ?_⟩
    · intro k hk
      refine ⟨b.data[p + c + k], List.getElem?_eq_getElem (by omega), ?_⟩
      show (resized (regrown H b.data (T + (w - c))) T p c w)[p + w + k]? = _
      rw [getElem?_resized hpc (by omega) (by omega) (by omega) (by omega), if_pos (by omega),
        ← List.getElem?_eq_getElem]
      have e : p + w + k + c - w = p + c + k := by omega
      rw [e]
      exact getElem?_regrown H (by omega) (by omega)
    · intro j hj4 hjp
      refine ⟨b.data[j], List.getElem?_eq_getElem (by omega), ?_⟩
      show (resized (regrown H b.data (T + (w - c))) T p c w)[j]? = _
      rw [getElem?_resized hpc (by omega) (by omega) (by omega) hj4, if_neg (by omega),
        ← List.getElem?_eq_getElem]
      exact getElem?_regrown H (by omega) (by omega)

/-- C1, witness: two bytes reserved at position 9 of a 12-byte box. -/
theorem reserve_grow_moves_tail_witness :
    ∃ b', smallMfhd.reserve generous 9 0 2 = some (true, b') ∧
      (∀ k, k < 12 - 9 - 0 →
        ∃ x, smallMfhd.data[9 + 0 + k]? = some x ∧ b'.data[9 + 2 + k]? = some x) ∧
      (∀ j, 4 ≤ j → j < 9 → ∃ x, smallMfhd.data[j]? = some x ∧ b'.data[j]? = some x) :=
  reserve_grow_moves_tail generous smallMfhd 12 9 0 2 (by decide) (by decide) (by decide)
    (by decide) (by decide) (by decide) (by decide) (by decide)

/-- C2, counterexample: at position 0 the moved bytes overwrite the length prefix before it
is read back, so the length stored is 1 and not 9; and a growth of 2^32 bytes leaves the
32-bit prefix at 8. -/
theorem reserve_size_counterexample :
    (emptyMfhd.boxedSize = some 8 ∧
      emptyMfhd.reserve generous 0 0 1 =
        some (true, ⟨[0, 0, 0, 1, 8, 109, 102, 104, 100], 9, true⟩) ∧
      (⟨[0, 0, 0, 1, 8, 109, 102, 104, 100], 9, true⟩ : Box).boxedSize = some 1) ∧
    ∃ b', emptyMfhd.reserve generous 8 0 4294967296 = some (true, b') ∧
      b'.boxedSize = some 8 := by
  refine ⟨by decide, _, reserve_realloc_eq generous (b := emptyMfhd) (T := 8) (p := 8) (c := 0)
    (w := 4294967296) (by decide) (by decide) (by decide) (by decide) (by decide) (by decide)
    (by decide), ?_⟩
  have hn := length_regrown generous emptyMfhd.data (8 + (4294967296 - 0))
  show ntohl (resized (regrown generous emptyMfhd.data (8 + (4294967296 - 0))) 8 8 0
    4294967296) 0 = some 8
  rw [ntohl_resized (by decide) (by omega) (by omega) (by omega)]

/-- C2, as amended: when `reserve(p, c, w)` returns true on a box of declared length `T` with
`p + c ≤ T`, `4 ≤ p + w` and a new length below 2^32, `boxedSize()` afterwards is
`T + (w - c)` when growing and `T - (c - w)` when shrinking, and it is the big-endian value
of the first four bytes of the buffer, which `reserve` has written whenever `c ≠ w`. -/
theorem reserve_updates_boxedSize (H : Heap) (b b' : Box) (T p c w : Nat)
    (hT : b.boxedSize = some T) (hpc : p + c ≤ T) (h4 : 4 ≤ p + w)
    (h32 : T + (w - c) < 4294967296) (h : b.reserve H p c w = some (true, b')) :
    b'.boxedSize = some (if c ≤ w then T + (w - c) else T - (c - w)) ∧
      ntohl b'.data 0 = some (if c ≤ w then T + (w - c) else T - (c - w)) ∧
      (c ≠ w → b'.data.take 4 = htonl (if c ≤ w then T + (w - c) else T - (c - w))) := by
  have e : (if c ≤ w then T + (w - c) else T - (c - w)) = T + w - c := by
    split <;> omega
  rw [e]
  by_cases hne : c = w
  · subst hne
    have hb : b' = b := by
      unfold Box.reserve at h
      simpa using h.symm
    subst hb
    have e : T + c - c = T := by omega
    rw [e]
    exact ⟨hT, hT, fun hc => absurd rfl hc⟩
  · have hs := reserve_size h hT hpc h4 hne
    rw [Nat.mod_eq_of_lt (by omega)] at hs
    exact ⟨hs.1, hs.1, fun _ => hs.2⟩

/-- C2, witness: two bytes reserved at position 9 of a 12-byte box give length 14. -/
theorem reserve_updates_boxedSize_witness :
    (⟨[0, 0, 0, 14, 109, 102, 104, 100, 1, 2, 3, 2, 3, 4], 14, true⟩ : Box).boxedSize =
      some (if 0 ≤ 2 then 12 + (2 - 0) else 12 - (0 - 2)) ∧
    ntohl (⟨[0, 0, 0, 14, 109, 102, 104, 100, 1, 2, 3, 2, 3, 4], 14, true⟩ : Box).data 0 =
      some (if 0 ≤ 2 then 12 + (2 - 0) else 12 - (0 - 2)) ∧
    (0 ≠ 2 → (⟨[0, 0, 0, 14, 109, 102, 104, 100, 1, 2, 3, 2, 3, 4], 14, true⟩ : Box).data.take 4
      = htonl (if 0 ≤ 2 then 12 + (2 - 0) else 12 - (0 - 2))) :=
  reserve_updates_boxedSize generous smallMfhd _ 12 9 0 2 (by decide) (by decide) (by decide)
    (by decide) (by decide)

/-- C3, counterexample: shrinking the four bytes at position 0 of an 8-byte box to none moves
the old byte 7 (value 100) to position 3, where the new length is then stored over it. -/
theorem reserve_shrink_counterexample :
    emptyMfhd.boxedSize = some 8 ∧
    emptyMfhd.reserve generous 0 4 0 =
      some (true, ⟨[109, 102, 104, 96, 109, 102, 104, 100], 8, true⟩) ∧
    emptyMfhd.data[0 + 4 + 3]? = some 100 ∧
    (⟨[109, 102, 104, 96, 109, 102, 104, 100], 8, true⟩ : Box).data[0 + 0 + 3]? = some 96 := by
  decide

/-- C3, as amended: on a box of declared length `T` that lies inside its allocation, shrinking
`c` bytes at `p` to `w < c` bytes with `p + c ≤ T` and `4 ≤ p + w` returns true; every byte
that was at `p + c + k` for `k < T - p - c` is afterwards at `p + w + k`, every byte before
`p` outside the length prefix is unchanged, and the recorded capacity and the allocation
keep their size. -/
theorem reserve_shrink_moves_tail (H : Heap) (b : Box) (T p c w : Nat)
    (hT : b.boxedSize = some T) (hlen : T ≤ b.data.length) (hwc : w < c) (hpc : p + c ≤ T)
    (h4 : 4 ≤ p + w) :
    ∃ b', b.reserve H p c w = some (true, b') ∧
      (∀ k, k < T - p - c → ∃ x, b.data[p + c + k]? = some x ∧ b'.data[p + w + k]? = some x) ∧
      (∀ j, 4 ≤ j → j < p → ∃ x, b.data[j]? = some x ∧ b'.data[j]? = some x) ∧
      b'.data_size = b.data_size ∧ b'.data.length = b.data.length := by
  have h4l := ntohl_some_length hT
  refine ⟨_, reserve_shrink_eq H hT hwc hpc hlen h4, ?_, ?_, rfl, ?_⟩
  · intro k hk
    refine ⟨b.data[p + c + k], List.getElem?_eq_getElem (by omega), ?_⟩
    show (resized b.data T p c w)[p + w + k]? = _
    rw [getElem?_resized hpc hlen (by omega) (by omega) (by omega), if_pos (by omega),
      ← List.getElem?_eq_getElem]
    congr 1
    omega
  · intro j hj4 hjp
    refine ⟨b.data[j], List.getElem?_eq_getElem (by omega), ?_⟩
    show (resized b.data T p c w)[j]? = _
    rw [getElem?_resized hpc hlen (by omega) (by omega) hj4, if_neg (by omega),
      ← List.getElem?_eq_getElem]
  · exact length_resized hpc hlen (by omega) (by omega)

/-- C3, witness: the two bytes at position 8 of a 12-byte box shrunk to none. -/
theorem reserve_shrink_moves_tail_witness :
    ∃ b', smallMfhd.reserve exhausted 8 2 0 = some (true, b') ∧
      (∀ k, k < 12 - 8 - 2 →
        ∃ x, smallMfhd.data[8 + 2 + k]? = some x ∧ b'.data[8 + 0 + k]? = some x) ∧
      (∀ j, 4 ≤ j → j < 8 → ∃ x, smallMfhd.data[j]? = some x ∧ b'.data[j]? = some x) ∧
      b'.data_size = smallMfhd.data_size ∧ b'.data.length = smallMfhd.data.length :=
  reserve_shrink_moves_tail exhausted smallMfhd 12 8 2 0 (by decide) (by decide) (by decide)
    (by decide) (by decide)

theorem ntohl_take {d : List Nat} {n i : Nat} (h : i + 4 ≤ n) :
    ntohl (d.take n) i = ntohl d i := by
  apply ntohl_congr
  intro j hj
  exact List.getElem?_take_of_lt (by omega)

theorem read_eq (H : Heap) {b : Box} {s : List Nat} {L : Nat} (hm : b.managed = true)
    (hL : ntohl s 0 = some L) (h8 : 4 < s.length) (hs : L ≤ s.length)
    (hg : H.grants L = true) :
    b.read H s = some (true, { b with data := s.take L }, s.drop L) := by
  unfold Box.read
  rw [if_neg (by simp [hm]), if_pos (by omega), hL, Option.some_bind, if_pos (by omega),
    if_pos hg]

/-- C4, counterexample: the stream holds a complete 8-byte box, but the allocator refuses the
8 bytes and `read` returns false. -/
theorem read_counterexample :
    emptyMfhd.managed = true ∧ ntohl [0, 0, 0, 8, 109, 102, 104, 100] 0 = some 8 ∧
    emptyMfhd.read exhausted [0, 0, 0, 8, 109, 102, 104, 100] =
      some (false, emptyMfhd, [0, 0, 0, 8, 109, 102, 104, 100]) := by
  decide

/-- C4, as amended: when the first four bytes of the stream declare a length `L ≥ 8`, the
stream holds at least `L` bytes and the allocator grants `L` bytes, `read` on an owning box
returns true, the buffer of the box is the first `L` bytes of the stream, so that
`boxedSize()` is `L`, and the stream is left without those bytes. -/
theorem read_takes_box (H : Heap) (b : Box) (s : List Nat) (L : Nat) (hm : b.managed = true)
    (hL : ntohl s 0 = some L) (h8 : 8 ≤ L) (hs : L ≤ s.length) (hg : H.grants L = true) :
    ∃ b', b.read H s = some (true, b', s.drop L) ∧ b'.data = s.take L ∧
      b'.boxedSize = some L ∧ s.take L ++ s.drop L = s := by
  refine ⟨_, read_eq H hm hL (by omega) hs hg, rfl, ?_, List.take_append_drop L s⟩
  show ntohl (s.take L) 0 = some L
  rw [ntohl_take (by omega), hL]

/-- C4, witness: an 8-byte box followed by two more bytes. -/
theorem read_takes_box_witness :
    ∃ b', smallMfhd.read generous [0, 0, 0, 8, 109, 102, 104, 100, 5, 6] =
        some (true, b', [0, 0, 0, 8, 109, 102, 104, 100, 5, 6].drop 8) ∧
      b'.data = [0, 0, 0, 8, 109, 102, 104, 100, 5, 6].take 8 ∧ b'.boxedSize = some 8 ∧
      [0, 0, 0, 8, 109, 102, 104, 100, 5, 6].take 8 ++ [0, 0, 0, 8, 109, 102, 104, 100, 5, 6].drop 8
        = [0, 0, 0, 8, 109, 102, 104, 100, 5, 6] :=
  read_takes_box generous smallMfhd [0, 0, 0, 8, 109, 102, 104, 100, 5, 6] 8 (by decide)
    (by decide) (by decide) (by decide) (by decide)

/-- C5: a `read` that returns false leaves the box and the stream as they were; and `read`
returns false on a non-owning box, on a stream shorter than the length its first four bytes
declare, and on a stream too short to declare one. -/
theorem read_failure (H : Heap) (b : Box) (s : List Nat) :
    (∀ b' s', b.read H s = some (false, b', s') → b' = b ∧ s' = s) ∧
    (b.managed = false → b.read H s = some (false, b, s)) ∧
    (∀ L, ntohl s 0 = some L → s.length < L → b.read H s = some (false, b, s)) ∧
    (s.length < 4 → b.read H s = some (false, b, s)) := by
  refine ⟨?_, ?_, ?_, ?_⟩
  · intro b' s' h
    unfold Box.read at h
    split at h
    · simp only [Option.some.injEq, Prod.mk.injEq, true_and] at h
      exact ⟨h.1.symm, h.2.symm⟩
    · split at h
      · cases hL : ntohl s 0 with
        | none => rw [hL] at h; simp at h
        | some L =>
          rw [hL, Option.some_bind] at h
          split at h
          · split at h
            · simp at h
            · simp only [Option.some.injEq, Prod.mk.injEq, true_and] at h
              exact ⟨h.1.symm, h.2.symm⟩
          · simp only [Option.some.injEq, Prod.mk.injEq, true_and] at h
            exact ⟨h.1.symm, h.2.symm⟩
      · simp only [Option.some.injEq, Prod.mk.injEq, true_and] at h
        exact ⟨h.1.symm, h.2.symm⟩
  · intro hm
    unfold Box.read
    rw [if_pos hm]
  · intro L hL hlt
    unfold Box.read
    split
    · rfl
    · split
      · rw [hL, Option.some_bind, if_neg (by omega)]
      · rfl
  · intro hlt
    unfold Box.read
    split
    · rfl
    · rw [if_neg (by omega)]

/-- C5, witness: a stream of five bytes that declares sixteen. -/
theorem read_failure_witness :
    emptyMfhd.read generous [0, 0, 0, 16, 1] = some (false, emptyMfhd, [0, 0, 0, 16, 1]) :=
  (read_failure generous emptyMfhd [0, 0, 0, 16, 1]).2.2.1 16 (by decide) (by decide)

theorem getInt8_inside (H : Heap) {b : Box} {T i : Nat} (hT : b.boxedSize = some T)
    (hi : i + 8 < T) : b.getInt8 H i = b.data[i + 8]?.map fun x => (toChar x, b) := by
  unfold Box.getInt8
  simp only [hT, Option.some_bind]
  rw [if_neg (by omega)]

theorem getInt16_inside (H : Heap) {b : Box} {T i : Nat} (hT : b.boxedSize = some T)
    (hi : i + 8 + 1 < T) : b.getInt16 H i = (short16 b.data (i + 8)).map fun x => (x, b) := by
  unfold Box.getInt16
  simp only [hT, Option.some_bind]
  rw [if_neg (by omega)]

theorem getInt24_inside (H : Heap) {b : Box} {T i : Nat} (hT : b.boxedSize = some T)
    (hi : i + 8 + 2 < T) : b.getInt24 H i = (long24 b.data (i + 8)).map fun x => (x, b) := by
  unfold Box.getInt24
  simp only [hT, Option.some_bind]
  rw [if_neg (by omega)]

theorem getInt32_inside (H : Heap) {b : Box} {T i : Nat} (hT : b.boxedSize = some T)
    (hi : i + 8 + 3 < T) :
    b.getInt32 H i = (ntohl b.data (i + 8)).map fun x => (Int.ofNat x, b) := by
  unfold Box.getInt32
  simp only [hT, Option.some_bind]
  rw [if_neg (by omega)]

theorem getInt64_inside (H : Heap) {b : Box} {T i : Nat} (hT : b.boxedSize = some T)
    (hi : i + 8 + 7 < T) : b.getInt64 H i = (long64 b.data (i + 8)).map fun x => (x, b) := by
  unfold Box.getInt64
  simp only [hT, Option.some_bind]
  rw [if_neg (by omega)]

theorem getStringLen_inside {b : Box} {T i : Nat} (hT : b.boxedSize = some T)
    (hi : i + 8 < T) : b.getStringLen i = strlen b.data (i + 8) := by
  unfold Box.getStringLen
  simp only [hT, Option.some_bind]
  rw [if_neg (by omega)]

theorem getString_inside (H : Heap) {b : Box} {T i : Nat} (hT : b.boxedSize = some T)
    (hi : i + 8 < T) : b.getString H i = (cstring b.data (i + 8)).map fun s => (some s, b) := by
  unfold Box.getString
  simp only [hT, Option.some_bind]
  rw [if_neg (by omega)]

theorem short16_take {d : List Nat} {n k : Nat} (h : k + 2 ≤ n) :
    short16 (d.take n) k = short16 d k := by
  unfold short16
  rw [List.getElem?_take_of_lt (by omega), List.getElem?_take_of_lt (by omega)]

theorem long24_take {d : List Nat} {n k : Nat} (h : k + 3 ≤ n) :
    long24 (d.take n) k = long24 d k := by
  unfold long24
  rw [List.getElem?_take_of_lt (by omega), List.getElem?_take_of_lt (by omega),
    List.getElem?_take_of_lt (by omega)]

theorem long64_take {d : List Nat} {n k : Nat} (h : k + 8 ≤ n) :
    long64 (d.take n) k = long64 d k := by
  unfold long64
  rw [List.getElem?_take_of_lt (by omega), List.getElem?_take_of_lt (by omega),
    List.getElem?_take_of_lt (by omega), List.getElem?_take_of_lt (by omega),
    List.getElem?_take_of_lt (by omega), List.getElem?_take_of_lt (by omega),
    List.getElem?_take_of_lt (by omega), List.getElem?_take_of_lt (by omega)]

theorem short16_isSome {d : List Nat} {k : Nat} (h : k + 2 ≤ d.length) :
    ∃ v, short16 d k = some v := by
  unfold short16
  rw [List.getElem?_eq_getElem (by omega), List.getElem?_eq_getElem (by omega)]
  exact ⟨_, rfl⟩

theorem long24_isSome {d : List Nat} {k : Nat} (h : k + 3 ≤ d.length) :
    ∃ v, long24 d k = some v := by
  unfold long24
  rw [List.getElem?_eq_getElem (by omega), List.getElem?_eq_getElem (by omega),
    List.getElem?_eq_getElem (by omega)]
  exact ⟨_, rfl⟩

theorem long64_isSome {d : List Nat} {k : Nat} (h : k + 8 ≤ d.length) :
    ∃ v, long64 d k = some v := by
  unfold long64
  rw [List.getElem?_eq_getElem (by omega), List.getElem?_eq_getElem (by omega),
    List.getElem?_eq_getElem (by omega), List.getElem?_eq_getElem (by omega),
    List.getElem?_eq_getElem (by omega), List.getElem?_eq_getElem (by omega),
    List.getElem?_eq_getElem (by omega), List.getElem?_eq_getElem (by omega)]
  exact ⟨_, rfl⟩

theorem strlenFrom_of_zero : ∀ (l : List Nat) (n : Nat), l[n]? = some 0 →
    ∃ k, k ≤ n ∧ strlenFrom l = some k ∧ ∀ m, k < m → strlenFrom (l.take m) = some k
  | [], n, h => by simp at h
  | x :: xs, n, h => by
    by_cases hx : x = 0
    · subst hx
      refine ⟨0, Nat.zero_le _, by simp [strlenFrom], ?_⟩
      intro m hm
      obtain ⟨m', rfl⟩ : ∃ m', m = m' + 1 := ⟨m - 1, by omega⟩
      simp [strlenFrom]
    · cases n with
      | zero =>
        simp only [List.getElem?_cons_zero, Option.some.injEq] at h
        exact absurd h hx
      | succ n' =>
        rw [List.getElem?_cons_succ] at h
        obtain ⟨k, hk, hs, ht⟩ := strlenFrom_of_zero xs n' h
        refine ⟨k + 1, by omega, by simp [strlenFrom, hx, hs], ?_⟩
        intro m hm
        obtain ⟨m', rfl⟩ : ∃ m', m = m' + 1 := ⟨m - 1, by omega⟩
        simp [strlenFrom, hx, ht m' (by omega)]

theorem cstring_take {d : List Nat} {T p n : Nat} (hn : p + n < T)
    (hz : d[p + n]? = some 0) :
    ∃ s, cstring d p = some s ∧ cstring (d.take T) p = some s ∧
      strlen d p = some s.length ∧ strlen (d.take T) p = some s.length := by
  have hz' : (d.drop p)[n]? = some 0 := by rw [List.getElem?_drop]; exact hz
  obtain ⟨k, hk, hs, ht⟩ := strlenFrom_of_zero (d.drop p) n hz'
  have hlen : p + n < d.length := (List.getElem?_eq_some.mp hz).1
  have hkl : ((d.drop p).take k).length = k := by
    simp only [List.length_take, List.length_drop]; omega
  have h2 : strlenFrom ((d.take T).drop p) = some k := by
    rw [List.drop_take]
    exact ht (T - p) (by omega)
  refine ⟨(d.drop p).take k, ?_, ?_, ?_, ?_⟩
  · simp [cstring, strlen, hs]
  · simp only [cstring, strlen, h2, Option.map_some', Option.some.injEq]
    rw [List.drop_take, List.take_take]
    congr 1
    omega
  · rw [hkl]; exact hs
  · rw [hkl]; exact h2


/-- C6, counterexample. A refused allocation makes `read` return false on the bytes of a
12-byte box. And the box three setters leave of a fresh one, once sent through `read`,
answers `getInt32(6)`, whose field straddles the end of the payload, with another value, and
has lost the terminator of the string at offset 1, which the original keeps in the slack
behind its declared length. -/
theorem round_trip_counterexample :
    (smallMfhd.boxedSize = some 12 ∧
      freshBox.read exhausted (smallMfhd.data.take 12) =
        some (false, freshBox, smallMfhd.data.take 12)) ∧
    (((freshBox.setString generous [65, 66, 67, 68, 69, 70, 71, 72, 73, 74] 0).bind
        fun b1 => b1.setString generous [] 0).bind fun b2 => b2.setInt8 generous 88 8)
      = some slackBox ∧
    slackBox.boxedSize = some 17 ∧
    freshBox.read generous (slackBox.data.take 17) = some (true, rereadBox, []) ∧
    (slackBox.getInt32 generous 6).map Prod.fst = some 1229609034 ∧
    (rereadBox.getInt32 generous 6).map Prod.fst = some 1229608960 ∧
    (slackBox.getString generous 1).map Prod.fst = some (some [68, 69, 70, 71, 72, 73, 74, 88, 74]) ∧
    rereadBox.getString generous 1 = none := by
  decide

/-- C6, as amended: when the allocator grants the bytes, `read` on an owning box, fed exactly
the `T ≥ 8` declared bytes of a box `b`, returns true and empties the stream; on the box it
yields each integer getter whose field lies inside the payload, and each string getter at an
offset from which a zero byte follows inside the payload, returns what it returns on `b`. -/
theorem read_round_trip (H : Heap) (f b : Box) (T : Nat) (hf : f.managed = true)
    (hT : b.boxedSize = some T) (h8 : 8 ≤ T) (hlen : T ≤ b.data.length)
    (hg : H.grants T = true) :
    ∃ f', f.read H (b.data.take T) = some (true, f', []) ∧ f'.data = b.data.take T ∧
      f'.boxedSize = some T ∧
      (∀ i, i + 8 + 1 ≤ T → ∃ v, b.getInt8 H i = some (v, b) ∧ f'.getInt8 H i = some (v, f')) ∧
      (∀ i, i + 8 + 2 ≤ T →
        ∃ v, b.getInt16 H i = some (v, b) ∧ f'.getInt16 H i = some (v, f')) ∧
      (∀ i, i + 8 + 3 ≤ T →
        ∃ v, b.getInt24 H i = some (v, b) ∧ f'.getInt24 H i = some (v, f')) ∧
      (∀ i, i + 8 + 4 ≤ T →
        ∃ v, b.getInt32 H i = some (v, b) ∧ f'.getInt32 H i = some (v, f')) ∧
      (∀ i, i + 8 + 8 ≤ T →
        ∃ v, b.getInt64 H i = some (v, b) ∧ f'.getInt64 H i = some (v, f')) ∧
      (∀ i, (∃ n, i + 8 + n < T ∧ b.data[i + 8 + n]? = some 0) →
        ∃ s, b.getString H i = some (some s, b) ∧ f'.getString H i = some (some s, f') ∧
          b.getStringLen i = some s.length ∧ f'.getStringLen i = some s.length) := by
  have hl : (b.data.take T).length = T := by simp only [List.length_take]; omega
  have hT' : ntohl (b.data.take T) 0 = some T := by rw [ntohl_take (by omega)]; exact hT
  have hr := read_eq H hf hT' (by omega) (by omega) hg
  have e1 : (b.data.take T).take T = b.data.take T := by rw [List.take_take, Nat.min_self]
  have e2 : (b.data.take T).drop T = [] := List.drop_eq_nil_of_le (by omega)
  rw [e1, e2] at hr
  have hfT : ({ f with data := b.data.take T } : Box).boxedSize = some T := hT'
  refine ⟨_, hr, rfl, hfT, ?_, ?_, ?_, ?_, ?_, ?_⟩
  · intro i hi
    refine ⟨toChar b.data[i + 8], ?_, ?_⟩
    · rw [getInt8_inside H hT (by omega), List.getElem?_eq_getElem (by omega)]; rfl
    · rw [getInt8_inside H hfT (by omega)]
      show ((b.data.take T)[i + 8]?).map _ = _
      rw [List.getElem?_take_of_lt (by omega), List.getElem?_eq_getElem (by omega)]; rfl
  · intro i hi
    obtain ⟨v, hv⟩ := short16_isSome (d := b.data) (k := i + 8) (by omega)
    refine ⟨v, ?_, ?_⟩
    · rw [getInt16_inside H hT (by omega), hv]; rfl
    · rw [getInt16_inside H hfT (by omega)]
      show (short16 (b.data.take T) (i + 8)).map _ = _
      rw [short16_take (by omega), hv]; rfl
  · intro i hi
    obtain ⟨v, hv⟩ := long24_isSome (d := b.data) (k := i + 8) (by omega)
    refine ⟨v, ?_, ?_⟩
    · rw [getInt24_inside H hT (by omega), hv]; rfl
    · rw [getInt24_inside H hfT (by omega)]
      show (long24 (b.data.take T) (i + 8)).map _ = _
      rw [long24_take (by omega), hv]; rfl
  · intro i hi
    obtain ⟨v, hv⟩ := ntohl_isSome (d := b.data) (i := i + 8) (by omega)
    refine ⟨Int.ofNat v, ?_, ?_⟩
    · rw [getInt32_inside H hT (by omega), hv]; rfl
    · rw [getInt32_inside H hfT (by omega)]
      show (ntohl (b.data.take T) (i + 8)).map _ = _
      rw [ntohl_take (by omega), hv]; rfl
  · intro i hi
    obtain ⟨v, hv⟩ := long64_isSome (d := b.data) (k := i + 8) (by omega)
    refine ⟨v, ?_, ?_⟩
    · rw [getInt64_inside H hT (by omega), hv]; rfl
    · rw [getInt64_inside H hfT (by omega)]
      show (long64 (b.data.take T) (i + 8)).map _ = _
      rw [long64_take (by omega), hv]; rfl
  · rintro i ⟨n, hn, hz⟩
    obtain ⟨s, h1, h2, h3, h4⟩ := cstring_take (T := T) hn hz
    refine ⟨s, ?_, ?_, ?_, ?_⟩
    · rw [getString_inside H hT (by omega), h1]; rfl
    · rw [getString_inside H hfT (by omega)]
      show (cstring (b.data.take T) (i + 8)).map _ = _
      rw [h2]; rfl
    · rw [getStringLen_inside hT (by omega), h3]
    · rw [getStringLen_inside hfT (by omega)]
      show strlen (b.data.take T) (i + 8) = _
      rw [h4]

/-- C6, witness: the 12-byte box with payload 1, 2, 3, 4 read into a fresh box. -/
theorem read_round_trip_witness :
    ∃ f', freshBox.read generous (smallMfhd.data.take 12) = some (true, f', []) ∧
      f'.data = smallMfhd.data.take 12 ∧ f'.boxedSize = some 12 ∧
      (∀ i, i + 8 + 1 ≤ 12 →
        ∃ v, smallMfhd.getInt8 generous i = some (v, smallMfhd) ∧
          f'.getInt8 generous i = some (v, f')) ∧
      (∀ i, i + 8 + 2 ≤ 12 →
        ∃ v, smallMfhd.getInt16 generous i = some (v, smallMfhd) ∧
          f'.getInt16 generous i = some (v, f')) ∧
      (∀ i, i + 8 + 3 ≤ 12 →
        ∃ v, smallMfhd.getInt24 generous i = some (v, smallMfhd) ∧
          f'.getInt24 generous i = some (v, f')) ∧
      (∀ i, i + 8 + 4 ≤ 12 →
        ∃ v, smallMfhd.getInt32 generous i = some (v, smallMfhd) ∧
          f'.getInt32 generous i = some (v, f')) ∧
      (∀ i, i + 8 + 8 ≤ 12 →
        ∃ v, smallMfhd.getInt64 generous i = some (v, smallMfhd) ∧
          f'.getInt64 generous i = some (v, f')) ∧
      (∀ i, (∃ n, i + 8 + n < 12 ∧ smallMfhd.data[i + 8 + n]? = some 0) →
        ∃ s, smallMfhd.getString generous i = some (some s, smallMfhd) ∧
          f'.getString generous i = some (some s, f') ∧
          smallMfhd.getStringLen i = some s.length ∧ f'.getStringLen i = some s.length) :=
  read_round_trip generous freshBox smallMfhd 12 (by decide) (by decide) (by decide)
    (by decide) (by decide)

theorem strlenFrom_append {s : List Nat} (hs : ∀ x ∈ s, x ≠ 0) (post : List Nat) :
    strlenFrom (s ++ 0 :: post) = some s.length := by
  induction s with
  | nil => simp [strlenFrom]
  | cons x xs ih =>
    have hx : x ≠ 0 := hs x (List.mem_cons_self x xs)
    have hxs : ∀ y ∈ xs, y ≠ 0 := fun y hy => hs y (List.mem_cons_of_mem x hy)
    simp [strlenFrom, hx, ih hxs]

theorem cstring_at {d pre s post : List Nat} (hd : d = pre ++ (s ++ 0 :: post))
    (hs : ∀ x ∈ s, x ≠ 0) :
    strlen d pre.length = some s.length ∧ cstring d pre.length = some s := by
  have hdrop : d.drop pre.length = s ++ 0 :: post := by rw [hd, List.drop_left]
  have hl : strlen d pre.length = some s.length := by
    unfold strlen
    rw [hdrop]
    exact strlenFrom_append hs post
  refine ⟨hl, ?_⟩
  unfold cstring
  rw [hl, Option.map_some', hdrop, List.take_left]

theorem getStringLen_at {b : Box} {T loc : Nat} {pre s post : List Nat}
    (hT : b.boxedSize = some T) (hd : b.data = pre ++ (s ++ 0 :: post))
    (hp : pre.length = loc + 8) (hs : ∀ x ∈ s, x ≠ 0) (hin : loc + 8 < T) :
    b.getStringLen loc = some s.length := by
  rw [getStringLen_inside hT hin, ← hp]
  exact (cstring_at hd hs).1

theorem getString_at (H : Heap) {b : Box} {T loc : Nat} {pre s post : List Nat}
    (hT : b.boxedSize = some T) (hd : b.data = pre ++ (s ++ 0 :: post))
    (hp : pre.length = loc + 8) (hs : ∀ x ∈ s, x ≠ 0) (hin : loc + 8 < T) :
    b.getString H loc = some (some s, b) := by
  rw [getString_inside H hT hin, ← hp, (cstring_at hd hs).2]
  rfl

theorem getInt8_at (H : Heap) {b : Box} {T loc x : Nat} {pre post : List Nat}
    (hT : b.boxedSize = some T) (hd : b.data = pre ++ x :: post)
    (hp : pre.length = loc + 8) (hin : loc + 8 < T) :
    b.getInt8 H loc = some (toChar x, b) := by
  rw [getInt8_inside H hT hin, ← hp, hd, List.getElem?_append_right (Nat.le_refl _)]
  simp

theorem toChar_small {x : Nat} (h : x < 128) : toChar x = (x : Int) := by
  unfold toChar
  rw [Nat.mod_eq_of_lt (by omega), if_pos h]

theorem zstrings_append (l1 l2 : List (List Nat)) :
    zstrings (l1 ++ l2) = zstrings l1 ++ zstrings l2 := by
  induction l1 with
  | nil => rfl
  | cons s ss ih => simp [zstrings, ih]

theorem skipStrings_zstrings {b : Box} {T : Nat} (hT : b.boxedSize = some T) :
    ∀ (ss : List (List Nat)) (pre post : List Nat) (loc : Nat),
      b.data = pre ++ (zstrings ss ++ post) → pre.length = loc + 8 →
      (∀ s ∈ ss, ∀ x ∈ s, x ≠ 0) → loc + 8 + (zstrings ss).length ≤ T →
      skipStrings b ss.length loc = some (loc + (zstrings ss).length)
  | [], _, _, _, _, _, _, _ => by simp [skipStrings, zstrings]
  | s :: ss, pre, post, loc, hd, hp, hs, hin => by
    have hs0 : ∀ x ∈ s, x ≠ 0 := hs s (List.mem_cons_self s ss)
    have hss : ∀ t ∈ ss, ∀ x ∈ t, x ≠ 0 := fun t ht => hs t (List.mem_cons_of_mem s ht)
    have hl : (zstrings (s :: ss)).length = s.length + 1 + (zstrings ss).length := by
      simp [zstrings]; omega
    have hd1 : b.data = pre ++ (s ++ 0 :: (zstrings ss ++ post)) := by
      rw [hd]; simp [zstrings]
    have hd2 : b.data = (pre ++ (s ++ [0])) ++ (zstrings ss ++ post) := by
      rw [hd]; simp [zstrings]
    have ih := skipStrings_zstrings hT ss (pre ++ (s ++ [0])) post (loc + s.length + 1) hd2
      (by simp [hp]; omega) hss (by omega)
    simp only [skipStrings, List.length_cons]
    rw [getStringLen_at hT hd1 hp hs0 (by omega), Option.some_bind, ih, hl]
    congr 1
    omega

theorem skipCounted_zstrings {count : Box → Option (Int × Box)} {b : Box} {T N : Nat}
    (hT : b.boxedSize = some T) (hc : count b = some ((N : Int), b)) :
    ∀ (ss : List (List Nat)) (pre post : List Nat) (fuel i loc : Nat),
      b.data = pre ++ (zstrings ss ++ post) → pre.length = loc + 8 →
      (∀ s ∈ ss, ∀ x ∈ s, x ≠ 0) → loc + 8 + (zstrings ss).length ≤ T →
      i + ss.length = N → ss.length < fuel →
      skipCounted count fuel i loc b = some (loc + (zstrings ss).length, b)
  | [], _, _, fuel, i, loc, _, _, _, _, hN, hf => by
    obtain ⟨f', rfl⟩ : ∃ f', fuel = f' + 1 := ⟨fuel - 1, by simp at hf; omega⟩
    simp only [List.length_nil, Nat.add_zero] at hN
    subst hN
    simp [skipCounted, hc, zstrings]
  | s :: ss, pre, post, fuel, i, loc, hd, hp, hs, hin, hN, hf => by
    obtain ⟨f', rfl⟩ : ∃ f', fuel = f' + 1 := ⟨fuel - 1, by simp at hf; omega⟩
    have hs0 : ∀ x ∈ s, x ≠ 0 := hs s (List.mem_cons_self s ss)
    have hss : ∀ t ∈ ss, ∀ x ∈ t, x ≠ 0 := fun t ht => hs t (List.mem_cons_of_mem s ht)
    have hl : (zstrings (s :: ss)).length = s.length + 1 + (zstrings ss).length := by
      simp [zstrings]; omega
    have hd1 : b.data = pre ++ (s ++ 0 :: (zstrings ss ++ post)) := by
      rw [hd]; simp [zstrings]
    have hd2 : b.data = (pre ++ (s ++ [0])) ++ (zstrings ss ++ post) := by
      rw [hd]; simp [zstrings]
    simp only [List.length_cons] at hN hf
    have ih := skipCounted_zstrings hT hc ss (pre ++ (s ++ [0])) post f' (i + 1)
      (loc + s.length + 1) hd2 (by simp [hp]; omega) hss (by omega) (by omega) (by omega)
    have hlt : (i : Int) < (N : Int) := by omega
    simp only [skipCounted, hc, Option.some_bind]
    rw [if_pos hlt, getStringLen_at hT hd1 hp hs0 (by omega), Option.some_bind, ih, hl]
    congr 2
    omega


theorem toChar_le (x : Nat) : toChar x ≤ 127 := by
  unfold toChar
  split <;> omega

theorem getInt8_le {H : Heap} {b : Box} {i : Nat} {r : Int × Box}
    (h : b.getInt8 H i = some r) : r.1 ≤ 127 := by
  unfold Box.getInt8 at h
  cases hT : b.boxedSize with
  | none => rw [hT] at h; simp at h
  | some size =>
    rw [hT, Option.some_bind] at h
    split at h
    · cases hr : b.reserve H (i + 8) 0 1 with
      | none => rw [hr] at h; simp at h
      | some r1 =>
        rw [hr, Option.some_bind] at h
        split at h
        · simp only [Option.some.injEq] at h
          subst h
          show (0 : Int) ≤ 127
          omega
        · simp only [Option.map_eq_some'] at h
          obtain ⟨x, -, rfl⟩ := h
          exact toChar_le x
    · simp only [Option.map_eq_some'] at h
      obtain ⟨x, -, rfl⟩ := h
      exact toChar_le x

theorem getServerEntryCount_le {H : Heap} {b : Box} {r : Int × Box}
    (h : ABST.getServerEntryCount H b = some r) : r.1 ≤ 127 := by
  unfold ABST.getServerEntryCount at h
  simp only [Option.bind_eq_some] at h
  obtain ⟨len, -, h⟩ := h
  exact getInt8_le h

theorem getQualityEntryCount_le {H : Heap} {b : Box} {r : Int × Box}
    (h : ABST.getQualityEntryCount H b = some r) : r.1 ≤ 127 := by
  unfold ABST.getQualityEntryCount at h
  simp only [Option.bind_eq_some] at h
  obtain ⟨len, -, r1, -, h⟩ := h
  exact getInt8_le h

/-- The 129 tests `skipCounted` is given are never used up: with a bound that is a signed
`char`, more fuel changes nothing. -/
theorem skipCounted_fuel {count : Box → Option (Int × Box)}
    (hc : ∀ b r, count b = some r → r.1 ≤ 127) :
    ∀ (n fuel fuel' i loc : Nat) (b : Box), i + n = 128 → n < fuel → n < fuel' →
      skipCounted count fuel i loc b = skipCounted count fuel' i loc b
  | 0, fuel, fuel', i, loc, b, hi, hf, hf' => by
    obtain ⟨f, rfl⟩ : ∃ f, fuel = f + 1 := ⟨fuel - 1, by omega⟩
    obtain ⟨f', rfl⟩ : ∃ f', fuel' = f' + 1 := ⟨fuel' - 1, by omega⟩
    simp only [skipCounted]
    cases hcb : count b with
    | none => rfl
    | some r =>
      have := hc b r hcb
      simp only [Option.some_bind]
      rw [if_neg (by omega), if_neg (by omega)]
  | n + 1, fuel, fuel', i, loc, b, hi, hf, hf' => by
    obtain ⟨f, rfl⟩ : ∃ f, fuel = f + 1 := ⟨fuel - 1, by omega⟩
    obtain ⟨f', rfl⟩ : ∃ f', fuel' = f' + 1 := ⟨fuel' - 1, by omega⟩
    simp only [skipCounted]
    cases hcb : count b with
    | none => rfl
    | some r =>
      simp only [Option.some_bind]
      split
      · cases hl : r.2.getStringLen loc with
        | none => rfl
        | some len =>
          simp only [Option.some_bind]
          exact skipCounted_fuel hc n f f' (i + 1) (loc + len + 1) r.2 (by omega) (by omega)
            (by omega)
      · rfl

theorem length_abstPayload (fixed ident : List Nat) (servers qualities : List (List Nat))
    (drm meta : List Nat) :
    (abstPayload fixed ident servers qualities drm meta).length =
      fixed.length + ident.length + 1 + 1 + (zstrings servers).length + 1 +
        (zstrings qualities).length + drm.length + 1 + meta.length + 1 := by
  simp only [abstPayload, List.length_append, List.length_cons, List.length_nil]
  omega

theorem zstrings_split (ss : List (List Nat)) (i : Nat) (hi : i < ss.length) :
    zstrings ss = zstrings (ss.take i) ++ (ss[i] ++ 0 :: zstrings (ss.drop (i + 1))) := by
  have h : ss = ss.take i ++ ss[i] :: ss.drop (i + 1) := by
    rw [← List.drop_eq_getElem_cons hi, List.take_append_drop]
  conv => lhs; rw [h]
  rw [zstrings_append]
  rfl

theorem length_zstrings_take_lt (ss : List (List Nat)) (i : Nat) (hi : i < ss.length) :
    (zstrings (ss.take i)).length < (zstrings ss).length := by
  have h := congrArg List.length (zstrings_split ss i hi)
  simp only [List.length_append, List.length_cons] at h
  omega


theorem AbstLaidOut.identLen {b : Box} {T : Nat} {hdr fixed ident : List Nat}
    {servers qualities : List (List Nat)} {drm meta rest : List Nat}
    (L : AbstLaidOut b T hdr fixed ident servers qualities drm meta rest) :
    b.getStringLen 29 = some ident.length := by
  have hl := length_abstPayload fixed ident servers qualities drm meta
  have hi := L.inside
  have hf := L.fixed29
  have hd : b.data = (hdr ++ fixed) ++ (ident ++ 0 :: (servers.length :: (zstrings servers ++
      (qualities.length :: (zstrings qualities ++ (drm ++ 0 :: (meta ++ 0 :: rest))))))) := by
    rw [L.data]; simp [abstPayload]
  exact getStringLen_at L.size hd (by simp [L.hdr8, L.fixed29]) L.identNZ (by omega)

theorem AbstLaidOut.movieIdentifier (H : Heap) {b : Box} {T : Nat} {hdr fixed ident : List Nat}
    {servers qualities : List (List Nat)} {drm meta rest : List Nat}
    (L : AbstLaidOut b T hdr fixed ident servers qualities drm meta rest) :
    ABST.getMovieIdentifier H b = some (some ident, b) := by
  have hl := length_abstPayload fixed ident servers qualities drm meta
  have hi := L.inside
  have hf := L.fixed29
  have hd : b.data = (hdr ++ fixed) ++ (ident ++ 0 :: (servers.length :: (zstrings servers ++
      (qualities.length :: (zstrings qualities ++ (drm ++ 0 :: (meta ++ 0 :: rest))))))) := by
    rw [L.data]; simp [abstPayload]
  exact getString_at H L.size hd (by simp [L.hdr8, L.fixed29]) L.identNZ (by omega)

theorem AbstLaidOut.serverCount (H : Heap) {b : Box} {T : Nat} {hdr fixed ident : List Nat}
    {servers qualities : List (List Nat)} {drm meta rest : List Nat}
    (L : AbstLaidOut b T hdr fixed ident servers qualities drm meta rest) :
    ABST.getServerEntryCount H b = some ((servers.length : Int), b) := by
  have hl := length_abstPayload fixed ident servers qualities drm meta
  have hi := L.inside
  have hf := L.fixed29
  have hd : b.data = (hdr ++ (fixed ++ (ident ++ [0]))) ++ servers.length :: (zstrings servers ++
      (qualities.length :: (zstrings qualities ++ (drm ++ 0 :: (meta ++ 0 :: rest))))) := by
    rw [L.data]; simp [abstPayload]
  unfold ABST.getServerEntryCount
  rw [L.identLen, Option.some_bind,
    getInt8_at H L.size hd (by simp [L.hdr8, L.fixed29]; omega) (by omega),
    toChar_small L.servers128]

theorem AbstLaidOut.serverEntry (H : Heap) {b : Box} {T : Nat} {hdr fixed ident : List Nat}
    {servers qualities : List (List Nat)} {drm meta rest : List Nat}
    (L : AbstLaidOut b T hdr fixed ident servers qualities drm meta rest)
    (i : Nat) (hi : i < servers.length) :
    ABST.getServerEntry H b (i : Int) = some (some servers[i], b) := by
  have hl := length_abstPayload fixed ident servers qualities drm meta
  have hin := L.inside
  have hf := L.fixed29
  have hsp := zstrings_split servers i hi
  have hlt := length_zstrings_take_lt servers i hi
  have hnz : ∀ s ∈ servers.take i, ∀ x ∈ s, x ≠ 0 :=
    fun s hs => L.serversNZ s (List.mem_of_mem_take hs)
  have hti : (servers.take i).length = i := by simp only [List.length_take]; omega
  have hd1 : b.data = (hdr ++ (fixed ++ (ident ++ [0, servers.length]))) ++
      (zstrings (servers.take i) ++ (servers[i] ++ 0 :: (zstrings (servers.drop (i + 1)) ++
        (qualities.length :: (zstrings qualities ++ (drm ++ 0 :: (meta ++ 0 :: rest))))))) := by
    rw [L.data, abstPayload, hsp]; simp
  have hd2 : b.data =
      (hdr ++ (fixed ++ (ident ++ [0, servers.length])) ++ zstrings (servers.take i)) ++
      (servers[i] ++ 0 :: (zstrings (servers.drop (i + 1)) ++
        (qualities.length :: (zstrings qualities ++ (drm ++ 0 :: (meta ++ 0 :: rest)))))) := by
    rw [hd1]; simp
  have hskip := skipStrings_zstrings L.size (servers.take i) _ _ (29 + ident.length + 1 + 1)
    hd1 (by simp [L.hdr8, L.fixed29]; omega) hnz (by omega)
  rw [hti] at hskip
  unfold ABST.getServerEntry
  rw [L.serverCount, Option.some_bind, if_neg (by omega)]
  simp only [L.identLen, Option.some_bind, Int.toNat_ofNat, hskip]
  exact getString_at H L.size hd2
    (by simp [L.hdr8, L.fixed29]; omega) (L.serversNZ _ (List.getElem_mem _)) (by omega)

theorem AbstLaidOut.skipServers (H : Heap) {b : Box} {T : Nat} {hdr fixed ident : List Nat}
    {servers qualities : List (List Nat)} {drm meta rest : List Nat}
    (L : AbstLaidOut b T hdr fixed ident servers qualities drm meta rest) :
    skipCounted (ABST.getServerEntryCount H) 129 0 (29 + ident.length + 1 + 1) b =
      some (29 + ident.length + 1 + 1 + (zstrings servers).length, b) := by
  have hl := length_abstPayload fixed ident servers qualities drm meta
  have hin := L.inside
  have hf := L.fixed29
  have hN := L.servers128
  have hd : b.data = (hdr ++ (fixed ++ (ident ++ [0, servers.length]))) ++ (zstrings servers ++
      (qualities.length :: (zstrings qualities ++ (drm ++ 0 :: (meta ++ 0 :: rest))))) := by
    rw [L.data]; simp [abstPayload]
  exact skipCounted_zstrings L.size (L.serverCount H) servers _ _ 129 0 _ hd
    (by simp [L.hdr8, L.fixed29]; omega) L.serversNZ (by omega) (by omega) (by omega)

theorem AbstLaidOut.qualityCount (H : Heap) {b : Box} {T : Nat} {hdr fixed ident : List Nat}
    {servers qualities : List (List Nat)} {drm meta rest : List Nat}
    (L : AbstLaidOut b T hdr fixed ident servers qualities drm meta rest) :
    ABST.getQualityEntryCount H b = some ((qualities.length : Int), b) := by
  have hl := length_abstPayload fixed ident servers qualities drm meta
  have hin := L.inside
  have hf := L.fixed29
  have hd : b.data = (hdr ++ (fixed ++ (ident ++ [0, servers.length])) ++ zstrings servers) ++
      qualities.length :: (zstrings qualities ++ (drm ++ 0 :: (meta ++ 0 :: rest))) := by
    rw [L.data]; simp [abstPayload]
  unfold ABST.getQualityEntryCount
  simp only [L.identLen, Option.some_bind, L.skipServers H]
  rw [getInt8_at H L.size hd (by simp [L.hdr8, L.fixed29]; omega) (by omega),
    toChar_small L.qualities128]

theorem AbstLaidOut.qualityEntry (H : Heap) {b : Box} {T : Nat} {hdr fixed ident : List Nat}
    {servers qualities : List (List Nat)} {drm meta rest : List Nat}
    (L : AbstLaidOut b T hdr fixed ident servers qualities drm meta rest)
    (j : Nat) (hj : j < qualities.length) :
    ABST.getQualityEntry H b (j : Int) = some (some qualities[j], b) := by
  have hl := length_abstPayload fixed ident servers qualities drm meta
  have hin := L.inside
  have hf := L.fixed29
  have hsp := zstrings_split qualities j hj
  have hlt := length_zstrings_take_lt qualities j hj
  have hnz : ∀ s ∈ qualities.take j, ∀ x ∈ s, x ≠ 0 :=
    fun s hs => L.qualitiesNZ s (List.mem_of_mem_take hs)
  have hti : (qualities.take j).length = j := by simp only [List.length_take]; omega
  have hd1 : b.data =
      (hdr ++ (fixed ++ (ident ++ [0, servers.length])) ++ zstrings servers ++
        [qualities.length]) ++
      (zstrings (qualities.take j) ++ (qualities[j] ++ 0 ::
        (zstrings (qualities.drop (j + 1)) ++ (drm ++ 0 :: (meta ++ 0 :: rest))))) := by
    rw [L.data, abstPayload, hsp]; simp
  have hd2 : b.data =
      (hdr ++ (fixed ++ (ident ++ [0, servers.length])) ++ zstrings servers ++
        [qualities.length] ++ zstrings (qualities.take j)) ++
      (qualities[j] ++ 0 ::
        (zstrings (qualities.drop (j + 1)) ++ (drm ++ 0 :: (meta ++ 0 :: rest)))) := by
    rw [hd1]; simp
  have hskip := skipStrings_zstrings L.size (qualities.take j) _ _
    (29 + ident.length + 1 + 1 + (zstrings servers).length + 1)
    hd1 (by simp [L.hdr8, L.fixed29]; omega) hnz (by omega)
  rw [hti] at hskip
  unfold ABST.getQualityEntry
  rw [L.qualityCount, Option.some_bind, if_neg (by omega)]
  simp only [L.identLen, Option.some_bind, L.skipServers H, Int.toNat_ofNat, hskip]
  exact getString_at H L.size hd2
    (by simp [L.hdr8, L.fixed29]; omega) (L.qualitiesNZ _ (List.getElem_mem _)) (by omega)

theorem AbstLaidOut.drmOffset (H : Heap) {b : Box} {T : Nat} {hdr fixed ident : List Nat}
    {servers qualities : List (List Nat)} {drm meta rest : List Nat}
    (L : AbstLaidOut b T hdr fixed ident servers qualities drm meta rest) :
    ABST.drmOffset H b = some (29 + ident.length + 1 + 1 + (zstrings servers).length + 1 +
      (zstrings qualities).length, b) := by
  have hl := length_abstPayload fixed ident servers qualities drm meta
  have hin := L.inside
  have hf := L.fixed29
  have hM := L.qualities128
  have hd : b.data =
      (hdr ++ (fixed ++ (ident ++ [0, servers.length])) ++ zstrings servers ++
        [qualities.length]) ++
      (zstrings qualities ++ (drm ++ 0 :: (meta ++ 0 :: rest))) := by
    rw [L.data]; simp [abstPayload]
  unfold ABST.drmOffset
  simp only [L.identLen, Option.some_bind, L.skipServers H]
  exact skipCounted_zstrings L.size (L.qualityCount H) qualities _ _ 129 0 _ hd
    (by simp [L.hdr8, L.fixed29]; omega) L.qualitiesNZ (by omega) (by omega) (by omega)

theorem AbstLaidOut.drmData (H : Heap) {b : Box} {T : Nat} {hdr fixed ident : List Nat}
    {servers qualities : List (List Nat)} {drm meta rest : List Nat}
    (L : AbstLaidOut b T hdr fixed ident servers qualities drm meta rest) :
    ABST.getDrmData H b = some (some drm, b) := by
  have hl := length_abstPayload fixed ident servers qualities drm meta
  have hin := L.inside
  have hf := L.fixed29
  have hd : b.data =
      (hdr ++ (fixed ++ (ident ++ [0, servers.length])) ++ zstrings servers ++
        [qualities.length] ++ zstrings qualities) ++ (drm ++ 0 :: (meta ++ 0 :: rest)) := by
    rw [L.data]; simp [abstPayload]
  unfold ABST.getDrmData
  simp only [L.drmOffset H, Option.some_bind]
  exact getString_at H L.size hd (by simp [L.hdr8, L.fixed29]; omega) L.drmNZ (by omega)

theorem AbstLaidOut.metaData (H : Heap) {b : Box} {T : Nat} {hdr fixed ident : List Nat}
    {servers qualities : List (List Nat)} {drm meta rest : List Nat}
    (L : AbstLaidOut b T hdr fixed ident servers qualities drm meta rest) :
    ABST.getMetaData H b = some (some meta, b) := by
  have hl := length_abstPayload fixed ident servers qualities drm meta
  have hin := L.inside
  have hf := L.fixed29
  have hd : b.data =
      (hdr ++ (fixed ++ (ident ++ [0, servers.length])) ++ zstrings servers ++
        [qualities.length] ++ zstrings qualities) ++ (drm ++ 0 :: (meta ++ 0 :: rest)) := by
    rw [L.data]; simp [abstPayload]
  have hd2 : b.data =
      (hdr ++ (fixed ++ (ident ++ [0, servers.length])) ++ zstrings servers ++
        [qualities.length] ++ zstrings qualities ++ (drm ++ [0])) ++ (meta ++ 0 :: rest) := by
    rw [L.data]; simp [abstPayload]
  unfold ABST.getMetaData
  simp only [L.drmOffset H, Option.some_bind]
  rw [getStringLen_at L.size hd (by simp [L.hdr8, L.fixed29]; omega) L.drmNZ (by omega),
    Option.some_bind]
  exact getString_at H L.size hd2 (by simp [L.hdr8, L.fixed29]; omega) L.metaNZ (by omega)

theorem sampleAbst_laidOut :
    AbstLaidOut sampleAbst 55 [0, 0, 0, 55, 97, 98, 115, 116] (List.replicate 29 0) [105]
      [[97, 98], [99, 100]] [[113]] [68] [77] [0, 0] := by
  decide

/-- C7: on a bootstrap-info box whose payload is a 29-byte fixed header followed by the
identifier and a zero byte, the count `N`, the `N` zero-terminated server entries, the count
`M`, the `M` zero-terminated quality entries, the zero-terminated DRM data and metadata (no
zero byte inside a string, `N` and `M` below 128), `getMovieIdentifier` returns the
identifier, `getServerEntryCount` returns `N`, `getServerEntry(i)` the `i`-th entry for
`i < N`, `getQualityEntryCount` returns `M`, `getQualityEntry(j)` the `j`-th entry for
`j < M`, `getDrmData` the DRM data and `getMetaData` the metadata; none changes the box. -/
theorem abst_getters_replay (H : Heap) (b : Box) (T : Nat) (hdr fixed ident : List Nat)
    (servers qualities : List (List Nat)) (drm meta rest : List Nat)
    (L : AbstLaidOut b T hdr fixed ident servers qualities drm meta rest) :
    ABST.getMovieIdentifier H b = some (some ident, b) ∧
    ABST.getServerEntryCount H b = some ((servers.length : Int), b) ∧
    (∀ (i : Nat) (hi : i < servers.length),
      ABST.getServerEntry H b (i : Int) = some (some servers[i], b)) ∧
    ABST.getQualityEntryCount H b = some ((qualities.length : Int), b) ∧
    (∀ (j : Nat) (hj : j < qualities.length),
      ABST.getQualityEntry H b (j : Int) = some (some qualities[j], b)) ∧
    ABST.getDrmData H b = some (some drm, b) ∧
    ABST.getMetaData H b = some (some meta, b) :=
  ⟨L.movieIdentifier H, L.serverCount H, L.serverEntry H, L.qualityCount H, L.qualityEntry H,
    L.drmData H, L.metaData H⟩

/-- C7, witness: the sample box with two server entries and one quality entry. -/
theorem abst_getters_replay_witness :
    ABST.getMovieIdentifier generous sampleAbst = some (some [105], sampleAbst) ∧
    ABST.getServerEntryCount generous sampleAbst = some (2, sampleAbst) ∧
    ABST.getServerEntry generous sampleAbst 1 = some (some [99, 100], sampleAbst) ∧
    ABST.getQualityEntryCount generous sampleAbst = some (1, sampleAbst) ∧
    ABST.getQualityEntry generous sampleAbst 0 = some (some [113], sampleAbst) ∧
    ABST.getDrmData generous sampleAbst = some (some [68], sampleAbst) ∧
    ABST.getMetaData generous sampleAbst = some (some [77], sampleAbst) :=
  have h := abst_getters_replay generous sampleAbst 55 [0, 0, 0, 55, 97, 98, 115, 116]
    (List.replicate 29 0) [105] [[97, 98], [99, 100]] [[113]] [68] [77] [0, 0]
    sampleAbst_laidOut
  ⟨h.1, h.2.1, h.2.2.1 1 (by decide), h.2.2.2.1, h.2.2.2.2.1 0 (by decide), h.2.2.2.2.2.1,
    h.2.2.2.2.2.2⟩

/-- C8, the code at a failing input: on the sample box, whose server table has the two
entries "ab" and "cd", `setServerEntry("x", 3)` leaves the count at 3, not 4; entry 3 reads
as the bytes 1, 'q', 'x' and entry 0 as the empty string. -/
theorem setServerEntry_past_count_evaluated :
    AbstLaidOut sampleAbst 55 [0, 0, 0, 55, 97, 98, 115, 116] (List.replicate 29 0) [105]
      [[97, 98], [99, 100]] [[113]] [68] [77] [0, 0] ∧
    ABST.getServerEntryCount generous sampleAbst = some (2, sampleAbst) ∧
    (ABST.setServerEntry generous sampleAbst [120] 3).map Box.data =
      some ([0, 0, 0, 57, 97, 98, 115, 116] ++ (List.replicate 29 0 ++
        [105, 0, 3, 0, 97, 98, 0, 99, 100, 0, 1, 113, 120, 0, 68, 0, 77, 0, 0, 0])) ∧
    ((ABST.setServerEntry generous sampleAbst [120] 3).bind fun b =>
      ABST.getServerEntryCount generous b).map Prod.fst = some 3 ∧
    ((ABST.setServerEntry generous sampleAbst [120] 3).bind fun b =>
      ABST.getServerEntry generous b 3).map Prod.fst = some (some [1, 113, 120]) ∧
    ((ABST.setServerEntry generous sampleAbst [120] 3).bind fun b =>
      ABST.getServerEntry generous b 0).map Prod.fst = some (some []) := by
  decide

/-- C9, the code at a failing input: on the sample box `setServerEntry("x", 0)` rewrites
entry 0, but measures the old entry 8 bytes further on, so that one byte is inserted where
three should be replaced: entry 1 reads "b" instead of "cd" and the quality-entry count reads
99 instead of 1. -/
theorem setServerEntry_inside_count_evaluated :
    AbstLaidOut sampleAbst 55 [0, 0, 0, 55, 97, 98, 115, 116] (List.replicate 29 0) [105]
      [[97, 98], [99, 100]] [[113]] [68] [77] [0, 0] ∧
    ABST.getServerEntryCount generous sampleAbst = some (2, sampleAbst) ∧
    ABST.getServerEntry generous sampleAbst 1 = some (some [99, 100], sampleAbst) ∧
    ABST.getQualityEntryCount generous sampleAbst = some (1, sampleAbst) ∧
    (ABST.setServerEntry generous sampleAbst [120] 0).map Box.data =
      some ([0, 0, 0, 56, 97, 98, 115, 116] ++ (List.replicate 29 0 ++
        [105, 0, 2, 120, 0, 98, 0, 99, 100, 0, 1, 113, 0, 68, 0, 77, 0, 0, 0])) ∧
    ((ABST.setServerEntry generous sampleAbst [120] 0).bind fun b =>
      ABST.getServerEntry generous b 1).map Prod.fst = some (some [98]) ∧
    ((ABST.setServerEntry generous sampleAbst [120] 0).bind fun b =>
      ABST.getQualityEntryCount generous b).map Prod.fst = some 99 := by
  decide

/-- C10, the code at a failing input: the box holds "ABC" at payload offset 0 and nothing
behind it; `setString("", 0)` asks `getStringLen` for the old length at a position that
already includes the 8 header bytes, gets 0, and only writes the zero byte: the declared
length stays 12 and the bytes 'B', 'C', 0 stay behind the new string. -/
theorem setString_shorter_evaluated :
    abcBox.boxedSize = some 12 ∧
    cstring abcBox.data 8 = some [65, 66, 67] ∧
    abcBox.setString generous [] 0 =
      some ⟨[0, 0, 0, 12, 109, 102, 104, 100, 0, 66, 67, 0], 12, true⟩ ∧
    abcBox.setString generous [65, 66, 67, 68, 69] 0 =
      some ⟨[0, 0, 0, 17, 109, 102, 104, 100, 65, 66, 67, 68, 69, 0, 66, 67, 0], 17, true⟩ := by
  decide

theorem reserve_refused (H : Heap) {b : Box} {T : Nat} (p : Nat) {c w : Nat}
    (hm : b.managed = false) (hT : b.boxedSize = some T) (hcw : c < w)
    (hcap : b.data_size < T + (w - c)) : b.reserve H p c w = some (false, b) := by
  unfold Box.reserve
  rw [if_neg (by omega), if_pos hcw, hT, Option.some_bind, if_pos (by omega), if_pos hm]

/-- C12, the code at a failing input: a freshly constructed owning box has capacity 8; `read`
of a 16-byte record succeeds and replaces the buffer, but leaves `data_size` at 8, below the
declared length 16. The stale capacity errs the other way as well: after `read` of an 8-byte
record into a box of capacity 19, `setInt8` grows the box without a reallocation and writes
behind the 8 bytes allocated. -/
theorem read_keeps_capacity_evaluated :
    freshBox.managed = true ∧ freshBox.data_size = 8 ∧ freshBox.boxedSize = some 8 ∧
    freshBox.read generous [0, 0, 0, 16, 109, 102, 104, 100, 0, 0, 0, 0, 0, 0, 0, 5] =
      some (true, ⟨[0, 0, 0, 16, 109, 102, 104, 100, 0, 0, 0, 0, 0, 0, 0, 5], 8, true⟩, []) ∧
    (⟨[0, 0, 0, 16, 109, 102, 104, 100, 0, 0, 0, 0, 0, 0, 0, 5], 8, true⟩ : Box).boxedSize =
      some 16 ∧
    slackBox.read generous [0, 0, 0, 8, 109, 102, 104, 100] =
      some (true, ⟨[0, 0, 0, 8, 109, 102, 104, 100], 19, true⟩, []) ∧
    (⟨[0, 0, 0, 8, 109, 102, 104, 100], 19, true⟩ : Box).setInt8 generous 1 0 = none := by
  decide

theorem growTail_true {b b' : Box} {r : Bool} {p c w : Nat}
    (h : growTail b p c w = some (r, b')) : r = true := by
  unfold growTail at h
  simp only [Option.bind_eq_some, Option.map_eq_some', Prod.mk.injEq] at h
  obtain ⟨d, -, size, -, d2, -, hr, -⟩ := h
  exact hr.symm

/-- C13: when `reserve` returns false the box (buffer bytes, declared length, recorded
capacity) is as before the call; and it returns false only on the grow branch when the new
length exceeds the recorded capacity and either the box is non-owning or the allocator
refuses the reallocation. -/
theorem reserve_false (H : Heap) (b b' : Box) (p c w : Nat)
    (h : b.reserve H p c w = some (false, b')) :
    b' = b ∧ b'.data = b.data ∧ b'.boxedSize = b.boxedSize ∧ b'.data_size = b.data_size ∧
      c < w ∧ ∃ T, b.boxedSize = some T ∧ b.data_size < T + (w - c) ∧
        (b.managed = false ∨ H.grants (T + (w - c)) = false) := by
  have key : b' = b ∧ c < w ∧ ∃ T, b.boxedSize = some T ∧ b.data_size < T + (w - c) ∧
      (b.managed = false ∨ H.grants (T + (w - c)) = false) := by
    unfold Box.reserve at h
    split at h
    · simp at h
    · split at h
      · rename_i hcw
        cases hT : b.boxedSize with
        | none => rw [hT] at h; simp at h
        | some T =>
          rw [hT, Option.some_bind] at h
          split at h
          · rename_i hcap
            split at h
            · rename_i hm
              simp only [Option.some.injEq, Prod.mk.injEq, true_and] at h
              exact ⟨h.symm, hcw, T, rfl, by omega, Or.inl hm⟩
            · unfold realloc at h
              by_cases hg : H.grants (T + (w - c)) = true
              · rw [if_pos hg] at h
                simp only [Option.bind_eq_some] at h
                obtain ⟨s1, -, h⟩ := h
                exact absurd (growTail_true h) (by decide)
              · rw [if_neg hg] at h
                simp only [Option.some.injEq, Prod.mk.injEq, true_and] at h
                exact ⟨h.symm, hcw, T, rfl, by omega, Or.inr (by simpa using hg)⟩
          · exact absurd (growTail_true h) (by decide)
      · simp only [Option.bind_eq_some, Option.map_eq_some', Prod.mk.injEq] at h
        obtain ⟨d, -, size, -, d2, -, hr, -⟩ := h
        exact absurd hr (by decide)
  obtain ⟨rfl, h2, h3⟩ := key
  exact ⟨rfl, rfl, rfl, rfl, h2, h3⟩

/-- C13, witness: a one-byte growth of the view over twelve bytes. -/
theorem reserve_false_witness :
    viewMfhd = viewMfhd ∧ viewMfhd.data = viewMfhd.data ∧
      viewMfhd.boxedSize = viewMfhd.boxedSize ∧ viewMfhd.data_size = viewMfhd.data_size ∧
      0 < 1 ∧ ∃ T, viewMfhd.boxedSize = some T ∧ viewMfhd.data_size < T + (1 - 0) ∧
        (viewMfhd.managed = false ∨ generous.grants (T + (1 - 0)) = false) :=
  reserve_false generous viewMfhd viewMfhd 12 0 1 (by decide)

/-- C14, the code at a failing input: the scenario itself, on zeroed memory. The constructor
and `setMovieIdentifier("abc")` give a 45-byte box; `setServerEntry("s1", 0)` writes the
entry but leaves the count at 0; `setServerEntry("s2", 1)` then reserves at `tempLoc` taken
as an absolute position, 8 bytes early, reads the count back as 97 (the 'a' of the
identifier, moved by one) and zero-fills 1 - 97 bytes taken as a `size_t`: undefined
behaviour. -/
theorem scenario_server_entries_evaluated :
    ABST.construct generous = some abstFresh ∧
    ABST.setMovieIdentifier generous abstFresh [97, 98, 99] = some abstNamed ∧
    ABST.setServerEntry generous abstNamed [115, 49] 0 = some abstOneEntry ∧
    ABST.getServerEntryCount generous abstOneEntry = some (0, abstOneEntry) ∧
    ((abstOneEntry.reserve generous 34 0 1).bind fun r =>
      ABST.getServerEntryCount generous r.2).map Prod.fst = some 97 ∧
    ABST.setServerEntry generous abstOneEntry [115, 50] 1 = none := by
  decide

/-- C15, the code at a failing input: the scenario itself, on zeroed memory. The constructor
leaves the 8-byte header alone; `setFlags`, whatever the flags, is `setInt24` at payload
offset 1 of the empty payload, so `reserve(9, 0, 3)` is asked to move the 8 - 9 bytes behind
position 9, an unsigned count of 2^64 - 1: undefined behaviour before any sample is set. -/
theorem scenario_sample_run_evaluated :
    TRUN.construct generous = some trunFresh ∧
    subSizeT 8 9 = 18446744073709551615 ∧
    (∀ newFlags : Int, TRUN.setFlags generous trunFresh newFlags = none) ∧
    ∀ (F : TrunFlags) (newSample : TrunSampleInformation),
      (((TRUN.construct generous).bind fun b =>
        TRUN.setFlags generous b (Int.ofNat (Nat.lor F.sampleDuration F.sampleSize))).bind
          fun b => TRUN.setSampleInformation generous F b newSample 0) = none :=
  ⟨by decide, by decide, fun _ => rfl, fun _ _ => rfl⟩

theorem ntohl_append_left {d e : List Nat} {i : Nat} (h : i + 4 ≤ d.length) :
    ntohl (d ++ e) i = ntohl d i := by
  apply ntohl_congr
  intro j hj
  exact List.getElem?_append_left (by omega)

/-- C16, counterexample: the stream holds a 16-byte `mfhd` record and two more bytes, but the
allocator refuses the 16 bytes and `read` returns false. -/
theorem read_mfhd_counterexample :
    emptyMfhd.managed = true ∧
    emptyMfhd.read exhausted ([0, 0, 0, 16, 109, 102, 104, 100, 0, 0, 0, 0, 0, 0, 0, 5] ++ [9, 9])
      = some (false, emptyMfhd,
        [0, 0, 0, 16, 109, 102, 104, 100, 0, 0, 0, 0, 0, 0, 0, 5] ++ [9, 9]) := by
  decide

/-- C16, as amended: for a stream that is a 16-byte record whose length field is 16 (such as
an `mfhd` record) followed by trailing bytes, when the allocator grants 16 bytes, `read` on
an owning box returns true and leaves exactly the trailing bytes in the stream;
`getSequenceNumber()` on the box is the big-endian value of the four bytes of the record at
payload offset 4 and leaves the box, with `boxedSize()` 16, as it is. -/
theorem read_mfhd_sequence (H : Heap) (f : Box) (record trailing : List Nat)
    (hf : f.managed = true) (hlen : record.length = 16) (hL : ntohl record 0 = some 16)
    (hg : H.grants 16 = true) :
    ∃ b' n, f.read H (record ++ trailing) = some (true, b', trailing) ∧
      b'.data = record ∧ ntohl record (4 + 8) = some n ∧
      MFHD.getSequenceNumber H b' = some (Int.ofNat n, b') ∧ b'.boxedSize = some 16 := by
  obtain ⟨n, hn⟩ := ntohl_isSome (d := record) (i := 4 + 8) (by omega)
  have hs : ntohl (record ++ trailing) 0 = some 16 := by
    rw [ntohl_append_left (by omega)]; exact hL
  have hr := read_eq H hf hs (by simp only [List.length_append]; omega)
    (by simp only [List.length_append]; omega) hg
  have e1 : (record ++ trailing).take 16 = record := List.take_left' hlen
  have e2 : (record ++ trailing).drop 16 = trailing := List.drop_left' hlen
  rw [e1, e2] at hr
  have hT : ({ f with data := record } : Box).boxedSize = some 16 := hL
  refine ⟨_, n, hr, rfl, hn, ?_, hT⟩
  unfold MFHD.getSequenceNumber
  rw [getInt32_inside H hT (by omega)]
  show (ntohl record (4 + 8)).map _ = _
  rw [hn]
  rfl

/-- C16, witness: a record with sequence number 5 followed by the bytes 9, 9. -/
theorem read_mfhd_sequence_witness :
    ∃ b' n, freshBox.read generous
        ([0, 0, 0, 16, 109, 102, 104, 100, 0, 0, 0, 0, 0, 0, 0, 5] ++ [9, 9]) =
          some (true, b', [9, 9]) ∧
      b'.data = [0, 0, 0, 16, 109, 102, 104, 100, 0, 0, 0, 0, 0, 0, 0, 5] ∧
      ntohl [0, 0, 0, 16, 109, 102, 104, 100, 0, 0, 0, 0, 0, 0, 0, 5] (4 + 8) = some n ∧
      MFHD.getSequenceNumber generous b' = some (Int.ofNat n, b') ∧ b'.boxedSize = some 16 :=
  read_mfhd_sequence generous freshBox [0, 0, 0, 16, 109, 102, 104, 100, 0, 0, 0, 0, 0, 0, 0, 5]
    [9, 9] (by decide) (by decide) (by decide) (by decide)

/-- On a freshly constructed box, `getInt32` at any payload offset but 0 is undefined
behaviour: `reserve` is handed a position behind the declared length. -/
theorem getInt32_gap_undefined (k : Nat) : freshBox.getInt32 generous (k + 1) = none := by
  have hr : freshBox.reserve generous (k + 1 + 8) 0 4 =
      growTail ⟨[0, 0, 0, 8, 0, 0, 0, 0, 0, 0, 0, 0], 12, true⟩ (k + 1 + 8) 0 4 := rfl
  have hT : (⟨[0, 0, 0, 8, 0, 0, 0, 0, 0, 0, 0, 0], 12, true⟩ : Box).boxedSize = some 8 := rfl
  unfold Box.getInt32
  have hb : freshBox.boxedSize = some 8 := rfl
  simp only [hb, Option.some_bind]
  rw [if_pos (by omega), hr]
  unfold growTail moveTail
  simp only [show ntohl [0, 0, 0, 8, 0, 0, 0, 0, 0, 0, 0, 0] 0 = some 8 from rfl,
    Option.some_bind]
  by_cases hn : subSizeT 8 (k + 1 + 8 + 0) > 0
  · rw [if_pos hn]
    unfold memmove
    rw [if_neg (by
      unfold subSizeT at hn ⊢
      simp only [List.length_cons, List.length_nil]
      omega)]
    rfl
  · rw [if_neg hn]
    simp only [Option.some_bind,
      show ntohl [0, 0, 0, 8, 0, 0, 0, 0, 0, 0, 0, 0] 0 = some 8 from rfl]
    have hm : memcpy [0, 0, 0, 8, 0, 0, 0, 0, 0, 0, 0, 0] 0 (htonl (8 + (4 - 0))) =
        some [0, 0, 0, 12, 0, 0, 0, 0, 0, 0, 0, 0] := rfl
    simp only [hm, Option.map_some', Option.some_bind]
    have hk : 12 ≤ k + 1 + 8 := by
      unfold subSizeT at hn
      omega
    have hnone : ntohl [0, 0, 0, 12, 0, 0, 0, 0, 0, 0, 0, 0] (k + 1 + 8) = none := by
      unfold ntohl
      rw [List.getElem?_eq_none (by simp; omega)]
    simp [hnone]

/-- C17, the code at a failing input: on a freshly constructed box `getInt32` at offset 1,
and at every other offset but 0, calls `reserve(offset + 8, 0, 4)` with a position behind the
declared length 8, which moves an unsigned count of 8 - (offset + 8) bytes: undefined
behaviour, no box of length `8 + offset + 4`. At offset 0 the box grows to 12 and the value
is that of the four uninitialised bytes: 0 on zeroed memory, 4294967295 on memory full of the
byte 255. -/
theorem getInt32_past_end_evaluated :
    freshBox.boxedSize = some 8 ∧
    freshBox.getInt32 generous 1 = none ∧
    (∀ k, freshBox.getInt32 generous (k + 1) = none) ∧
    freshBox.getInt32 generous 0 =
      some (0, ⟨[0, 0, 0, 12, 0, 0, 0, 0, 0, 0, 0, 0], 12, true⟩) ∧
    (Box.clear dirty ⟨[], 0, true⟩).getInt32 dirty 0 =
      some (4294967295, ⟨[0, 0, 0, 12, 255, 255, 255, 255, 255, 255, 255, 255], 12, true⟩) :=
  ⟨by decide, by decide, getInt32_gap_undefined, by decide, by decide⟩

theorem ntohl_patch_htonl_at {d : List Nat} {k : Nat} (h : k + 4 ≤ d.length) (v : Nat) :
    ntohl (patch d k (htonl v)) k = some (v % 4294967296) := by
  have hp : k + (htonl v).length ≤ d.length := by rw [htonl_length]; omega
  unfold ntohl
  simp only [getElem?_patch hp, htonl_length]
  rw [if_neg (by omega), if_pos (by omega), if_neg (by omega), if_pos (by omega),
    if_neg (by omega), if_pos (by omega), if_neg (by omega), if_pos (by omega)]
  have e0 : k - k = 0 := by omega
  have e1 : k + 1 - k = 1 := by omega
  have e2 : k + 2 - k = 2 := by omega
  have e3 : k + 3 - k = 3 := by omega
  rw [e0, e1, e2, e3]
  simp [htonl]
  omega

theorem ntohl_patch_behind {d src : List Nat} {k : Nat} (hk : 4 ≤ k)
    (h : k + src.length ≤ d.length) : ntohl (patch d k src) 0 = ntohl d 0 := by
  apply ntohl_congr
  intro j hj
  rw [getElem?_patch h, if_pos (by omega)]

theorem drop_take_patch {d src : List Nat} {k : Nat} (h : k + src.length ≤ d.length) :
    ((patch d k src).drop k).take src.length = src := by
  have hl : (d.take k).length = k := by simp only [List.length_take]; omega
  unfold patch
  rw [List.append_assoc, List.drop_left' hl, List.take_left]

theorem toUInt32_ofNat {v : Nat} (h : v < 4294967296) : toUInt32 (Int.ofNat v) = v := by
  unfold toUInt32
  have : (Int.ofNat v) % 4294967296 = Int.ofNat v := Int.emod_eq_of_lt (by simp) (by
    show (v : Int) < 4294967296
    omega)
  rw [this]
  rfl

theorem setInt32_inside (H : Heap) {b : Box} {T i : Nat} (v : Int) (hT : b.boxedSize = some T)
    (hi : i + 8 + 3 < T) (hlen : T ≤ b.data.length) :
    b.setInt32 H v i = some { b with data := patch b.data (i + 8) (htonl (toUInt32 v)) } := by
  unfold Box.setInt32
  simp only [hT, Option.some_bind]
  rw [if_neg (by omega)]
  unfold memcpy
  rw [if_pos (by rw [htonl_length]; omega)]
  rfl

theorem payloadSize_eq {b : Box} {T : Nat} (hT : b.boxedSize = some T) (h8 : 8 ≤ T) :
    b.payloadSize = some (T - 8) := by
  have := ntohl_lt hT
  unfold Box.payloadSize
  rw [hT, Option.map_some', subSizeT_of_le h8 (by omega)]

/-- C18: on a box whose declared length `T ≥ 8` lies inside its allocation, for a payload
offset `i` with `i + 4 ≤ payloadSize()` and `v` in `[0, 2^32)`, `setInt32(v, i)` succeeds,
the four bytes at payload offsets `i` to `i + 3` are afterwards the big-endian encoding of
`v`, most significant byte first, `getInt32(i)` returns `v` and `boxedSize()` is unchanged. -/
theorem setInt32_getInt32 (H : Heap) (b : Box) (T P i v : Nat) (hT : b.boxedSize = some T)
    (h8 : 8 ≤ T) (hlen : T ≤ b.data.length) (hP : b.payloadSize = some P) (hi : i + 4 ≤ P)
    (hv : v < 4294967296) :
    ∃ b', b.setInt32 H (Int.ofNat v) i = some b' ∧
      (b'.data.drop (i + 8)).take 4 =
        [v / 16777216 % 256, v / 65536 % 256, v / 256 % 256, v % 256] ∧
      b'.getInt32 H i = some (Int.ofNat v, b') ∧ b'.boxedSize = some T := by
  have hPT : P = T - 8 := by
    rw [payloadSize_eq hT h8] at hP
    exact (Option.some.inj hP).symm
  subst hPT
  have hp : i + 8 + (htonl v).length ≤ b.data.length := by rw [htonl_length]; omega
  have hT' : ({ b with data := patch b.data (i + 8) (htonl v) } : Box).boxedSize = some T := by
    show ntohl (patch b.data (i + 8) (htonl v)) 0 = some T
    rw [ntohl_patch_behind (by omega) hp]
    exact hT
  refine ⟨{ b with data := patch b.data (i + 8) (htonl v) }, ?_, ?_, ?_, hT'⟩
  · rw [setInt32_inside H _ hT (by omega) hlen, toUInt32_ofNat hv]
  · have := drop_take_patch hp
    rw [htonl_length] at this
    exact this
  · rw [getInt32_inside H hT' (by omega)]
    show (ntohl (patch b.data (i + 8) (htonl v)) (i + 8)).map _ = _
    rw [ntohl_patch_htonl_at (by omega), Nat.mod_eq_of_lt hv]
    rfl

/-- C18, witness: 16909060 written at payload offset 0 of the 12-byte box. -/
theorem setInt32_getInt32_witness :
    ∃ b', smallMfhd.setInt32 generous (Int.ofNat 16909060) 0 = some b' ∧
      (b'.data.drop (0 + 8)).take 4 =
        [16909060 / 16777216 % 256, 16909060 / 65536 % 256, 16909060 / 256 % 256,
          16909060 % 256] ∧
      b'.getInt32 generous 0 = some (Int.ofNat 16909060, b') ∧ b'.boxedSize = some 12 :=
  setInt32_getInt32 generous smallMfhd 12 4 0 16909060 (by decide) (by decide) (by decide)
    (by decide) (by decide) (by decide)

/-- C19, the code at a failing input: `setInt24(128, 0)` stores the bytes 0, 0, 128 at payload
offset 0, and `getInt24(0)` adds them up as signed `char`s: it returns -128, where the
unsigned bytes give 0 * 65536 + 0 * 256 + 128 = 128. -/
theorem getInt24_signed_evaluated :
    smallMfhd.setInt24 generous 128 0 =
      some ⟨[0, 0, 0, 12, 109, 102, 104, 100, 0, 0, 128, 4], 12, true⟩ ∧
    (⟨[0, 0, 0, 12, 109, 102, 104, 100, 0, 0, 128, 4], 12, true⟩ : Box).payloadSize = some 4 ∧
    (⟨[0, 0, 0, 12, 109, 102, 104, 100, 0, 0, 128, 4], 12, true⟩ : Box).getInt24 generous 0 =
      some (-128, ⟨[0, 0, 0, 12, 109, 102, 104, 100, 0, 0, 128, 4], 12, true⟩) ∧
    toChar 128 = -128 := by
  decide

/-- C20, the code at a failing input: `setInt64(128, 0)` stores the big-endian bytes
0, 0, 0, 0, 0, 0, 0, 128, and `getInt64(0)` shifts them in as signed `char`s: it returns
-128 instead of 128. -/
theorem getInt64_signed_evaluated :
    wideMfhd.payloadSize = some 8 ∧
    wideMfhd.setInt64 generous 128 0 =
      some ⟨[0, 0, 0, 16, 109, 102, 104, 100, 0, 0, 0, 0, 0, 0, 0, 128], 16, true⟩ ∧
    (⟨[0, 0, 0, 16, 109, 102, 104, 100, 0, 0, 0, 0, 0, 0, 0, 128], 16, true⟩ : Box).getInt64
      generous 0 =
      some (-128, ⟨[0, 0, 0, 16, 109, 102, 104, 100, 0, 0, 0, 0, 0, 0, 0, 128], 16, true⟩) := by
  decide


/-- C30, the claim as stated fails: when the allocator refuses the 8 bytes, the box built
without a buffer (and any box after `clear`) is owning but has the null pointer for a buffer
and recorded capacity 0, so that `boxedSize()` has nothing to read. -/
theorem construct_counterexample :
    Box.construct exhausted none false = some ⟨[], 0, true⟩ ∧
    Box.clear exhausted viewMfhd = ⟨[], 0, true⟩ ∧
    (⟨[], 0, true⟩ : Box).data_size = 0 ∧ (⟨[], 0, true⟩ : Box).boxedSize = none ∧
    (⟨[], 0, true⟩ : Box).payloadSize = none := by
  decide

/-- C30, amended: when the allocation of 8 bytes is granted, a box constructed without a
buffer, whatever owning flag was requested, and any box after `clear()`, is owning, has
`boxedSize() = 8`, `payloadSize() = 0` and recorded capacity 8; a box constructed over a
supplied buffer (of at least 4 bytes) has `boxedSize()` equal to the big-endian value of the
buffer's first 4 bytes, keeps the requested flag and has that very buffer for its data. -/
theorem construct_and_clear (H : Heap) (hg : H.grants 8 = true) :
    (∀ manage, ∃ b, Box.construct H none manage = some b ∧ b.managed = true ∧
      b.boxedSize = some 8 ∧ b.payloadSize = some 0 ∧ b.data_size = 8) ∧
    (∀ b : Box, (Box.clear H b).managed = true ∧ (Box.clear H b).boxedSize = some 8 ∧
      (Box.clear H b).payloadSize = some 0 ∧ (Box.clear H b).data_size = 8) ∧
    (∀ (d : List Nat) (manage : Bool), 4 ≤ d.length →
      ∃ b v, Box.construct H (some d) manage = some b ∧ ntohl d 0 = some v ∧
        b.boxedSize = some v ∧ b.data = d ∧ b.managed = manage) := by
  have hc : ∀ b : Box, (Box.clear H b).managed = true ∧ (Box.clear H b).boxedSize = some 8 ∧
      (Box.clear H b).payloadSize = some 0 ∧ (Box.clear H b).data_size = 8 := by
    intro b
    simp [Box.clear, hg, Box.payloadSize, Box.boxedSize, ntohl, htonl, subSizeT]
  refine ⟨fun manage => ⟨Box.clear H ⟨[], 0, manage⟩, rfl, hc _⟩, hc, ?_⟩
  intro d manage hd
  obtain ⟨v, hv⟩ := ntohl_isSome (d := d) (i := 0) (by omega)
  exact ⟨⟨d, v, manage⟩, v, by simp [Box.construct, hv], hv, hv, rfl, rfl⟩

/-- C30, the amended claim applied on the allocator that grants every request, with the
twelve bytes of `smallMfhd` for the supplied buffer. -/
theorem construct_and_clear_witness :
    generous.grants 8 = true ∧
    (∀ manage, ∃ b, Box.construct generous none manage = some b ∧ b.managed = true ∧
      b.boxedSize = some 8 ∧ b.payloadSize = some 0 ∧ b.data_size = 8) ∧
    ((Box.clear generous viewMfhd).managed = true ∧
      (Box.clear generous viewMfhd).boxedSize = some 8 ∧
      (Box.clear generous viewMfhd).payloadSize = some 0 ∧
      (Box.clear generous viewMfhd).data_size = 8) ∧
    ∃ b v, Box.construct generous (some smallMfhd.data) false = some b ∧
      ntohl smallMfhd.data 0 = some v ∧ b.boxedSize = some v ∧ b.data = smallMfhd.data ∧
      b.managed = false :=
  ⟨rfl, (construct_and_clear generous rfl).1, (construct_and_clear generous rfl).2.1 viewMfhd,
    (construct_and_clear generous rfl).2.2 smallMfhd.data false (by decide)⟩

/-- C22, the code evaluated at the failing input: on the well-formed bootstrap-info box
`sampleAbst` (server entries "ab", "cd", so `C = 2`; quality entry "q") the guard
`no > getServerEntryCount()` lets `no = C` pass, and `getServerEntry(2)` returns the bytes
that follow the table, the quality count 1 and "q", instead of the empty string; likewise
`getQualityEntry(1)` returns the DRM data "D". Neither call grows the box, and for `no`
beyond the count both return the empty string. -/
theorem getServerEntry_at_count_evaluated :
    AbstLaidOut sampleAbst 55 [0, 0, 0, 55, 97, 98, 115, 116] (List.replicate 29 0) [105]
      [[97, 98], [99, 100]] [[113]] [68] [77] [0, 0] ∧
    ABST.getServerEntryCount generous sampleAbst = some (2, sampleAbst) ∧
    ABST.getServerEntry generous sampleAbst 2 = some (some [1, 113], sampleAbst) ∧
    ABST.getServerEntry generous sampleAbst 3 = some (some [], sampleAbst) ∧
    ABST.getQualityEntryCount generous sampleAbst = some (1, sampleAbst) ∧
    ABST.getQualityEntry generous sampleAbst 1 = some (some [68], sampleAbst) ∧
    ABST.getQualityEntry generous sampleAbst 2 = some (some [], sampleAbst) := by
  refine ⟨sampleAbst_laidOut, ?_, ?_, ?_, ?_, ?_, ?_⟩ <;> decide

/-- C27, the code evaluated at the failing input: on the bootstrap-info box whose
profile/live/update byte is 0x10 (what `setLive(1)` makes of a fresh one), `setLive(0)`
leaves the byte at 0x10 and `getLive()` still returns true, since the mask 0xDF clears bit
0x20 and not the live bit 0x10; `setLive(1)` adds 0x10 to the bit that is still set, the
byte becomes 0x20 and `getLive()` returns false. On the byte 0x08, `setUpdate(0)` leaves
0x08 (`getUpdate()` true) and `setUpdate(1)` makes it 0x10 (`getUpdate()` false), since the
mask 0xEF clears the live bit and not the update bit 0x08; on the byte 0x10 `setUpdate(0)`
clears the live bit. -/
theorem setLive_setUpdate_evaluated :
    ABST.setLive generous (abstFlagged 0) true = some (abstFlagged 16) ∧
    ABST.getLive generous (abstFlagged 16) = some (true, abstFlagged 16) ∧
    ABST.setLive generous (abstFlagged 16) false = some (abstFlagged 16) ∧
    ABST.setLive generous (abstFlagged 16) true = some (abstFlagged 32) ∧
    ABST.getLive generous (abstFlagged 32) = some (false, abstFlagged 32) ∧
    ABST.setUpdate generous (abstFlagged 0) true = some (abstFlagged 8) ∧
    ABST.getUpdate generous (abstFlagged 8) = some (true, abstFlagged 8) ∧
    ABST.setUpdate generous (abstFlagged 8) false = some (abstFlagged 8) ∧
    ABST.setUpdate generous (abstFlagged 8) true = some (abstFlagged 16) ∧
    ABST.getUpdate generous (abstFlagged 16) = some (false, abstFlagged 16) ∧
    ABST.setUpdate generous (abstFlagged 16) false = some (abstFlagged 0) := by
  decide

set_option maxRecDepth 100000 in
theorem land_192 : ∀ y, y < 256 → Nat.land y 192 = y / 64 * 64 := by decide

theorem land_63 (y : Nat) : Nat.land y 63 = y % 64 := Nat.and_pow_two_sub_one_eq_mod y 6

theorem ofChar_toChar (x : Nat) : ofChar (toChar x) = x % 256 := by
  unfold ofChar toChar
  split <;> omega

theorem ofChar_ofNat (v : Nat) : ofChar (Int.ofNat v) = v % 256 := by
  unfold ofChar
  show ((v : Int) % 256).toNat = v % 256
  omega

theorem setInt8_inside (H : Heap) {b : Box} {T i : Nat} (v : Int) (hT : b.boxedSize = some T)
    (hi : i + 8 < T) (hlen : T ≤ b.data.length) :
    b.setInt8 H v i = some { b with data := patch b.data (i + 8) [ofChar v % 256] } := by
  unfold Box.setInt8
  simp only [hT, Option.some_bind]
  rw [if_neg (by omega)]
  unfold poke memcpy
  rw [if_pos (by simp only [List.length_singleton]; omega)]
  rfl

/-- C28, the claim as stated fails: `getProfile` returns a `char`, which is signed, so after
`setProfile(3)` (byte 0xC0) it returns -64, and after `setProfile(2)` (byte 0x80) -128,
where the claim has the values 192 and 128. -/
theorem getProfile_counterexample :
    ABST.setProfile generous (abstFlagged 0) 3 = some (abstFlagged 192) ∧
    ABST.getProfile generous (abstFlagged 192) = some (-64, abstFlagged 192) ∧
    ABST.setProfile generous (abstFlagged 0) 2 = some (abstFlagged 128) ∧
    ABST.getProfile generous (abstFlagged 128) = some (-128, abstFlagged 128) := by
  decide

/-- C28, amended: on a bootstrap-info box whose profile/live/update byte (payload offset 8)
lies inside the declared length and that inside the allocation, for every `p` in 0..3,
`setProfile(p)` rewrites that byte alone: afterwards its bits 6-7 hold `p` and its six low
bits are what they were, and `getProfile()` returns those bits unshifted as a signed `char`,
the byte masked with 0xC0: 64 * p for `p ≤ 1` and 64 * p - 256 for `p ≥ 2`, not `p`. -/
theorem setProfile_getProfile (H : Heap) (b : Box) (T x p : Nat) (hT : b.boxedSize = some T)
    (h17 : 17 ≤ T) (hlen : T ≤ b.data.length) (hx : b.data[16]? = some x) (hp : p ≤ 3) :
    ∃ y, ABST.setProfile H b (Int.ofNat p) = some { b with data := patch b.data 16 [y] } ∧
      y < 256 ∧ y / 64 = p ∧ y % 64 = x % 64 ∧
      ({ b with data := patch b.data 16 [y] } : Box).boxedSize = some T ∧
      ({ b with data := patch b.data 16 [y] } : Box).data[16]? = some y ∧
      ABST.getProfile H { b with data := patch b.data 16 [y] } =
        some (if p ≤ 1 then 64 * (p : Int) else 64 * (p : Int) - 256,
          { b with data := patch b.data 16 [y] }) := by
  have hl1 : 16 + [x % 64 + p * 64].length ≤ b.data.length := by
    simp only [List.length_singleton]; omega
  have hland : Nat.land (ofChar (Int.ofNat p)) 3 = p := by
    rw [ofChar_ofNat, Nat.mod_eq_of_lt (by omega)]
    have := Nat.and_pow_two_sub_one_eq_mod p 2
    rw [Nat.mod_eq_of_lt (by omega)] at this
    exact this
  have hT' : ({ b with data := patch b.data 16 [x % 64 + p * 64] } : Box).boxedSize = some T := by
    show ntohl (patch b.data 16 [x % 64 + p * 64]) 0 = some T
    rw [ntohl_patch_behind (by omega) hl1]
    exact hT
  have hy : (patch b.data 16 [x % 64 + p * 64])[16]? = some (x % 64 + p * 64) := by
    rw [getElem?_patch hl1, if_neg (by omega), if_pos (by simp)]
    rfl
  refine ⟨x % 64 + p * 64, ?_, by omega, by omega, by omega, hT', hy, ?_⟩
  · unfold ABST.setProfile
    rw [getInt8_inside H hT (by omega), hx]
    simp only [Option.map_some', Option.some_bind]
    rw [setInt8_inside H _ hT (by omega) hlen, ofChar_toChar, hland, land_63, ofChar_ofNat]
    have e : (x % 256 % 64 + p * 64) % 256 % 256 = x % 64 + p * 64 := by omega
    rw [e]
  · unfold ABST.getProfile
    rw [getInt8_inside H hT' (by omega)]
    have hy' : ({ b with data := patch b.data 16 [x % 64 + p * 64] } : Box).data[8 + 8]?
        = some (x % 64 + p * 64) := hy
    rw [hy']
    simp only [Option.map_some']
    rw [ofChar_toChar, Nat.mod_eq_of_lt (by omega), land_192 _ (by omega)]
    have e : (x % 64 + p * 64) / 64 * 64 = 64 * p := by omega
    rw [e]
    unfold toChar
    split <;> split <;> simp only [Option.some.injEq, Prod.mk.injEq, and_true] <;> omega

/-- C28, witness: `setProfile(1)` on the box a fresh bootstrap-info box is. -/
theorem setProfile_getProfile_witness :
    ∃ y, ABST.setProfile generous (abstFlagged 0) (Int.ofNat 1) =
        some { abstFlagged 0 with data := patch (abstFlagged 0).data 16 [y] } ∧
      y < 256 ∧ y / 64 = 1 ∧ y % 64 = 0 % 64 ∧
      ({ abstFlagged 0 with data := patch (abstFlagged 0).data 16 [y] } : Box).boxedSize
        = some 42 ∧
      ({ abstFlagged 0 with data := patch (abstFlagged 0).data 16 [y] } : Box).data[16]?
        = some y ∧
      ABST.getProfile generous { abstFlagged 0 with data := patch (abstFlagged 0).data 16 [y] } =
        some (if 1 ≤ 1 then 64 * ((1 : Nat) : Int) else 64 * ((1 : Nat) : Int) - 256,
          { abstFlagged 0 with data := patch (abstFlagged 0).data 16 [y] }) :=
  setProfile_getProfile generous (abstFlagged 0) 42 0 1 (by decide) (by decide) (by decide)
    (by decide) (by decide)

theorem stamped_eq (H : Heap) (h8 : H.grants 8 = true) (t0 t1 t2 t3 : Nat) :
    stamped H [t0, t1, t2, t3] = some ⟨[0, 0, 0, 8, t0, t1, t2, t3], 8, true⟩ := by
  simp [stamped, Box.clear, h8, memcpy, patch, htonl]

theorem mfhd_construct_eq (H : Heap) (h8 : H.grants 8 = true) (h12 : H.grants 12 = true) :
    MFHD.construct H = some ⟨[0, 0, 0, 12, 109, 102, 104, 100, 0, 0, 0, 0], 12, true⟩ := by
  unfold MFHD.construct
  rw [stamped_eq H h8]
  simp [Box.setInt32, Box.boxedSize, ntohl, Box.reserve, realloc, h12, regrown, growTail,
    moveTail, subSizeT, memcpy, patch, htonl, toUInt32]

theorem mfhd_setSequenceNumber_eq (H : Heap) (h16 : H.grants 16 = true) (v : Nat) :
    MFHD.setSequenceNumber H ⟨[0, 0, 0, 12, 109, 102, 104, 100, 0, 0, 0, 0], 12, true⟩
        (Int.ofNat v) =
      some ⟨[0, 0, 0, 16, 109, 102, 104, 100, 0, 0, 0, 0, toUInt32 (Int.ofNat v) / 16777216 % 256,
        toUInt32 (Int.ofNat v) / 65536 % 256, toUInt32 (Int.ofNat v) / 256 % 256,
        toUInt32 (Int.ofNat v) % 256], 16, true⟩ := by
  simp [MFHD.setSequenceNumber, Box.setInt32, Box.boxedSize, ntohl, Box.reserve, realloc, h16,
    regrown, growTail, moveTail, subSizeT, memcpy, patch, htonl]

/-- C26, the claim as stated fails: the sequence number is not at payload offset 0. The
constructor writes a zero 32-bit field there, and `setSequenceNumber(7)` then appends the
number at payload offset 4: the payload is the eight bytes 0, 0, 0, 0, 0, 0, 0, 7. And when
the allocator refuses the 16 bytes the box then needs, the setter fails silently and
`getSequenceNumber()` returns 0. -/
theorem setSequenceNumber_counterexample :
    MFHD.construct generous = some ⟨[0, 0, 0, 12, 109, 102, 104, 100, 0, 0, 0, 0], 12, true⟩ ∧
    MFHD.setSequenceNumber generous ⟨[0, 0, 0, 12, 109, 102, 104, 100, 0, 0, 0, 0], 12, true⟩ 7 =
      some ⟨[0, 0, 0, 16, 109, 102, 104, 100, 0, 0, 0, 0, 0, 0, 0, 7], 16, true⟩ ∧
    ntohl [0, 0, 0, 16, 109, 102, 104, 100, 0, 0, 0, 0, 0, 0, 0, 7] (0 + 8) = some 0 ∧
    ntohl [0, 0, 0, 16, 109, 102, 104, 100, 0, 0, 0, 0, 0, 0, 0, 7] (4 + 8) = some 7 ∧
    (⟨[0, 0, 0, 16, 109, 102, 104, 100, 0, 0, 0, 0, 0, 0, 0, 7], 16, true⟩ : Box).payloadSize
      = some 8 ∧
    MFHD.construct (frugal 12) =
      some ⟨[0, 0, 0, 12, 109, 102, 104, 100, 0, 0, 0, 0], 12, true⟩ ∧
    MFHD.setSequenceNumber (frugal 12)
        ⟨[0, 0, 0, 12, 109, 102, 104, 100, 0, 0, 0, 0], 12, true⟩ 7 =
      some ⟨[0, 0, 0, 12, 109, 102, 104, 100, 0, 0, 0, 0], 12, true⟩ ∧
    MFHD.getSequenceNumber (frugal 12)
        ⟨[0, 0, 0, 12, 109, 102, 104, 100, 0, 0, 0, 0], 12, true⟩ =
      some (0, ⟨[0, 0, 0, 12, 109, 102, 104, 100, 0, 0, 0, 0], 12, true⟩) := by
  decide

/-- C26, amended: when the allocator grants the 8, 12 and 16 bytes the box needs in turn,
whatever the memory it hands out holds, for every `n` in `[0, 2^32)`, after
`setSequenceNumber(n)` on a freshly constructed movie-fragment-header box
`getSequenceNumber()` returns `n`, the box has 16 bytes, and `n` is stored big-endian in the
32-bit field at fixed payload offset 4, behind the four zero bytes the constructor put at
payload offset 0. -/
theorem setSequenceNumber_getSequenceNumber (H : Heap) (n : Nat) (hn : n < 4294967296)
    (h8 : H.grants 8 = true) (h12 : H.grants 12 = true) (h16 : H.grants 16 = true) :
    ∃ b0 b1, MFHD.construct H = some b0 ∧
      MFHD.setSequenceNumber H b0 (Int.ofNat n) = some b1 ∧
      MFHD.getSequenceNumber H b1 = some (Int.ofNat n, b1) ∧
      b1.boxedSize = some 16 ∧ b1.payloadSize = some 8 ∧
      (b1.data.drop (4 + 8)).take 4 =
        [n / 16777216 % 256, n / 65536 % 256, n / 256 % 256, n % 256] ∧
      (b1.data.drop (0 + 8)).take 4 = [0, 0, 0, 0] := by
  refine ⟨_, _, mfhd_construct_eq H h8 h12, mfhd_setSequenceNumber_eq H h16 n, ?_, ?_, ?_, ?_, ?_⟩
  · rw [toUInt32_ofNat hn]
    unfold MFHD.getSequenceNumber
    rw [getInt32_inside (T := 16) H (by simp [Box.boxedSize, ntohl]) (by omega)]
    simp only [ntohl, List.getElem?_cons_succ, List.getElem?_cons_zero, Option.map_some',
      Option.some.injEq, Prod.mk.injEq, and_true]
    show ((_ : Nat) : Int) = (n : Int)
    congr 1
    omega
  · simp [Box.boxedSize, ntohl]
  · exact payloadSize_eq (T := 16) (by simp [Box.boxedSize, ntohl]) (by omega)
  · rw [toUInt32_ofNat hn]
    rfl
  · rfl

/-- C26, witness: the sequence number 258 on the allocator that grants every request. -/
theorem setSequenceNumber_getSequenceNumber_witness :
    ∃ b0 b1, MFHD.construct generous = some b0 ∧
      MFHD.setSequenceNumber generous b0 (Int.ofNat 258) = some b1 ∧
      MFHD.getSequenceNumber generous b1 = some (Int.ofNat 258, b1) ∧
      b1.boxedSize = some 16 ∧ b1.payloadSize = some 8 ∧
      (b1.data.drop (4 + 8)).take 4 =
        [258 / 16777216 % 256, 258 / 65536 % 256, 258 / 256 % 256, 258 % 256] ∧
      (b1.data.drop (0 + 8)).take 4 = [0, 0, 0, 0] :=
  setSequenceNumber_getSequenceNumber generous 258 (by decide) rfl rfl rfl

theorem getFlags_inside (H : Heap) {b : Box} {T : Nat} (hT : b.boxedSize = some T)
    (h12 : 12 ≤ T) (hlen : T ≤ b.data.length) : ∃ f, b.getInt24 H 1 = some (f, b) := by
  obtain ⟨f, hf⟩ := long24_isSome (d := b.data) (k := 1 + 8) (by omega)
  exact ⟨f, by rw [getInt24_inside H hT (by omega), hf]; rfl⟩

/-- C23: on a box with at least 4 payload bytes (declared length inside the allocation),
`getFlags()` reads the flags without changing the box, and whenever the governing flag bit
of an optional field is clear in its result, the getter of that field returns 0 and leaves
the box as it is, whatever the masks and whatever the other bytes of the box: the
track-fragment-header getters `getBaseDataOffset`, `getSampleDescriptionIndex`,
`getDefaultSampleDuration`, `getDefaultSampleSize`, `getDefaultSampleFlags` and the
track-fragment-run getters `getDataOffset`, `getFirstSampleFlags`. -/
theorem flag_clear_getters (H : Heap) (F : TfhdFlags) (G : TrunFlags) (b : Box) (T : Nat)
    (hT : b.boxedSize = some T) (h12 : 12 ≤ T) (hlen : T ≤ b.data.length) :
    ∃ f, TFHD.getFlags H b = some (f, b) ∧ TRUN.getFlags H b = some (f, b) ∧
      (hasFlag f F.baseOffset = false → TFHD.getBaseDataOffset H F b = some (0, b)) ∧
      (hasFlag f F.sampleDesc = false → TFHD.getSampleDescriptionIndex H F b = some (0, b)) ∧
      (hasFlag f F.sampleDura = false → TFHD.getDefaultSampleDuration H F b = some (0, b)) ∧
      (hasFlag f F.sampleSize = false → TFHD.getDefaultSampleSize H F b = some (0, b)) ∧
      (hasFlag f F.sampleFlag = false → TFHD.getDefaultSampleFlags H F b = some (0, b)) ∧
      (hasFlag f G.dataOffset = false → TRUN.getDataOffset H G b = some (0, b)) ∧
      (hasFlag f G.firstSampleFlags = false → TRUN.getFirstSampleFlags H G b = some (0, b)) := by
  obtain ⟨f, hf⟩ := getFlags_inside H hT h12 hlen
  have hf1 : TFHD.getFlags H b = some (f, b) := hf
  have hf2 : TRUN.getFlags H b = some (f, b) := hf
  refine ⟨f, hf1, hf2, ?_, ?_, ?_, ?_, ?_, ?_, ?_⟩ <;> intro h
  · simp [TFHD.getBaseDataOffset, hf1, h]
  · simp [TFHD.getSampleDescriptionIndex, hf1, h]
  · simp [TFHD.getDefaultSampleDuration, hf1, h]
  · simp [TFHD.getDefaultSampleSize, hf1, h]
  · simp [TFHD.getDefaultSampleFlags, hf1, h]
  · simp [TRUN.getDataOffset, hf2, h]
  · simp [TRUN.getFirstSampleFlags, hf2, h]

/-- C23, witness: the 32-byte box with no flag set and twenty bytes 9 behind the flags,
under the masks of ISO 14496-12: every flag is clear and every getter returns 0. -/
theorem flag_clear_getters_witness :
    TFHD.getFlags generous plainFragment = some (0, plainFragment) ∧
    TFHD.getBaseDataOffset generous isoTfhdFlags plainFragment = some (0, plainFragment) ∧
    TFHD.getSampleDescriptionIndex generous isoTfhdFlags plainFragment
      = some (0, plainFragment) ∧
    TFHD.getDefaultSampleDuration generous isoTfhdFlags plainFragment
      = some (0, plainFragment) ∧
    TFHD.getDefaultSampleSize generous isoTfhdFlags plainFragment = some (0, plainFragment) ∧
    TFHD.getDefaultSampleFlags generous isoTfhdFlags plainFragment = some (0, plainFragment) ∧
    TRUN.getDataOffset generous isoTrunFlags plainFragment = some (0, plainFragment) ∧
    TRUN.getFirstSampleFlags generous isoTrunFlags plainFragment = some (0, plainFragment) := by
  obtain ⟨f, h1, _, a1, a2, a3, a4, a5, a6, a7⟩ :=
    flag_clear_getters generous isoTfhdFlags isoTrunFlags plainFragment 32 (by decide)
      (by decide) (by decide)
  have h0 : TFHD.getFlags generous plainFragment = some (0, plainFragment) := by decide
  have hf : f = 0 := by
    rw [h0] at h1
    exact (congrArg Prod.fst (Option.some.inj h1)).symm
  subst hf
  exact ⟨h1, a1 (by decide), a2 (by decide), a3 (by decide), a4 (by decide), a5 (by decide),
    a6 (by decide), a7 (by decide)⟩

/-- C24: on a box with at least 4 payload bytes (declared length inside the allocation),
whenever the governing flag bit of an optional field is clear in the result of `getFlags()`,
the setter of that field returns the box as it was, buffer, declared length, capacity and
ownership, for every argument value and whatever the masks: the track-fragment-header
setters `setBaseDataOffset`, `setSampleDescriptionIndex`, `setDefaultSampleDuration`,
`setDefaultSampleSize`, `setDefaultSampleFlags` and the track-fragment-run setters
`setDataOffset`, `setFirstSampleFlags`. -/
theorem flag_clear_setters (H : Heap) (F : TfhdFlags) (G : TrunFlags) (b : Box) (T : Nat)
    (v : Int) (hT : b.boxedSize = some T) (h12 : 12 ≤ T) (hlen : T ≤ b.data.length) :
    ∃ f, TFHD.getFlags H b = some (f, b) ∧ TRUN.getFlags H b = some (f, b) ∧
      (hasFlag f F.baseOffset = false → TFHD.setBaseDataOffset H F b v = some b) ∧
      (hasFlag f F.sampleDesc = false → TFHD.setSampleDescriptionIndex H F b v = some b) ∧
      (hasFlag f F.sampleDura = false → TFHD.setDefaultSampleDuration H F b v = some b) ∧
      (hasFlag f F.sampleSize = false → TFHD.setDefaultSampleSize H F b v = some b) ∧
      (hasFlag f F.sampleFlag = false → TFHD.setDefaultSampleFlags H F b v = some b) ∧
      (hasFlag f G.dataOffset = false → TRUN.setDataOffset H G b v = some b) ∧
      (hasFlag f G.firstSampleFlags = false → TRUN.setFirstSampleFlags H G b v = some b) := by
  obtain ⟨f, hf⟩ := getFlags_inside H hT h12 hlen
  have hf1 : TFHD.getFlags H b = some (f, b) := hf
  have hf2 : TRUN.getFlags H b = some (f, b) := hf
  refine ⟨f, hf1, hf2, ?_, ?_, ?_, ?_, ?_, ?_, ?_⟩ <;> intro h
  · simp [TFHD.setBaseDataOffset, hf1, h]
  · simp [TFHD.setSampleDescriptionIndex, hf1, h]
  · simp [TFHD.setDefaultSampleDuration, hf1, h]
  · simp [TFHD.setDefaultSampleSize, hf1, h]
  · simp [TFHD.setDefaultSampleFlags, hf1, h]
  · simp [TRUN.setDataOffset, hf2, h]
  · simp [TRUN.setFirstSampleFlags, hf2, h]

/-- C24, witness: the 32-byte box with no flag set, under the masks of ISO 14496-12, and
the argument 77: every flag is clear and every setter leaves the box as it is. -/
theorem flag_clear_setters_witness :
    TFHD.getFlags generous plainFragment = some (0, plainFragment) ∧
    TFHD.setBaseDataOffset generous isoTfhdFlags plainFragment 77 = some plainFragment ∧
    TFHD.setSampleDescriptionIndex generous isoTfhdFlags plainFragment 77
      = some plainFragment ∧
    TFHD.setDefaultSampleDuration generous isoTfhdFlags plainFragment 77 = some plainFragment ∧
    TFHD.setDefaultSampleSize generous isoTfhdFlags plainFragment 77 = some plainFragment ∧
    TFHD.setDefaultSampleFlags generous isoTfhdFlags plainFragment 77 = some plainFragment ∧
    TRUN.setDataOffset generous isoTrunFlags plainFragment 77 = some plainFragment ∧
    TRUN.setFirstSampleFlags generous isoTrunFlags plainFragment 77 = some plainFragment := by
  obtain ⟨f, h1, _, a1, a2, a3, a4, a5, a6, a7⟩ :=
    flag_clear_setters generous isoTfhdFlags isoTrunFlags plainFragment 32 77 (by decide)
      (by decide) (by decide)
  have h0 : TFHD.getFlags generous plainFragment = some (0, plainFragment) := by decide
  have hf : f = 0 := by
    rw [h0] at h1
    exact (congrArg Prod.fst (Option.some.inj h1)).symm
  subst hf
  exact ⟨h1, a1 (by decide), a2 (by decide), a3 (by decide), a4 (by decide), a5 (by decide),
    a6 (by decide), a7 (by decide)⟩

theorem reserve_ok (H : Heap) {b : Box} {T p c w : Nat} (hT : b.boxedSize = some T)
    (hm : b.managed = true) (hlen : T ≤ b.data.length) (hcap : b.data_size ≤ b.data.length)
    (hpc : p + c ≤ T) (h4 : 4 ≤ p + w) (hg : c < w → H.grants (T + (w - c)) = true)
    (h32 : T + w - c < 4294967296) :
    ∃ b', b.reserve H p c w = some (true, b') ∧ b'.managed = true ∧
      b'.boxedSize = some (T + w - c) ∧ T + w - c ≤ b'.data.length ∧
      b'.data_size ≤ b'.data.length := by
  have h4' : 4 ≤ b.data.length := ntohl_some_length hT
  rcases Nat.lt_trichotomy c w with hcw | hcw | hcw
  · by_cases hc : T + (w - c) ≤ b.data_size
    · refine ⟨_, reserve_grow_eq H hT hcw hpc hc hcap h4, hm, ?_, ?_, ?_⟩
      · show ntohl (resized b.data T p c w) 0 = _
        rw [ntohl_resized hpc hlen (by omega) h4', Nat.mod_eq_of_lt h32]
      · show _ ≤ (resized b.data T p c w).length
        rw [length_resized hpc hlen (by omega) h4']
        omega
      · show b.data_size ≤ (resized b.data T p c w).length
        rw [length_resized hpc hlen (by omega) h4']
        exact hcap
    · have hl := length_regrown H b.data (T + (w - c))
      refine ⟨_, reserve_realloc_eq H hT hcw hpc (by omega) hm (hg hcw) h4, rfl, ?_, ?_, ?_⟩
      · show ntohl (resized (regrown H b.data (T + (w - c))) T p c w) 0 = _
        rw [ntohl_resized hpc (by omega) (by omega) (by omega), Nat.mod_eq_of_lt h32]
      · show _ ≤ (resized (regrown H b.data (T + (w - c))) T p c w).length
        rw [length_resized hpc (by omega) (by omega) (by omega)]
        omega
      · show T + (w - c) ≤ (resized (regrown H b.data (T + (w - c))) T p c w).length
        rw [length_resized hpc (by omega) (by omega) (by omega)]
        omega
  · subst hcw
    refine ⟨b, by simp [Box.reserve], hm, ?_, by omega, hcap⟩
    rw [hT, Nat.add_sub_cancel]
  · refine ⟨_, reserve_shrink_eq H hT hcw hpc hlen h4, hm, ?_, ?_, ?_⟩
    · show ntohl (resized b.data T p c w) 0 = _
      rw [ntohl_resized hpc hlen (by omega) h4', Nat.mod_eq_of_lt h32]
    · show _ ≤ (resized b.data T p c w).length
      rw [length_resized hpc hlen (by omega) h4']
      omega
    · show b.data_size ≤ (resized b.data T p c w).length
      rw [length_resized hpc hlen (by omega) h4']
      exact hcap

theorem string_written (H : Heap) {b : Box} {T i : Nat} {s : List Nat}
    (hT : b.boxedSize = some T) (hlen : T ≤ b.data.length) (hs : ∀ x ∈ s, x ≠ 0)
    (hin : i + 8 + s.length + 1 ≤ T) :
    memcpy b.data (i + 8) (s ++ [0]) = some (patch b.data (i + 8) (s ++ [0])) ∧
      ({ b with data := patch b.data (i + 8) (s ++ [0]) } : Box).getString H i =
        some (some s, { b with data := patch b.data (i + 8) (s ++ [0]) }) ∧
      ({ b with data := patch b.data (i + 8) (s ++ [0]) } : Box).getStringLen i
        = some s.length := by
  have hl : i + 8 + (s ++ [0]).length ≤ b.data.length := by
    simp only [List.length_append, List.length_singleton]; omega
  have hT' : ({ b with data := patch b.data (i + 8) (s ++ [0]) } : Box).boxedSize = some T := by
    show ntohl (patch b.data (i + 8) (s ++ [0])) 0 = some T
    rw [ntohl_patch_behind (by omega) hl]
    exact hT
  have hd : ({ b with data := patch b.data (i + 8) (s ++ [0]) } : Box).data =
      b.data.take (i + 8) ++ (s ++ 0 :: b.data.drop (i + 8 + (s ++ [0]).length)) := by
    show patch b.data (i + 8) (s ++ [0]) = _
    simp [patch]
  have hp : (b.data.take (i + 8)).length = i + 8 := by
    simp only [List.length_take]; omega
  refine ⟨?_, getString_at H hT' hd hp hs (by omega), getStringLen_at hT' hd hp hs (by omega)⟩
  unfold memcpy
  rw [if_pos hl]

theorem replaceString_ok (H : Heap) {b : Box} {T i : Nat} {s : List Nat}
    (hT : b.boxedSize = some T) (hm : b.managed = true) (hlen : T ≤ b.data.length)
    (hcap : b.data_size ≤ b.data.length) (hi : i + 8 < T) (hs : ∀ x ∈ s, x ≠ 0)
    (hz : i + 16 < T → ∃ n, i + 16 + n < T ∧ b.data[i + 16 + n]? = some 0)
    (hg : ∀ n, T < n → n ≤ T + s.length → H.grants n = true)
    (h32 : T + s.length < 4294967296) :
    ∃ b', Box.replaceString H b s (i + 8) = some b' ∧
      b'.getString H i = some (some s, b') ∧ b'.getStringLen i = some s.length := by
  have hL : ∃ L, b.getStringLen (i + 8) = some L ∧ i + 8 + L + 1 ≤ T := by
    by_cases h16 : i + 16 < T
    · obtain ⟨n, hn, hz0⟩ := hz h16
      have h0 : (b.data.drop (i + 8 + 8))[n]? = some 0 := by
        rw [List.getElem?_drop]
        have e : i + 8 + 8 + n = i + 16 + n := by omega
        rw [e]
        exact hz0
      obtain ⟨k, hk, hsk, _⟩ := strlenFrom_of_zero _ n h0
      refine ⟨k, ?_, by omega⟩
      rw [getStringLen_inside hT (by omega)]
      exact hsk
    · refine ⟨0, ?_, by omega⟩
      unfold Box.getStringLen
      simp only [hT, Option.some_bind]
      rw [if_pos (by omega)]
  obtain ⟨L, hgl, hLT⟩ := hL
  unfold Box.replaceString
  rw [hgl]
  simp only [Option.some_bind]
  by_cases hne : L = s.length
  · rw [if_neg (not_not.mpr hne)]
    obtain ⟨hmc, hgs, hgn⟩ := string_written H hT hlen hs (i := i) (by omega)
    rw [hmc]
    exact ⟨_, rfl, hgs, hgn⟩
  · rw [if_pos hne]
    obtain ⟨b1, hr, _, hT1, hlen1, _⟩ := reserve_ok H (p := i + 8) (c := L + 1)
      (w := s.length + 1) hT hm hlen hcap (by omega) (by omega)
      (fun h => hg _ (by omega) (by omega)) (by omega)
    rw [hr]
    simp only [Option.some_bind, Bool.true_eq_false, if_false]
    obtain ⟨hmc, hgs, hgn⟩ := string_written H hT1 hlen1 hs (i := i) (by omega)
    rw [hmc]
    exact ⟨_, rfl, hgs, hgn⟩

/-- C21, the claim as stated fails: when the allocator refuses to grow the box, `setString`
returns without writing, and `getString` then returns the null pointer and `getStringLen` 0
where the claim has the string "A" and 1. On the 17-byte box whose last payload byte is 1,
`setString("x", 0)` measures the old string 8 bytes too far on, at the last byte of the
box, and reads beyond the allocation. -/
theorem setString_counterexample :
    emptyMfhd.managed = true ∧ emptyMfhd.payloadSize = some 0 ∧
    emptyMfhd.setString exhausted [65] 0 = some emptyMfhd ∧
    emptyMfhd.getString exhausted 0 = some (none, emptyMfhd) ∧
    emptyMfhd.getStringLen 0 = some 0 ∧
    openEnded.managed = true ∧ openEnded.payloadSize = some 9 ∧
    openEnded.setString generous [120] 0 = none := by
  decide

/-- C21, amended: on an owning box (declared length `T ≥ 8` and recorded capacity inside
the allocation), for a payload offset `i ≤ payloadSize()` and a string `s` without zero
byte, when the allocator grants the sizes between `T` and `T + |s| + 1` and that length stays
below 2^32, and when the bytes from payload offset `i + 8` on, if the box reaches that far,
hold a zero byte inside the box (it is there that the code measures the old string),
`setString(s, i)` succeeds, and afterwards `getString(i)` returns `s` and `getStringLen(i)`
returns `|s|`. -/
theorem setString_getString (H : Heap) (b : Box) (T P i : Nat) (s : List Nat)
    (hm : b.managed = true) (hT : b.boxedSize = some T) (h8 : 8 ≤ T) (hlen : T ≤ b.data.length)
    (hcap : b.data_size ≤ b.data.length) (hP : b.payloadSize = some P) (hi : i ≤ P)
    (hs : ∀ x ∈ s, x ≠ 0)
    (hz : i + 16 < T → ∃ n, i + 16 + n < T ∧ b.data[i + 16 + n]? = some 0)
    (hg : ∀ n, T < n → n ≤ T + s.length + 1 → H.grants n = true)
    (h32 : T + s.length + 1 < 4294967296) :
    ∃ b', b.setString H s i = some b' ∧ b'.getString H i = some (some s, b') ∧
      b'.getStringLen i = some s.length := by
  have hPT : P = T - 8 := by
    rw [payloadSize_eq hT h8] at hP
    exact (Option.some.inj hP).symm
  subst hPT
  unfold Box.setString
  simp only [hT, Option.some_bind]
  by_cases hend : i + 8 ≥ T
  · rw [if_pos hend]
    obtain ⟨b1, hr, hm1, hT1, hlen1, hcap1⟩ := reserve_ok H (p := i + 8) (c := 0) (w := 1) hT hm
      hlen hcap (by omega) (by omega) (fun _ => hg _ (by omega) (by omega)) (by omega)
    rw [hr]
    simp only [Option.some_bind, Bool.true_eq_false, if_false]
    have hl : i + 8 + [0 % 256].length ≤ b1.data.length := by
      simp only [List.length_singleton]; omega
    have hpk : poke b1.data (i + 8) 0 = some (patch b1.data (i + 8) [0 % 256]) := by
      unfold poke memcpy
      rw [if_pos hl]
    rw [hpk]
    simp only [Option.some_bind]
    have hT2 : ({ b1 with data := patch b1.data (i + 8) [0 % 256] } : Box).boxedSize
        = some (T + 1) := by
      show ntohl (patch b1.data (i + 8) [0 % 256]) 0 = some (T + 1)
      rw [ntohl_patch_behind (by omega) hl]
      exact hT1
    have hlen2 : (patch b1.data (i + 8) [0 % 256]).length = b1.data.length := length_patch hl
    exact replaceString_ok H hT2 hm1 (by show T + 1 ≤ _; rw [hlen2]; omega)
      (by show b1.data_size ≤ _; rw [hlen2]; exact hcap1) (by omega) hs
      (fun h => absurd h (by omega)) (fun n h1 h2 => hg n (by omega) (by omega)) (by omega)
  · rw [if_neg hend]
    exact replaceString_ok H hT hm hlen hcap (by omega) hs hz
      (fun n h1 h2 => hg n h1 (by omega)) (by omega)

/-- C21, witness: the string "xy" set as the movie identifier (payload offset 29) of the
55-byte bootstrap-info box `sampleAbst`; the zero byte behind payload offset 37 is the one
that ends its first server entry. -/
theorem setString_getString_witness :
    ∃ b', sampleAbst.setString generous [120, 121] 29 = some b' ∧
      b'.getString generous 29 = some (some [120, 121], b') ∧
      b'.getStringLen 29 = some [120, 121].length :=
  setString_getString generous sampleAbst 55 47 29 [120, 121] (by decide) (by decide)
    (by decide) (by decide) (by decide) (by decide) (by decide) (by decide)
    (fun _ => ⟨0, by decide, by decide⟩) (fun _ _ _ => rfl) (by decide)

theorem reserve_denied (H : Heap) {b : Box} {T : Nat} (p : Nat) {c w : Nat}
    (hT : b.boxedSize = some T) (hcw : c < w) (hcap : b.data_size < T + (w - c))
    (hg : H.grants (T + (w - c)) = false) : b.reserve H p c w = some (false, b) := by
  unfold Box.reserve
  rw [if_neg (by omega), if_pos hcw, hT, Option.some_bind, if_pos (by omega)]
  by_cases hm : b.managed = false
  · rw [if_pos hm]
  · rw [if_neg hm]
    simp [realloc, hg]

theorem setInt32_kept (H : Heap) {b : Box} {T C k : Nat} (v : Int) (hG : TrunKept b T C)
    (h8 : 8 ≤ k) (hk : k + 8 + 4 ≤ T) : ∃ b', b.setInt32 H v k = some b' ∧ TrunKept b' T C := by
  obtain ⟨hT, h16, hlen, hcap, hC⟩ := hG
  have hp : k + 8 + (htonl (toUInt32 v)).length ≤ b.data.length := by
    rw [htonl_length]; omega
  refine ⟨_, setInt32_inside H v hT (by omega) hlen, ?_, h16, ?_, ?_, ?_⟩
  · show ntohl (patch b.data (k + 8) (htonl (toUInt32 v))) 0 = some T
    rw [ntohl_patch_behind (by omega) hp]
    exact hT
  · show T ≤ (patch b.data (k + 8) (htonl (toUInt32 v))).length
    rw [length_patch hp]
    exact hlen
  · show b.data_size ≤ (patch b.data (k + 8) (htonl (toUInt32 v))).length
    rw [length_patch hp]
    exact hcap
  · show ntohl (patch b.data (k + 8) (htonl (toUInt32 v))) 12 = some C
    rw [← hC]
    apply ntohl_congr
    intro j hj
    rw [getElem?_patch hp, if_pos (by omega)]

theorem inserted_kept {D : List Nat} {T C : Nat} (p x ds : Nat) (m : Bool)
    (hp16 : 16 ≤ p) (hpT : p ≤ T) (hlen : T + 4 ≤ D.length) (hds : ds ≤ D.length)
    (hC : ntohl D 12 = some C) (h32 : T + 4 < 4294967296) :
    TrunKept ⟨patch (resized D T p 0 4) p (htonl x), ds, m⟩ (T + 4) C := by
  have hl : (resized D T p 0 4).length = D.length :=
    length_resized (by omega) (by omega) (by omega) (by omega)
  have hp : p + (htonl x).length ≤ (resized D T p 0 4).length := by
    rw [htonl_length, hl]; omega
  refine ⟨?_, by omega, ?_, ?_, ?_⟩
  · show ntohl (patch (resized D T p 0 4) p (htonl x)) 0 = some (T + 4)
    rw [ntohl_patch_behind (by omega) hp,
      ntohl_resized (by omega) (by omega) (by omega) (by omega), Nat.mod_eq_of_lt (by omega)]
    rfl
  · show T + 4 ≤ (patch (resized D T p 0 4) p (htonl x)).length
    rw [length_patch hp, hl]
    exact hlen
  · show ds ≤ (patch (resized D T p 0 4) p (htonl x)).length
    rw [length_patch hp, hl]
    exact hds
  · show ntohl (patch (resized D T p 0 4) p (htonl x)) 12 = some C
    rw [← hC]
    apply ntohl_congr
    intro j hj
    rw [getElem?_patch hp, if_pos (by omega),
      getElem?_resized (by omega) (by omega) (by omega) (by omega) (by omega),
      if_neg (by omega)]

/-- A 32-bit store of `TRUN::setSampleInformation` at a payload offset `k` behind the count
slot that starts at or before the declared end of the box, or on a box that cannot grow:
it is defined, keeps the count slot, and leaves the next field in the same situation. -/
theorem setInt32_reached (H : Heap) {b : Box} {T C k : Nat} (v : Int) (hG : TrunKept b T C)
    (h8 : 8 ≤ k) (h32 : T < k + 8 + 4 → T + 4 < 4294967296)
    (he : k + 8 ≤ T ∨ Stuck H b T) :
    ∃ b' T', b.setInt32 H v k = some b' ∧ TrunKept b' T' C ∧ T ≤ T' ∧ T' ≤ T + 4 ∧
      (k + 8 + 4 ≤ T' ∨ Stuck H b' T') := by
  by_cases hin : k + 8 + 4 ≤ T
  · obtain ⟨b', hb', G'⟩ := setInt32_kept H v hG h8 hin
    exact ⟨b', T, hb', G', by omega, by omega, Or.inl hin⟩
  · have h32' := h32 (by omega)
    obtain ⟨hT, h16, hlen, hcap, hC⟩ := hG
    have hge : k + 8 + 3 ≥ T := by omega
    unfold Box.setInt32
    simp only [hT, Option.some_bind]
    rw [if_pos hge]
    by_cases hc : T + (4 - 0) ≤ b.data_size
    · have hk : k + 8 ≤ T := by
        rcases he with h | ⟨h, _⟩
        · exact h
        · omega
      rw [reserve_grow_eq H hT (by omega) (by omega) hc hcap (by omega)]
      simp only [Option.some_bind, Bool.true_eq_false, if_false]
      have hl : (resized b.data T (k + 8) 0 4).length = b.data.length :=
        length_resized (by omega) (by omega) (by omega) (by omega)
      have hm : memcpy (resized b.data T (k + 8) 0 4) (k + 8) (htonl (toUInt32 v)) =
          some (patch (resized b.data T (k + 8) 0 4) (k + 8) (htonl (toUInt32 v))) := by
        unfold memcpy
        rw [if_pos (by rw [htonl_length, hl]; omega)]
      rw [hm]
      exact ⟨_, T + 4, rfl,
        inserted_kept (k + 8) (toUInt32 v) b.data_size b.managed (by omega) hk (by omega)
          hcap hC h32',
        by omega, by omega, Or.inl (by omega)⟩
    · by_cases hm : b.managed = false
      · rw [reserve_refused H (k + 8) hm hT (by omega) (by omega)]
        exact ⟨b, T, rfl, ⟨hT, h16, hlen, hcap, hC⟩, by omega, by omega,
          Or.inr ⟨by omega, Or.inl hm⟩⟩
      · by_cases hg : H.grants (T + (4 - 0)) = false
        · rw [reserve_denied H (k + 8) hT (by omega) (by omega) hg]
          exact ⟨b, T, rfl, ⟨hT, h16, hlen, hcap, hC⟩, by omega, by omega,
            Or.inr ⟨by omega, Or.inr hg⟩⟩
        · have hm' : b.managed = true := by simpa using hm
          have hg' : H.grants (T + (4 - 0)) = true := by simpa using hg
          have hk : k + 8 ≤ T := by
            rcases he with h | ⟨_, h | h⟩
            · exact h
            · exact absurd h hm
            · exact absurd h hg
          rw [reserve_realloc_eq H hT (by omega) (by omega) (by omega) hm' hg' (by omega)]
          simp only [Option.some_bind, Bool.true_eq_false, if_false]
          have hlr := length_regrown H b.data (T + (4 - 0))
          have hl : (resized (regrown H b.data (T + (4 - 0))) T (k + 8) 0 4).length
              = T + (4 - 0) := by
            rw [length_resized (by omega) (by omega) (by omega) (by omega)]
            exact hlr
          have hmc : memcpy (resized (regrown H b.data (T + (4 - 0))) T (k + 8) 0 4) (k + 8)
              (htonl (toUInt32 v)) =
              some (patch (resized (regrown H b.data (T + (4 - 0))) T (k + 8) 0 4) (k + 8)
                (htonl (toUInt32 v))) := by
            unfold memcpy
            rw [if_pos (by have := htonl_length (toUInt32 v); omega)]
          rw [hmc]
          have hC' : ntohl (regrown H b.data (T + (4 - 0))) 12 = some C := by
            rw [← hC]
            apply ntohl_congr
            intro j hj
            exact getElem?_regrown H (by omega) (by omega)
          exact ⟨_, T + 4, rfl,
            inserted_kept (k + 8) (toUInt32 v) (T + (4 - 0)) true (by omega) hk (by omega)
              (by omega) hC' h32',
            by omega, by omega, Or.inl (by omega)⟩

theorem toSizeT_ofNat {k : Nat} (h : k < 18446744073709551616) : toSizeT (k : Int) = k := by
  unfold toSizeT
  omega

theorem storeField_reached (H : Heap) {b : Box} {T C k : Nat} (present : Bool)
    (value base inner : Int) (hG : TrunKept b T C) (hkk : base + inner = (k : Int))
    (h8 : 8 ≤ k) (hk64 : k < 18446744073709551616)
    (h32 : present = true → T < k + 8 + 4 → T + 4 < 4294967296)
    (he : k + 8 ≤ T ∨ Stuck H b T) :
    ∃ (b' : Box) (T' a : Nat), TRUN.storeField H present value base (b, inner) =
        some (b', inner + (a : Int)) ∧ (a : Int) = (if present = true then 4 else 0) ∧
      TrunKept b' T' C ∧ T ≤ T' ∧ T' ≤ T + a ∧
      (k + a + 8 ≤ T' ∨ Stuck H b' T') := by
  cases present with
  | false =>
    exact ⟨b, T, 0, by simp [TRUN.storeField], by simp, hG, by omega, by omega, he⟩
  | true =>
    obtain ⟨b', T', hb', G', h1, h2, h3⟩ := setInt32_reached H value hG h8 (h32 rfl) he
    refine ⟨b', T', 4, ?_, by simp, G', h1, h2, ?_⟩
    · simp only [TRUN.storeField, if_true, hkk]
      rw [toSizeT_ofNat hk64, hb']
      rfl
    · rcases h3 with h | h
      · exact Or.inl (by omega)
      · exact Or.inr h

/-- The four guarded stores of `TRUN::setSampleInformation` for a record that starts at the
payload offset `k0`, at or before the declared end of the box, or on a box that cannot grow:
all four are defined and keep the count slot, whatever follows them. -/
theorem stores_reached (H : Heap) {b : Box} {T C : Nat} (k0 : Nat) (p1 p2 p3 p4 : Bool)
    (v1 v2 v3 v4 : Int) (hG : TrunKept b T C) (h8 : 8 ≤ k0)
    (hkb : k0 + 16 < 18446744073709551616)
    (h32 : (T : Int) < k0 + 8 + ((if p1 = true then 4 else 0) + (if p2 = true then 4 else 0)
        + (if p3 = true then 4 else 0) + (if p4 = true then 4 else 0)) →
      (T : Int) + ((if p1 = true then 4 else 0) + (if p2 = true then 4 else 0)
        + (if p3 = true then 4 else 0) + (if p4 = true then 4 else 0)) < 4294967296)
    (he : k0 + 8 ≤ T ∨ Stuck H b T) :
    ∃ (s : Box × Int) (T' : Nat), TrunKept s.1 T' C ∧
      ∀ (rest : Box × Int → Option Box),
        ((TRUN.storeField H p1 v1 (k0 : Int) (b, 0)).bind fun s1 =>
          (TRUN.storeField H p2 v2 (k0 : Int) s1).bind fun s2 =>
          (TRUN.storeField H p3 v3 (k0 : Int) s2).bind fun s3 =>
          (TRUN.storeField H p4 v4 (k0 : Int) s3).bind rest) = rest s := by
  obtain ⟨b1, T1, a1, e1, ha1, G1, l1, u1, i1⟩ := storeField_reached H
    (k := k0) p1 v1 (k0 : Int) 0 hG (by omega) h8 (by omega)
    (fun h hlt => by rw [if_pos h] at h32; split at h32 <;> split at h32 <;> split at h32 <;> omega)
    he
  have hb1 : (a1 : Int) ≤ 4 := by rw [ha1]; split <;> omega
  obtain ⟨b2, T2, a2, e2, ha2, G2, l2, u2, i2⟩ := storeField_reached H
    (k := k0 + a1) p2 v2 (k0 : Int) (0 + (a1 : Int)) G1 (by omega) (by omega) (by omega)
    (fun h hlt => by
      rw [if_pos h, ← ha1] at h32
      split at h32 <;> split at h32 <;> omega) i1
  have hb2 : (a2 : Int) ≤ 4 := by rw [ha2]; split <;> omega
  obtain ⟨b3, T3, a3, e3, ha3, G3, l3, u3, i3⟩ := storeField_reached H
    (k := k0 + a1 + a2) p3 v3 (k0 : Int) (0 + (a1 : Int) + (a2 : Int)) G2 (by omega)
    (by omega) (by omega)
    (fun h hlt => by
      rw [if_pos h, ← ha1, ← ha2] at h32
      split at h32 <;> omega) i2
  have hb3 : (a3 : Int) ≤ 4 := by rw [ha3]; split <;> omega
  obtain ⟨b4, T4, a4, e4, ha4, G4, l4, u4, i4⟩ := storeField_reached H
    (k := k0 + a1 + a2 + a3) p4 v4 (k0 : Int) (0 + (a1 : Int) + (a2 : Int) + (a3 : Int)) G3
    (by omega) (by omega) (by omega)
    (fun h hlt => by
      rw [if_pos h, ← ha1, ← ha2, ← ha3] at h32
      omega) i3
  refine ⟨(b4, 0 + (a1 : Int) + (a2 : Int) + (a3 : Int) + (a4 : Int)), T4, G4, fun rest => ?_⟩
  rw [e1]
  simp only [Option.some_bind]
  rw [e2]
  simp only [Option.some_bind]
  rw [e3]
  simp only [Option.some_bind]
  rw [e4]
  simp only [Option.some_bind]

theorem count_raised (H : Heap) {b : Box} {T C : Nat} (no : Nat) (hG : TrunKept b T C)
    (hn32 : no + 1 < 4294967296) :
    ∃ b', ((TRUN.getSampleInformationCount H b).bind fun c =>
        if c.1 < Int.ofNat no + 1 then c.2.setInt32 H (Int.ofNat no + 1) 4 else some c.2)
        = some b' ∧
      TRUN.getSampleInformationCount H b' = some (Int.ofNat (max C (no + 1)), b') := by
  obtain ⟨hT, h16, hlen, hcap, hC⟩ := hG
  have hget : TRUN.getSampleInformationCount H b = some (Int.ofNat C, b) := by
    unfold TRUN.getSampleInformationCount
    rw [getInt32_inside H hT (by omega), hC]
    rfl
  rw [hget]
  simp only [Option.some_bind]
  by_cases hlt : C < no + 1
  · rw [if_pos (by show (C : Int) < (no : Int) + 1; omega)]
    have e : Int.ofNat no + 1 = Int.ofNat (no + 1) := rfl
    rw [e, setInt32_inside H _ hT (by omega) hlen, toUInt32_ofNat hn32]
    have hp : 4 + 8 + (htonl (no + 1)).length ≤ b.data.length := by
      rw [htonl_length]; omega
    have hT' : ({ b with data := patch b.data (4 + 8) (htonl (no + 1)) } : Box).boxedSize
        = some T := by
      show ntohl (patch b.data (4 + 8) (htonl (no + 1))) 0 = some T
      rw [ntohl_patch_behind (by omega) hp]
      exact hT
    refine ⟨_, rfl, ?_⟩
    unfold TRUN.getSampleInformationCount
    rw [getInt32_inside H hT' (by omega)]
    show (ntohl (patch b.data (4 + 8) (htonl (no + 1))) (4 + 8)).map _ = _
    rw [ntohl_patch_htonl_at (by omega), Nat.mod_eq_of_lt hn32, Nat.max_eq_right (by omega)]
    rfl
  · rw [if_neg (by show ¬ (C : Int) < (no : Int) + 1; omega)]
    refine ⟨b, rfl, ?_⟩
    rw [hget, Nat.max_eq_left (by omega)]

/-- C25, the claim as stated fails: the count slot has 32 bits, so on the box whose records
have no field and whose count is 1, `setSampleInformation(s, 2^32 - 1)` stores the count 0
where the claim has 2^32. And on the box with the sample-duration flag and no record,
`setSampleInformation(s, 1)` stores its field four bytes beyond the end of the box, which
`reserve` cannot do: it moves a tail of wrapped length. -/
theorem setSampleInformation_counterexample :
    TRUN.getSampleInformationCount generous trunBare = some (1, trunBare) ∧
    TRUN.sampInfoSize isoTrunFlags 0 = 0 ∧
    TRUN.setSampleInformation generous isoTrunFlags trunBare ⟨1, 2, 3, 4⟩ 4294967295 =
      some ⟨[0, 0, 0, 16, 116, 114, 117, 110, 0, 0, 0, 0, 0, 0, 0, 0], 16, true⟩ ∧
    TRUN.getSampleInformationCount generous
        ⟨[0, 0, 0, 16, 116, 114, 117, 110, 0, 0, 0, 0, 0, 0, 0, 0], 16, true⟩ =
      some (0, ⟨[0, 0, 0, 16, 116, 114, 117, 110, 0, 0, 0, 0, 0, 0, 0, 0], 16, true⟩) ∧
    TRUN.getSampleInformationCount generous trunTimed = some (0, trunTimed) ∧
    TRUN.setSampleInformation generous isoTrunFlags trunTimed ⟨1, 2, 3, 4⟩ 1 = none := by
  decide

/-- C25, amended: on a track-fragment-run box (declared length `T` and recorded capacity
inside the allocation) whose flags read `f`, whose sample count is `C` and whose payload
holds the version, flags and count slot, the optional fields the flags announce and the `C`
sample records, for every index `no` with `no + 1 < 2^32` that is at most `C`, or whose
record starts at or before the declared end of the box, or any such `no` when the records
have no field or the box cannot grow (the box staying below 2^32 bytes when the record does
not lie inside it), `setSampleInformation(s, no)` succeeds, whatever the masks, and
`getSampleInformationCount()` afterwards equals `max(C, no + 1)`. -/
theorem setSampleInformation_count (H : Heap) (F : TrunFlags) (b : Box) (T C no : Nat) (f : Int)
    (newSample : TrunSampleInformation) (hT : b.boxedSize = some T) (hlen : T ≤ b.data.length)
    (hcap : b.data_size ≤ b.data.length) (hf : TRUN.getFlags H b = some (f, b))
    (hC : TRUN.getSampleInformationCount H b = some (Int.ofNat C, b))
    (hlay : 8 + TRUN.firstSample F f + (C : Int) * TRUN.sampInfoSize F f ≤ (T : Int))
    (hno : no ≤ C ∨ TRUN.sampInfoSize F f = 0 ∨
      8 + TRUN.firstSample F f + (no : Int) * TRUN.sampInfoSize F f ≤ (T : Int) ∨ Stuck H b T)
    (hn32 : no + 1 < 4294967296)
    (h32 : (T : Int) < 8 + TRUN.firstSample F f + ((no : Int) + 1) * TRUN.sampInfoSize F f →
      (T : Int) + TRUN.sampInfoSize F f < 4294967296) :
    ∃ b', TRUN.setSampleInformation H F b newSample (Int.ofNat no) = some b' ∧
      TRUN.getSampleInformationCount H b' = some (Int.ofNat (max C (no + 1)), b') := by
  have hT32 := ntohl_lt hT
  have hW : TRUN.sampInfoSize F f =
      (if hasFlag f F.sampleDuration = true then 4 else 0)
        + (if hasFlag f F.sampleSize = true then 4 else 0)
        + (if hasFlag f F.sampleFlags = true then 4 else 0)
        + (if hasFlag f F.sampleOffsets = true then 4 else 0) := rfl
  have hFS : 8 ≤ TRUN.firstSample F f ∧ TRUN.firstSample F f ≤ 16 := by
    have e : TRUN.firstSample F f =
        8 + (if hasFlag f F.dataOffset = true then 4 else 0)
          + (if hasFlag f F.firstSampleFlags = true then 4 else 0) := rfl
    rw [e]
    constructor <;> split <;> split <;> omega
  have hW0 : 0 ≤ TRUN.sampInfoSize F f ∧ TRUN.sampInfoSize F f ≤ 16 := by
    rw [hW]
    constructor <;> split <;> split <;> split <;> split <;> omega
  have hCW : 0 ≤ (C : Int) * TRUN.sampInfoSize F f := Int.mul_nonneg (by omega) hW0.1
  have hNW : 0 ≤ (no : Int) * TRUN.sampInfoSize F f := Int.mul_nonneg (by omega) hW0.1
  have hN16 : (no : Int) * TRUN.sampInfoSize F f ≤ (no : Int) * 16 :=
    Int.mul_le_mul_of_nonneg_left hW0.2 (by omega)
  have hmono : no ≤ C →
      (no : Int) * TRUN.sampInfoSize F f ≤ (C : Int) * TRUN.sampInfoSize F f :=
    fun h => Int.mul_le_mul_of_nonneg_right (by omega) hW0.1
  have hsucc : ((no : Int) + 1) * TRUN.sampInfoSize F f
      = (no : Int) * TRUN.sampInfoSize F f + TRUN.sampInfoSize F f := by
    rw [Int.add_mul, Int.one_mul]
  rw [hsucc] at h32
  have hno : TRUN.sampInfoSize F f = 0 ∨
      8 + TRUN.firstSample F f + (no : Int) * TRUN.sampInfoSize F f ≤ (T : Int) ∨
      Stuck H b T := by
    rcases hno with h | h
    · exact Or.inr (Or.inl (Int.le_trans
        (Int.add_le_add_left (hmono h) (8 + TRUN.firstSample F f)) hlay))
    · exact h
  have h16 : 16 ≤ T := by
    have h1 : (16 : Int) ≤ 8 + TRUN.firstSample F f + (C : Int) * TRUN.sampInfoSize F f :=
      Int.le_trans (by omega) (Int.le_add_of_nonneg_right hCW)
    have h2 := Int.le_trans h1 hlay
    omega
  have hCn : ntohl b.data 12 = some C := by
    unfold TRUN.getSampleInformationCount at hC
    rw [getInt32_inside H hT (by omega)] at hC
    cases hx : ntohl b.data (4 + 8) with
    | none => rw [hx] at hC; simp at hC
    | some x =>
      rw [hx] at hC
      simp only [Option.map_some', Option.some.injEq, Prod.mk.injEq, and_true] at hC
      have : x = C := Int.ofNat.inj hC
      rw [this]
  have hG : TrunKept b T C := ⟨hT, h16, hlen, hcap, hCn⟩
  unfold TRUN.setSampleInformation
  rw [hf]
  simp only [Option.some_bind]
  have hno' : (Int.ofNat no : Int) = (no : Int) := rfl
  rw [hno']
  by_cases hz : TRUN.sampInfoSize F f = 0
  · rw [hW] at hz
    have hp1 : hasFlag f F.sampleDuration = false := by
      cases hp : hasFlag f F.sampleDuration with
      | false => rfl
      | true =>
        rw [hp] at hz
        simp only [if_true] at hz
        split at hz <;> split at hz <;> split at hz <;> omega
    have hp2 : hasFlag f F.sampleSize = false := by
      cases hp : hasFlag f F.sampleSize with
      | false => rfl
      | true =>
        rw [hp] at hz
        simp only [if_true] at hz
        split at hz <;> split at hz <;> split at hz <;> omega
    have hp3 : hasFlag f F.sampleFlags = false := by
      cases hp : hasFlag f F.sampleFlags with
      | false => rfl
      | true =>
        rw [hp] at hz
        simp only [if_true] at hz
        split at hz <;> split at hz <;> split at hz <;> omega
    have hp4 : hasFlag f F.sampleOffsets = false := by
      cases hp : hasFlag f F.sampleOffsets with
      | false => rfl
      | true =>
        rw [hp] at hz
        simp only [if_true] at hz
        split at hz <;> split at hz <;> split at hz <;> omega
    rw [hp1, hp2, hp3, hp4]
    simp only [TRUN.storeField, Bool.false_eq_true, if_false, Option.some_bind]
    exact count_raised H no hG hn32
  · have hk0 : TRUN.firstSample F f + (no : Int) * TRUN.sampInfoSize F f
        = ((TRUN.firstSample F f + (no : Int) * TRUN.sampInfoSize F f).toNat : Int) :=
      (Int.toNat_of_nonneg (Int.add_nonneg (by omega) hNW)).symm
    generalize (TRUN.firstSample F f + (no : Int) * TRUN.sampInfoSize F f).toNat = k0 at hk0
    have hsum : 8 + TRUN.firstSample F f + (no : Int) * TRUN.sampInfoSize F f
        = 8 + (k0 : Int) := by rw [Int.add_assoc, hk0]
    have hsum2 : 8 + TRUN.firstSample F f
          + ((no : Int) * TRUN.sampInfoSize F f + TRUN.sampInfoSize F f)
        = 8 + (k0 : Int) + TRUN.sampInfoSize F f := by
      rw [← hsum, Int.add_assoc (8 + TRUN.firstSample F f)]
    rw [hsum] at hno
    rw [hsum2] at h32
    have h8k : 8 ≤ k0 := by
      have : (8 : Int) ≤ (k0 : Int) := by
        rw [← hk0]
        exact Int.le_trans hFS.1 (Int.le_add_of_nonneg_right hNW)
      omega
    have hkb : k0 + 16 < 18446744073709551616 := by
      have : (k0 : Int) ≤ 16 + (no : Int) * 16 := by
        rw [← hk0]
        exact Int.add_le_add hFS.2 hN16
      omega
    have he : k0 + 8 ≤ T ∨ Stuck H b T := by
      rcases hno with h | h | h
      · exact absurd h hz
      · exact Or.inl (by omega)
      · exact Or.inr h
    rw [hk0]
    obtain ⟨s, T', G', hchain⟩ := stores_reached H k0 (hasFlag f F.sampleDuration)
      (hasFlag f F.sampleSize) (hasFlag f F.sampleFlags) (hasFlag f F.sampleOffsets)
      newSample.sampleDuration newSample.sampleSize newSample.sampleFlags
      newSample.sampleOffset hG h8k hkb (fun h => h32 (by rw [hW]; omega)) he
    rw [hchain]
    exact count_raised H no G' hn32

/-- C25, witness: on the 24-byte box with the flags 0x100, the count 0 and eight spare
bytes, record 1 lies inside the box and the count goes from 0 to 2; on the box with the
flags 0x300 and one record a second record is appended and the count goes from 1 to 2.
Both under the masks of ISO 14496-12. -/
theorem setSampleInformation_count_witness :
    (∃ b', TRUN.setSampleInformation generous isoTrunFlags trunSpare ⟨1, 2, 3, 4⟩
        (Int.ofNat 1) = some b' ∧
      TRUN.getSampleInformationCount generous b' = some (Int.ofNat (max 0 (1 + 1)), b')) ∧
    (∃ b', TRUN.setSampleInformation generous isoTrunFlags trunOneSample ⟨1, 2, 3, 4⟩
        (Int.ofNat 1) = some b' ∧
      TRUN.getSampleInformationCount generous b' = some (Int.ofNat (max 1 (1 + 1)), b')) :=
  ⟨setSampleInformation_count generous isoTrunFlags trunSpare 24 0 1 256 ⟨1, 2, 3, 4⟩
      (by decide) (by decide) (by decide) (by decide) (by decide) (by decide)
      (Or.inr (Or.inr (Or.inl (by decide)))) (by decide) (by decide),
    setSampleInformation_count generous isoTrunFlags trunOneSample 24 1 1 768 ⟨1, 2, 3, 4⟩
      (by decide) (by decide) (by decide) (by decide) (by decide) (by decide)
      (Or.inl (by decide)) (by decide) (by decide)⟩

/-- C33, the code evaluated at the failing input: on the segment-run-table box with no
quality entry (`Q = 0`) and one run record (`R = 1`, first segment 5, 6 fragments per
segment) both counts read as laid out, but `getSegmentRun(0)` skips `R` strings where `Q`
are there: it takes the first byte of the run count for an empty string, reads the record
one byte early and beyond the end of the box, which grows to 29 bytes, and returns 1280 and
1536 instead of 5 and 6. -/
theorem getSegmentRun_evaluated :
    ASRT.getQualityEntryCount generous asrtOneRun = some (0, asrtOneRun) ∧
    ASRT.getSegmentRunEntryCount generous asrtOneRun = some (1, asrtOneRun) ∧
    ntohl asrtOneRun.data (9 + 8) = some 5 ∧ ntohl asrtOneRun.data (13 + 8) = some 6 ∧
    ASRT.getSegmentRun generous ⟨0, 0⟩ asrtOneRun 0 =
      some (⟨1280, 1536⟩,
        ⟨[0, 0, 0, 29, 97, 115, 114, 116, 0, 0, 0, 0, 0, 0, 0, 0, 1, 0, 0, 0, 5, 0, 0, 0, 6,
          0, 0, 0, 6], 29, true⟩) := by
  decide

/-- C34, the code evaluated at the failing input: on the fragment-run-table box with no
quality entry and no run record (`Q = 0`, `C = 0`), `setFragmentRun(r, 1)` stores the count
1, not 2; it inserts and zeroes its 17 bytes at position 13 of the buffer, eight bytes
before the run table, so that the bytes of the time scale 1000 are pushed into record 0,
which reads back with first timestamp 744 (those bytes through `getInt64`) instead of all
zeros, and the time scale of the box reads 0 afterwards. Record 1 is `r` and the box has
grown by 34 bytes. -/
theorem setFragmentRun_evaluated :
    AFRT.getQualityEntryCount generous afrtEmpty = some (0, afrtEmpty) ∧
    AFRT.getFragmentRunCount generous afrtEmpty = some (0, afrtEmpty) ∧
    afrtEmpty.getInt32 generous 4 = some (1000, afrtEmpty) ∧
    AFRT.setFragmentRun generous afrtEmpty ⟨1, 2, 3, 1⟩ 1 =
      some ⟨[0, 0, 0, 55, 97, 102, 114, 116, 0, 0, 0, 0, 0, 0, 0, 0, 0, 0, 0, 0, 1,
        0, 0, 0, 0, 0, 0, 0, 0, 0, 0, 3, 232, 0, 0, 0, 0, 0,
        0, 0, 0, 1, 0, 0, 0, 0, 0, 0, 0, 2, 0, 0, 0, 3, 1], 55, true⟩ ∧
    ((AFRT.setFragmentRun generous afrtEmpty ⟨1, 2, 3, 1⟩ 1).bind fun b =>
      AFRT.getFragmentRunCount generous b).map Prod.fst = some 1 ∧
    ((AFRT.setFragmentRun generous afrtEmpty ⟨1, 2, 3, 1⟩ 1).bind fun b =>
      AFRT.getFragmentRun generous ⟨9, 9, 9, 9⟩ b 0).map Prod.fst = some ⟨0, 744, 0, 0⟩ ∧
    ((AFRT.setFragmentRun generous afrtEmpty ⟨1, 2, 3, 1⟩ 1).bind fun b =>
      AFRT.getFragmentRun generous ⟨9, 9, 9, 9⟩ b 1).map Prod.fst = some ⟨1, 2, 3, 1⟩ ∧
    ((AFRT.setFragmentRun generous afrtEmpty ⟨1, 2, 3, 1⟩ 1).bind fun b =>
      b.getInt32 generous 4).map Prod.fst = some 0 := by
  decide

/-- C35, the code evaluated at the failing input: for the tags `trun` and `tfhd` the
`switch` of `Box::toPrettyString` has no case, and the fallback line is returned, at every
indent; the five tags it names are dispatched. -/
theorem toPrettyString_evaluated :
    (∀ indent, trunFresh.toPrettyString indent = some (Pretty.unimplemented
      (List.replicate indent 32 ++ unimplementedText ++ [116, 114, 117, 110] ++ [10]))) ∧
    (∀ indent, tfhdFresh.toPrettyString indent = some (Pretty.unimplemented
      (List.replicate indent 32 ++ unimplementedText ++ [116, 102, 104, 100] ++ [10]))) ∧
    emptyMfhd.toPrettyString 0 = some Pretty.mfhd ∧
    moofStalled.toPrettyString 0 = some Pretty.moof ∧
    abstFresh.toPrettyString 0 = some Pretty.abst ∧
    afrtEmpty.toPrettyString 0 = some Pretty.afrt ∧
    asrtOneRun.toPrettyString 0 = some Pretty.asrt :=
  ⟨fun _ => rfl, fun _ => rfl, by decide, by decide, by decide, by decide, by decide⟩

/-- On the 8-byte box, `getInt8` at any payload offset but 0 is undefined behaviour:
`reserve` is handed a position behind the declared length and moves a tail whose length
has wrapped around. -/
theorem getInt8_gap_undefined (k : Nat) : emptyMfhd.getInt8 generous (k + 1) = none := by
  have hr : emptyMfhd.reserve generous (k + 1 + 8) 0 1 =
      growTail ⟨[0, 0, 0, 8, 109, 102, 104, 100, 0], 9, true⟩ (k + 1 + 8) 0 1 := rfl
  have hb : emptyMfhd.boxedSize = some 8 := rfl
  unfold Box.getInt8
  simp only [hb, Option.some_bind]
  rw [if_pos (by omega), hr]
  unfold growTail moveTail
  simp only [show ntohl [0, 0, 0, 8, 109, 102, 104, 100, 0] 0 = some 8 from rfl,
    Option.some_bind]
  by_cases hn : subSizeT 8 (k + 1 + 8 + 0) > 0
  · rw [if_pos hn]
    unfold memmove
    rw [if_neg (by
      unfold subSizeT at hn ⊢
      simp only [List.length_cons, List.length_nil]
      omega)]
    rfl
  · rw [if_neg hn]
    simp only [Option.some_bind,
      show ntohl [0, 0, 0, 8, 109, 102, 104, 100, 0] 0 = some 8 from rfl]
    have hm : memcpy [0, 0, 0, 8, 109, 102, 104, 100, 0] 0 (htonl (8 + (1 - 0))) =
        some [0, 0, 0, 9, 109, 102, 104, 100, 0] := rfl
    simp only [hm, Option.map_some', Option.some_bind]
    have hk : 9 ≤ k + 1 + 8 := by omega
    have hnone : [0, 0, 0, 9, 109, 102, 104, 100, 0][k + 1 + 8]? = none := by
      rw [List.getElem?_eq_none (by simp)]
    simp [hnone]

/-- C36, the code evaluated at the failing input: on the owning 8-byte box the accessors
called at payload offset 1 hand `reserve` the position 9 with 0 current bytes, more than
the declared length 8; the number of bytes to move, 8 - 9 as an unsigned value, is
2^64 - 1, and the call, and with it every accessor, is undefined behaviour. So is `getInt8`
at every offset but 0. -/
theorem accessor_reserve_evaluated :
    emptyMfhd.managed = true ∧ emptyMfhd.boxedSize = some 8 ∧
    subSizeT 8 (1 + 8 + 0) = 18446744073709551615 ∧
    emptyMfhd.reserve generous (1 + 8) 0 1 = none ∧
    emptyMfhd.getInt8 generous 1 = none ∧ emptyMfhd.setInt8 generous 65 1 = none ∧
    emptyMfhd.getInt16 generous 1 = none ∧ emptyMfhd.setInt16 generous 65 1 = none ∧
    emptyMfhd.getInt24 generous 1 = none ∧ emptyMfhd.setInt24 generous 65 1 = none ∧
    emptyMfhd.getInt32 generous 1 = none ∧ emptyMfhd.setInt32 generous 65 1 = none ∧
    emptyMfhd.getInt64 generous 1 = none ∧ emptyMfhd.setInt64 generous 65 1 = none ∧
    emptyMfhd.getString generous 1 = none ∧ emptyMfhd.setString generous [65] 1 = none ∧
    (∀ k, emptyMfhd.getInt8 generous (k + 1) = none) := by
  refine ⟨rfl, by decide, by decide, by decide, ?_⟩
  refine ⟨by decide, by decide, by decide, by decide, ?_⟩
  refine ⟨by decide, by decide, by decide, by decide, ?_⟩
  exact ⟨by decide, by decide, by decide, by decide, getInt8_gap_undefined⟩

/-- C37, the code evaluated at the failing input: on the profile/live/update byte 0x10
(live set) `setUpdate(0)` gives 0x00, and `getLive()` goes from true to false: the mask 0xEF
clears the live bit. On the byte 0x08 `setUpdate(1)` gives 0x10, the addition of 0x08
carrying into the live bit, and `getLive()` goes from false to true. On the byte 0x20
`setLive(0)` clears the bit 0x20, and on 0x10 `setLive(1)` sets it: a bit that is not the
live bit. `setProfile` changes the two profile bits alone (0x3F to 0xBF). -/
theorem flag_byte_frame_evaluated :
    ABST.getLive generous (abstFlagged 16) = some (true, abstFlagged 16) ∧
    ABST.setUpdate generous (abstFlagged 16) false = some (abstFlagged 0) ∧
    ABST.getLive generous (abstFlagged 0) = some (false, abstFlagged 0) ∧
    ABST.getLive generous (abstFlagged 8) = some (false, abstFlagged 8) ∧
    ABST.setUpdate generous (abstFlagged 8) true = some (abstFlagged 16) ∧
    ABST.getLive generous (abstFlagged 16) = some (true, abstFlagged 16) ∧
    ABST.setLive generous (abstFlagged 32) false = some (abstFlagged 0) ∧
    ABST.setLive generous (abstFlagged 16) true = some (abstFlagged 32) ∧
    ABST.setProfile generous (abstFlagged 63) 2 = some (abstFlagged 191) := by
  decide

/-- C38, the code evaluated at the failing input: on zeroed memory the constructor builds
the 42-byte box `abstFresh`, whose profile/live/update byte is 0: `setLive(1)` sets the live
bit and the `setUpdate(0)` that follows clears it, so `getLive()` returns false. The other
defaults are as the constructor sets them. -/
theorem abst_defaults_evaluated :
    ABST.construct generous = some abstFresh ∧
    (abstFresh.data.drop 4).take 4 = [97, 98, 115, 116] ∧
    ((ABST.construct generous).bind fun b => ABST.setLive generous b true)
      = some (abstFlagged 16) ∧
    ABST.getLive generous abstFresh = some (false, abstFresh) ∧
    ABST.getVersion generous abstFresh = some (0, abstFresh) ∧
    ABST.getFlags generous abstFresh = some (0, abstFresh) ∧
    ABST.getBootstrapinfoVersion generous abstFresh = some (0, abstFresh) ∧
    ABST.getProfile generous abstFresh = some (0, abstFresh) ∧
    ABST.getUpdate generous abstFresh = some (false, abstFresh) ∧
    ABST.getTimeScale generous abstFresh = some (1000, abstFresh) ∧
    ABST.getCurrentMediaTime generous abstFresh = some (0, abstFresh) ∧
    ABST.getSmpteTimeCodeOffset generous abstFresh = some (0, abstFresh) ∧
    ABST.getMovieIdentifier generous abstFresh = some (some [], abstFresh) ∧
    ABST.getDrmData generous abstFresh = some (some [], abstFresh) ∧
    ABST.getMetaData generous abstFresh = some (some [], abstFresh) ∧
    ABST.getServerEntryCount generous abstFresh = some (0, abstFresh) ∧
    ABST.getQualityEntryCount generous abstFresh = some (0, abstFresh) := by
  decide

theorem moofStalled_round (indent : Nat) :
    ∃ p, MOOF.round moofStalled indent 0 = some (some (p, 0)) :=
  ⟨_, rfl⟩

theorem moofStalled_walk (indent : Nat) :
    ∀ n, ∃ ps, MOOF.walk moofStalled indent n 0 = some (ps, some 0) ∧ ps.length = n
  | 0 => ⟨[], rfl, rfl⟩
  | n + 1 => by
    obtain ⟨p, hp⟩ := moofStalled_round indent
    obtain ⟨ps, hps, hl⟩ := moofStalled_walk indent n
    refine ⟨p :: ps, ?_, by simp [hl]⟩
    simp only [MOOF.walk, hp, Option.some_bind, hps, Option.map_some']

/-- C39, the code evaluated at the failing input: on the movie-fragment box whose payload is
eight zero bytes the first child declares the length 0, a round of the loop leaves the
cursor at 0, and the loop has not ended after any number of rounds: it prints the same child
for ever. On the box with one `mfhd` child of 16 bytes it ends after one round. -/
theorem moof_walk_evaluated :
    moofStalled.payloadSize = some 8 ∧ ntohl moofStalled.data (0 + 8) = some 0 ∧
    MOOF.round moofStalled 0 0 = some (some (Pretty.unimplemented
      ([32] ++ unimplementedText ++ [0, 0, 0, 0] ++ [10]), 0)) ∧
    (∀ indent n, ∃ ps, MOOF.walk moofStalled indent n 0 = some (ps, some 0) ∧ ps.length = n) ∧
    MOOF.walk moofOneChild 0 2 0 = some ([Pretty.mfhd], none) :=
  ⟨by decide, by decide, by decide, moofStalled_walk, by decide⟩

theorem patched_size {b : Box} {T k : Nat} {src : List Nat} (hT : b.boxedSize = some T)
    (hk : 4 ≤ k) (hp : k + src.length ≤ b.data.length) :
    memcpy b.data k src = some (patch b.data k src) ∧
      ({ b with data := patch b.data k src } : Box).boxedSize = some T := by
  refine ⟨by unfold memcpy; rw [if_pos hp], ?_⟩
  show ntohl (patch b.data k src) 0 = some T
  rw [ntohl_patch_behind hk hp]
  exact hT

/-- C31, the claim as stated fails: `getInt32(2)` and `setInt32(7, 2)` on the 12-byte box,
whose field at payload offset 2 straddles the end, leave a box of 16 bytes, not of 14: the
box grows by the width of the field. When the allocator refuses, the box keeps its 12
bytes. -/
theorem straddling_counterexample :
    smallMfhd.managed = true ∧ smallMfhd.boxedSize = some 12 ∧
    smallMfhd.getInt32 generous 2 =
      some (50593792, ⟨[0, 0, 0, 16, 109, 102, 104, 100, 1, 2, 3, 4, 0, 0, 3, 4], 16, true⟩) ∧
    smallMfhd.setInt32 generous 7 2 =
      some ⟨[0, 0, 0, 16, 109, 102, 104, 100, 1, 2, 0, 0, 0, 7, 3, 4], 16, true⟩ ∧
    smallMfhd.getInt16 generous 3 =
      some (1024, ⟨[0, 0, 0, 14, 109, 102, 104, 100, 1, 2, 3, 4, 0, 4], 14, true⟩) ∧
    smallMfhd.getInt32 exhausted 2 = some (0, smallMfhd) ∧
    smallMfhd.setInt32 exhausted 7 2 = some smallMfhd := by
  decide

/-- C31, amended: on an owning box (declared length `T` and recorded capacity inside the
allocation, `T + 8` below 2^32), for an integer accessor of width `w` in {2, 3, 4, 8}, get or
set, called at a payload offset `i` whose field straddles the end of the box,
`8 + i < T < 8 + i + w`, when the allocator grants `T + w` bytes the accessor succeeds and
the box afterwards has `boxedSize() = T + w`: it has grown by the whole width of the
field. -/
theorem straddling_access_grows (H : Heap) (b : Box) (T i : Nat) (v : Int)
    (hm : b.managed = true) (hT : b.boxedSize = some T) (hlen : T ≤ b.data.length)
    (hcap : b.data_size ≤ b.data.length) (hs : 8 + i < T) (h32 : T + 8 < 4294967296) :
    (T < 8 + i + 2 → H.grants (T + 2) = true →
      (∃ x b', b.getInt16 H i = some (x, b') ∧ b'.boxedSize = some (T + 2)) ∧
      (∃ b', b.setInt16 H v i = some b' ∧ b'.boxedSize = some (T + 2))) ∧
    (T < 8 + i + 3 → H.grants (T + 3) = true →
      (∃ x b', b.getInt24 H i = some (x, b') ∧ b'.boxedSize = some (T + 3)) ∧
      (∃ b', b.setInt24 H v i = some b' ∧ b'.boxedSize = some (T + 3))) ∧
    (T < 8 + i + 4 → H.grants (T + 4) = true →
      (∃ x b', b.getInt32 H i = some (x, b') ∧ b'.boxedSize = some (T + 4)) ∧
      (∃ b', b.setInt32 H v i = some b' ∧ b'.boxedSize = some (T + 4))) ∧
    (T < 8 + i + 8 → H.grants (T + 8) = true →
      (∃ x b', b.getInt64 H i = some (x, b') ∧ b'.boxedSize = some (T + 8)) ∧
      (∃ b', b.setInt64 H v i = some b' ∧ b'.boxedSize = some (T + 8))) := by
  refine ⟨fun he hg => ?_, fun he hg => ?_, fun he hg => ?_, fun he hg => ?_⟩
  · obtain ⟨b1, hr, _, hT1, hl1, _⟩ := reserve_ok H (p := i + 8) (c := 0) (w := 2) hT hm hlen
      hcap (by omega) (by omega) (fun _ => hg) (by omega)
    constructor
    · obtain ⟨x, hx⟩ := short16_isSome (d := b1.data) (k := i + 8) (by omega)
      refine ⟨x, b1, ?_, hT1⟩
      unfold Box.getInt16
      simp only [hT, Option.some_bind]
      rw [if_pos (by omega), hr]
      simp only [Option.some_bind, Bool.true_eq_false, if_false, hx, Option.map_some']
    · obtain ⟨hmc, hT2⟩ := @patched_size _ _ (i + 8) (htons (toUInt16 v)) hT1
        (by omega) (by simp only [htons, List.length_cons, List.length_nil]; omega)
      refine ⟨_, ?_, hT2⟩
      unfold Box.setInt16
      simp only [hT, Option.some_bind]
      rw [if_pos (by omega), hr]
      simp only [Option.some_bind, Bool.true_eq_false, if_false, hmc, Option.map_some']
  · obtain ⟨b1, hr, _, hT1, hl1, _⟩ := reserve_ok H (p := i + 8) (c := 0) (w := 3) hT hm hlen
      hcap (by omega) (by omega) (fun _ => hg) (by omega)
    constructor
    · obtain ⟨x, hx⟩ := long24_isSome (d := b1.data) (k := i + 8) (by omega)
      refine ⟨x, b1, ?_, hT1⟩
      unfold Box.getInt24
      simp only [hT, Option.some_bind]
      rw [if_pos (by omega), hr]
      simp only [Option.some_bind, Bool.true_eq_false, if_false, hx, Option.map_some']
    · obtain ⟨hmc, hT2⟩ := @patched_size _ _ (i + 8) (bytes24 v) hT1
        (by omega) (by simp only [bytes24, List.length_cons, List.length_nil]; omega)
      refine ⟨_, ?_, hT2⟩
      unfold Box.setInt24
      simp only [hT, Option.some_bind]
      rw [if_pos (by omega), hr]
      simp only [Option.some_bind, Bool.true_eq_false, if_false, hmc, Option.map_some']
  · obtain ⟨b1, hr, _, hT1, hl1, _⟩ := reserve_ok H (p := i + 8) (c := 0) (w := 4) hT hm hlen
      hcap (by omega) (by omega) (fun _ => hg) (by omega)
    constructor
    · obtain ⟨x, hx⟩ := ntohl_isSome (d := b1.data) (i := i + 8) (by omega)
      refine ⟨Int.ofNat x, b1, ?_, hT1⟩
      unfold Box.getInt32
      simp only [hT, Option.some_bind]
      rw [if_pos (by omega), hr]
      simp only [Option.some_bind, Bool.true_eq_false, if_false, hx, Option.map_some']
    · obtain ⟨hmc, hT2⟩ := @patched_size _ _ (i + 8) (htonl (toUInt32 v)) hT1
        (by omega) (by rw [htonl_length]; omega)
      refine ⟨_, ?_, hT2⟩
      unfold Box.setInt32
      simp only [hT, Option.some_bind]
      rw [if_pos (by omega), hr]
      simp only [Option.some_bind, Bool.true_eq_false, if_false, hmc, Option.map_some']
  · obtain ⟨b1, hr, _, hT1, hl1, _⟩ := reserve_ok H (p := i + 8) (c := 0) (w := 8) hT hm hlen
      hcap (by omega) (by omega) (fun _ => hg) (by omega)
    constructor
    · obtain ⟨x, hx⟩ := long64_isSome (d := b1.data) (k := i + 8) (by omega)
      refine ⟨x, b1, ?_, hT1⟩
      unfold Box.getInt64
      simp only [hT, Option.some_bind]
      rw [if_pos (by omega), hr]
      simp only [Option.some_bind, Bool.true_eq_false, if_false, hx, Option.map_some']
    · obtain ⟨hmc, hT2⟩ := @patched_size _ _ (i + 8) (bytes64 v) hT1
        (by omega) (by simp only [bytes64, List.length_cons, List.length_nil]; omega)
      refine ⟨_, ?_, hT2⟩
      unfold Box.setInt64
      simp only [hT, Option.some_bind]
      rw [if_pos (by omega), hr]
      simp only [Option.some_bind, Bool.true_eq_false, if_false, hmc, Option.map_some']

/-- C31, witness: the 12-byte box and the field at payload offset 2, which straddles the
end for the widths 4 and 8: the box grows to 16 and to 20 bytes. -/
theorem straddling_access_grows_witness :
    ((∃ x b', smallMfhd.getInt32 generous 2 = some (x, b') ∧ b'.boxedSize = some (12 + 4)) ∧
      (∃ b', smallMfhd.setInt32 generous 7 2 = some b' ∧ b'.boxedSize = some (12 + 4))) ∧
    ((∃ x b', smallMfhd.getInt64 generous 2 = some (x, b') ∧ b'.boxedSize = some (12 + 8)) ∧
      (∃ b', smallMfhd.setInt64 generous 7 2 = some b' ∧ b'.boxedSize = some (12 + 8))) :=
  have h := straddling_access_grows generous smallMfhd 12 2 7 (by decide) (by decide)
    (by decide) (by decide) (by decide) (by decide)
  ⟨h.2.2.1 (by decide) rfl, h.2.2.2 (by decide) rfl⟩

theorem bump_eq (H : Heap) {b : Box} {f : Int} (hf : TFHD.getFlags H b = some (f, b))
    (mask step o : Nat) :
    TFHD.bump H mask step (o, b) = some (if hasFlag f mask = true then o + step else o, b) := by
  simp [TFHD.bump, hf]

theorem tfhdOffset_values (F : TfhdFlags) (f : Int) :
    tfhdOffset F f 0 = 8 ∧
    tfhdOffset F f 1 = 8 + (if hasFlag f F.baseOffset = true then 8 else 0) ∧
    tfhdOffset F f 2 = 8 + (if hasFlag f F.baseOffset = true then 8 else 0)
      + (if hasFlag f F.sampleDesc = true then 4 else 0) ∧
    tfhdOffset F f 3 = 8 + (if hasFlag f F.baseOffset = true then 8 else 0)
      + (if hasFlag f F.sampleDesc = true then 4 else 0)
      + (if hasFlag f F.sampleDura = true then 4 else 0) ∧
    tfhdOffset F f 4 = 8 + (if hasFlag f F.baseOffset = true then 8 else 0)
      + (if hasFlag f F.sampleDesc = true then 4 else 0)
      + (if hasFlag f F.sampleDura = true then 4 else 0)
      + (if hasFlag f F.sampleSize = true then 4 else 0) ∧
    tfhdOffset F f 5 = 8 + (if hasFlag f F.baseOffset = true then 8 else 0)
      + (if hasFlag f F.sampleDesc = true then 4 else 0)
      + (if hasFlag f F.sampleDura = true then 4 else 0)
      + (if hasFlag f F.sampleSize = true then 4 else 0)
      + (if hasFlag f F.sampleFlag = true then 4 else 0) := by
  simp only [tfhdOffset, TfhdFlags.fields, List.take, List.map, List.sum_cons, List.sum_nil]
  omega

/-- The accessors of the optional fields of a track-fragment header, when the flags read
`f` without changing the box: each returns 0, or does nothing, when its flag bit is clear,
and otherwise is the integer accessor at the offset the specification gives. -/
theorem tfhd_accessors_at (H : Heap) (F : TfhdFlags) {b : Box} {f : Int} (v : Int)
    (hf : TFHD.getFlags H b = some (f, b)) :
    (TFHD.getBaseDataOffset H F b =
      if hasFlag f F.baseOffset = true then b.getInt64 H (tfhdOffset F f 0) else some (0, b)) ∧
    (TFHD.getSampleDescriptionIndex H F b =
      if hasFlag f F.sampleDesc = true then b.getInt32 H (tfhdOffset F f 1) else some (0, b)) ∧
    (TFHD.getDefaultSampleDuration H F b =
      if hasFlag f F.sampleDura = true then b.getInt32 H (tfhdOffset F f 2) else some (0, b)) ∧
    (TFHD.getDefaultSampleSize H F b =
      if hasFlag f F.sampleSize = true then b.getInt32 H (tfhdOffset F f 3) else some (0, b)) ∧
    (TFHD.getDefaultSampleFlags H F b =
      if hasFlag f F.sampleFlag = true then b.getInt32 H (tfhdOffset F f 4) else some (0, b)) ∧
    (TFHD.setBaseDataOffset H F b v =
      if hasFlag f F.baseOffset = true then b.setInt64 H v (tfhdOffset F f 0) else some b) ∧
    (TFHD.setSampleDescriptionIndex H F b v =
      if hasFlag f F.sampleDesc = true then b.setInt32 H v (tfhdOffset F f 1) else some b) ∧
    (TFHD.setDefaultSampleDuration H F b v =
      if hasFlag f F.sampleDura = true then b.setInt32 H v (tfhdOffset F f 2) else some b) ∧
    (TFHD.setDefaultSampleSize H F b v =
      if hasFlag f F.sampleSize = true then b.setInt32 H v (tfhdOffset F f 3) else some b) ∧
    (TFHD.setDefaultSampleFlags H F b v =
      if hasFlag f F.sampleFlag = true then b.setInt32 H v (tfhdOffset F f 4) else some b) := by
  obtain ⟨o0, o1, o2, o3, o4, _⟩ := tfhdOffset_values F f
  rw [o0, o1, o2, o3, o4]
  simp only [TFHD.getBaseDataOffset, TFHD.getSampleDescriptionIndex,
    TFHD.getDefaultSampleDuration, TFHD.getDefaultSampleSize, TFHD.getDefaultSampleFlags,
    TFHD.setBaseDataOffset, TFHD.setSampleDescriptionIndex, TFHD.setDefaultSampleDuration,
    TFHD.setDefaultSampleSize, TFHD.setDefaultSampleFlags, hf, bump_eq H hf,
    Option.some_bind]
  generalize hasFlag f F.baseOffset = pB
  generalize hasFlag f F.sampleDesc = pD
  generalize hasFlag f F.sampleDura = pU
  generalize hasFlag f F.sampleSize = pS
  generalize hasFlag f F.sampleFlag = pG
  cases pB <;> cases pD <;> cases pU <;> cases pS <;> cases pG <;> simp

theorem getElem?_patch_apart {d src : List Nat} {p j : Nat} (hp : p + src.length ≤ d.length)
    (h : j < p ∨ p + src.length ≤ j) : (patch d p src)[j]? = d[j]? := by
  rw [getElem?_patch hp]
  rcases h with h | h
  · rw [if_pos h]
  · rw [if_neg (by omega), if_neg (by omega)]

theorem ntohl_patch_apart {d src : List Nat} {p q : Nat} (hp : p + src.length ≤ d.length)
    (h : q + 4 ≤ p ∨ p + src.length ≤ q) : ntohl (patch d p src) q = ntohl d q := by
  unfold ntohl
  rw [getElem?_patch_apart hp (by omega), getElem?_patch_apart hp (by omega),
    getElem?_patch_apart hp (by omega), getElem?_patch_apart hp (by omega)]

theorem long24_patch_apart {d src : List Nat} {p q : Nat} (hp : p + src.length ≤ d.length)
    (h : q + 3 ≤ p ∨ p + src.length ≤ q) : long24 (patch d p src) q = long24 d q := by
  unfold long24
  rw [getElem?_patch_apart hp (by omega), getElem?_patch_apart hp (by omega),
    getElem?_patch_apart hp (by omega)]

theorem long64_patch_apart {d src : List Nat} {p q : Nat} (hp : p + src.length ≤ d.length)
    (h : q + 8 ≤ p ∨ p + src.length ≤ q) : long64 (patch d p src) q = long64 d q := by
  unfold long64
  rw [getElem?_patch_apart hp (by omega), getElem?_patch_apart hp (by omega),
    getElem?_patch_apart hp (by omega), getElem?_patch_apart hp (by omega),
    getElem?_patch_apart hp (by omega), getElem?_patch_apart hp (by omega),
    getElem?_patch_apart hp (by omega), getElem?_patch_apart hp (by omega)]

theorem field32_apart {d src : List Nat} {p q : Nat} (present : Bool)
    (hp : p + src.length ≤ d.length)
    (h : present = true → q + 4 ≤ p ∨ p + src.length ≤ q) :
    field32 present (patch d p src) q = field32 present d q := by
  unfold field32
  cases present
  · rfl
  · simp only [if_true]
    rw [ntohl_patch_apart hp (h rfl)]

theorem field64_apart {d src : List Nat} {p q : Nat} (present : Bool)
    (hp : p + src.length ≤ d.length)
    (h : present = true → q + 8 ≤ p ∨ p + src.length ≤ q) :
    field64 present (patch d p src) q = field64 present d q := by
  unfold field64
  cases present
  · rfl
  · simp only [if_true]
    rw [long64_patch_apart hp (h rfl)]

theorem field32_isSome {d : List Nat} {q : Nat} (present : Bool)
    (h : present = true → q + 4 ≤ d.length) : (field32 present d q).isSome = true := by
  unfold field32
  cases present
  · rfl
  · obtain ⟨v, hv⟩ := ntohl_isSome (h rfl)
    simp [hv]

theorem field64_isSome {d : List Nat} {q : Nat} (present : Bool)
    (h : present = true → q + 8 ≤ d.length) : (field64 present d q).isSome = true := by
  unfold field64
  cases present
  · rfl
  · obtain ⟨v, hv⟩ := long64_isSome (h rfl)
    simp [hv]

theorem optional32 (H : Heap) {b : Box} {T : Nat} (hT : b.boxedSize = some T) (present : Bool)
    (o : Nat) (h : present = true → o + 8 + 3 < T) :
    (if present = true then b.getInt32 H o else some (0, b)).map Prod.fst
      = field32 present b.data (o + 8) := by
  unfold field32
  cases present
  · rfl
  · simp only [if_true]
    rw [getInt32_inside H hT (h rfl), Option.map_map]
    rfl

theorem optional64 (H : Heap) {b : Box} {T : Nat} (hT : b.boxedSize = some T) (present : Bool)
    (o : Nat) (h : present = true → o + 8 + 7 < T) :
    (if present = true then b.getInt64 H o else some (0, b)).map Prod.fst
      = field64 present b.data (o + 8) := by
  unfold field64
  cases present
  · rfl
  · simp only [if_true]
    rw [getInt64_inside H hT (h rfl), Option.map_map]
    cases long64 b.data (o + 8) <;> rfl

/-- The widths of the optional fields under the flags `f`, as facts of arithmetic about the
offsets of the specification. -/
theorem tfhdOffset_steps (F : TfhdFlags) (f : Int) :
    tfhdOffset F f 0 = 8 ∧
    (tfhdOffset F f 0 ≤ tfhdOffset F f 1 ∧
      (hasFlag f F.baseOffset = true → tfhdOffset F f 0 + 8 = tfhdOffset F f 1)) ∧
    (tfhdOffset F f 1 ≤ tfhdOffset F f 2 ∧
      (hasFlag f F.sampleDesc = true → tfhdOffset F f 1 + 4 = tfhdOffset F f 2)) ∧
    (tfhdOffset F f 2 ≤ tfhdOffset F f 3 ∧
      (hasFlag f F.sampleDura = true → tfhdOffset F f 2 + 4 = tfhdOffset F f 3)) ∧
    (tfhdOffset F f 3 ≤ tfhdOffset F f 4 ∧
      (hasFlag f F.sampleSize = true → tfhdOffset F f 3 + 4 = tfhdOffset F f 4)) ∧
    (tfhdOffset F f 4 ≤ tfhdOffset F f 5 ∧
      (hasFlag f F.sampleFlag = true → tfhdOffset F f 4 + 4 = tfhdOffset F f 5)) := by
  obtain ⟨o0, o1, o2, o3, o4, o5⟩ := tfhdOffset_values F f
  rw [o0, o1, o2, o3, o4, o5]
  refine ⟨rfl, ⟨?_, ?_⟩, ⟨?_, ?_⟩, ⟨?_, ?_⟩, ⟨?_, ?_⟩, ⟨?_, ?_⟩⟩
  all_goals first
    | (intro h; rw [if_pos h])
    | (split <;> omega)

/-- What the seven getters of a track-fragment header return on a box whose payload holds
every field present under its flags. -/
theorem tfhdView_eq (H : Heap) (F : TfhdFlags) {b : Box} {T : Nat} {f : Int}
    (hT : b.boxedSize = some T) (hf : TFHD.getFlags H b = some (f, b))
    (hlay : tfhdOffset F f 5 + 8 ≤ T) :
    tfhdView H F b = [some f, field32 true b.data 12,
      field64 (hasFlag f F.baseOffset) b.data (tfhdOffset F f 0 + 8),
      field32 (hasFlag f F.sampleDesc) b.data (tfhdOffset F f 1 + 8),
      field32 (hasFlag f F.sampleDura) b.data (tfhdOffset F f 2 + 8),
      field32 (hasFlag f F.sampleSize) b.data (tfhdOffset F f 3 + 8),
      field32 (hasFlag f F.sampleFlag) b.data (tfhdOffset F f 4 + 8)] := by
  obtain ⟨gB, gD, gU, gS, gG, -⟩ := tfhd_accessors_at H F 0 hf
  obtain ⟨s0, ⟨l1, s1⟩, ⟨l2, s2⟩, ⟨l3, s3⟩, ⟨l4, s4⟩, ⟨l5, s5⟩⟩ := tfhdOffset_steps F f
  have hI : (TFHD.getTrackID H b).map Prod.fst = field32 true b.data 12 := by
    have := optional32 H hT true 4 (fun _ => by omega)
    simpa [TFHD.getTrackID] using this
  unfold tfhdView
  rw [hf, gB, gD, gU, gS, gG, hI,
    optional64 H hT _ _ (fun h => by have := s1 h; omega),
    optional32 H hT _ _ (fun h => by have := s2 h; omega),
    optional32 H hT _ _ (fun h => by have := s3 h; omega),
    optional32 H hT _ _ (fun h => by have := s4 h; omega),
    optional32 H hT _ _ (fun h => by have := s5 h; omega)]
  rfl

/-- Writing bytes behind the track ID of a track-fragment header, inside the declared
length, leaves the declared length and the flags as they were. -/
theorem tfhd_patched (H : Heap) {b : Box} {T p : Nat} {f : Int} {src : List Nat}
    (hT : b.boxedSize = some T) (hlen : T ≤ b.data.length)
    (hf : TFHD.getFlags H b = some (f, b)) (hp : 16 ≤ p) (hs : p + src.length ≤ T) :
    ({ b with data := patch b.data p src } : Box).boxedSize = some T ∧
      TFHD.getFlags H { b with data := patch b.data p src }
        = some (f, { b with data := patch b.data p src }) := by
  have hpl : p + src.length ≤ b.data.length := by omega
  have hT' := (patched_size hT (by omega) hpl).2
  refine ⟨hT', ?_⟩
  have h0 : b.getInt24 H 1 = some (f, b) := hf
  rw [getInt24_inside H hT (by omega)] at h0
  have hv : long24 b.data (1 + 8) = some f := by
    cases hl : long24 b.data (1 + 8) with
    | none => rw [hl] at h0; cases h0
    | some x =>
      rw [hl] at h0
      simp only [Option.map_some', Option.some.injEq, Prod.mk.injEq] at h0
      rw [h0.1]
  show Box.getInt24 H _ 1 = _
  rw [getInt24_inside H hT' (by omega)]
  show (long24 (patch b.data p src) (1 + 8)).map _ = _
  rw [long24_patch_apart hpl (Or.inl (by omega)), hv]
  rfl

/-- A 32-bit value stored by `setInt32` at the payload offset `o` of a track-fragment
header, behind the track ID and inside the declared length: the box afterwards, its
declared length, its flags and the four bytes read back. -/
theorem tfhd_store32 (H : Heap) {b : Box} {T o v : Nat} {f : Int}
    (hT : b.boxedSize = some T) (hlen : T ≤ b.data.length)
    (hf : TFHD.getFlags H b = some (f, b)) (ho : 8 ≤ o) (hoT : o + 8 + 4 ≤ T)
    (hv : v < 4294967296) :
    b.setInt32 H (Int.ofNat v) o
        = some { b with data := patch b.data (o + 8) (htonl (toUInt32 (Int.ofNat v))) } ∧
      ({ b with data := patch b.data (o + 8) (htonl (toUInt32 (Int.ofNat v))) } : Box).boxedSize
        = some T ∧
      TFHD.getFlags H { b with data := patch b.data (o + 8) (htonl (toUInt32 (Int.ofNat v))) }
        = some (f, { b with data := patch b.data (o + 8) (htonl (toUInt32 (Int.ofNat v))) }) ∧
      ntohl (patch b.data (o + 8) (htonl (toUInt32 (Int.ofNat v)))) (o + 8) = some v := by
  have hl := htonl_length (toUInt32 (Int.ofNat v))
  obtain ⟨h1, h2⟩ := @tfhd_patched H _ _ (o + 8) _ (htonl (toUInt32 (Int.ofNat v)))
    hT hlen hf (by omega) (by omega)
  refine ⟨setInt32_inside H _ hT (by omega) hlen, h1, h2, ?_⟩
  rw [ntohl_patch_htonl_at (by omega), toUInt32_ofNat hv, Nat.mod_eq_of_lt hv]

/-- C32, the claim as stated fails: on the 40-byte track-fragment header with all five
optional fields present, `setSampleDescriptionIndex(4294967301)` and
`setSampleDescriptionIndex(-1)` are read back as 5 and 4294967295, the field being 32 bits
wide, and `setBaseDataOffset(128)` is read back as -128. -/
theorem tfhd_round_trip_counterexample :
    TFHD.getFlags generous tfhdFull = some (59, tfhdFull) ∧
    tfhdOffset isoTfhdFlags 59 5 + 8 ≤ 40 ∧
    ((TFHD.setSampleDescriptionIndex generous isoTfhdFlags tfhdFull 4294967301).bind fun b' =>
      (TFHD.getSampleDescriptionIndex generous isoTfhdFlags b').map Prod.fst) = some 5 ∧
    ((TFHD.setSampleDescriptionIndex generous isoTfhdFlags tfhdFull (-1)).bind fun b' =>
      (TFHD.getSampleDescriptionIndex generous isoTfhdFlags b').map Prod.fst)
        = some 4294967295 ∧
    ((TFHD.setBaseDataOffset generous isoTfhdFlags tfhdFull 128).bind fun b' =>
      (TFHD.getBaseDataOffset generous isoTfhdFlags b').map Prod.fst) = some (-128) :=
  ⟨by decide, by decide, by decide, by decide, by decide⟩


/-- C32, amended: on a track-fragment-header box (declared length inside the allocation)
whose flags read `f` and whose payload holds every field present under `f`, all seven
getters return a value; the getter and the setter of each present optional field are the
integer accessors at the payload offset 8 plus the widths (8 for the base data offset, 4 for
each other field) of the present fields earlier in the order base data offset, sample
description index, default sample duration, default sample size, default sample flags; for
a present 32-bit field `X` and `v` in `[0, 2^32)`, `setX(v)` succeeds, `getX()` then returns
`v`, and the values of `getFlags()`, `getTrackID()` and every other getter are as before;
`setBaseDataOffset(w)`, when that field is present, succeeds and leaves the values of all
getters but its own as before. -/
theorem tfhd_fields_apart (H : Heap) (F : TfhdFlags) (b : Box) (T : Nat) (f : Int) (v : Nat)
    (w : Int) (hT : b.boxedSize = some T) (hlen : T ≤ b.data.length)
    (hf : TFHD.getFlags H b = some (f, b)) (hlay : tfhdOffset F f 5 + 8 ≤ T)
    (hv : v < 4294967296) :
    (tfhdView H F b).all Option.isSome = true ∧
    (hasFlag f F.baseOffset = true →
      TFHD.getBaseDataOffset H F b = b.getInt64 H (tfhdOffset F f 0) ∧
      TFHD.setBaseDataOffset H F b w = b.setInt64 H w (tfhdOffset F f 0)) ∧
    (hasFlag f F.sampleDesc = true →
      TFHD.getSampleDescriptionIndex H F b = b.getInt32 H (tfhdOffset F f 1) ∧
      TFHD.setSampleDescriptionIndex H F b w = b.setInt32 H w (tfhdOffset F f 1)) ∧
    (hasFlag f F.sampleDura = true →
      TFHD.getDefaultSampleDuration H F b = b.getInt32 H (tfhdOffset F f 2) ∧
      TFHD.setDefaultSampleDuration H F b w = b.setInt32 H w (tfhdOffset F f 2)) ∧
    (hasFlag f F.sampleSize = true →
      TFHD.getDefaultSampleSize H F b = b.getInt32 H (tfhdOffset F f 3) ∧
      TFHD.setDefaultSampleSize H F b w = b.setInt32 H w (tfhdOffset F f 3)) ∧
    (hasFlag f F.sampleFlag = true →
      TFHD.getDefaultSampleFlags H F b = b.getInt32 H (tfhdOffset F f 4) ∧
      TFHD.setDefaultSampleFlags H F b w = b.setInt32 H w (tfhdOffset F f 4)) ∧
    (hasFlag f F.sampleDesc = true →
      ∃ b', TFHD.setSampleDescriptionIndex H F b (Int.ofNat v) = some b' ∧
        TFHD.getSampleDescriptionIndex H F b' = some (Int.ofNat v, b') ∧
        tfhdView H F b' = (tfhdView H F b).set 3 (some (Int.ofNat v))) ∧
    (hasFlag f F.sampleDura = true →
      ∃ b', TFHD.setDefaultSampleDuration H F b (Int.ofNat v) = some b' ∧
        TFHD.getDefaultSampleDuration H F b' = some (Int.ofNat v, b') ∧
        tfhdView H F b' = (tfhdView H F b).set 4 (some (Int.ofNat v))) ∧
    (hasFlag f F.sampleSize = true →
      ∃ b', TFHD.setDefaultSampleSize H F b (Int.ofNat v) = some b' ∧
        TFHD.getDefaultSampleSize H F b' = some (Int.ofNat v, b') ∧
        tfhdView H F b' = (tfhdView H F b).set 5 (some (Int.ofNat v))) ∧
    (hasFlag f F.sampleFlag = true →
      ∃ b', TFHD.setDefaultSampleFlags H F b (Int.ofNat v) = some b' ∧
        TFHD.getDefaultSampleFlags H F b' = some (Int.ofNat v, b') ∧
        tfhdView H F b' = (tfhdView H F b).set 6 (some (Int.ofNat v))) ∧
    (hasFlag f F.baseOffset = true →
      ∃ b', TFHD.setBaseDataOffset H F b w = some b' ∧
        ∀ k, k ≠ 2 → (tfhdView H F b')[k]? = (tfhdView H F b)[k]?) := by
  obtain ⟨gB, gD, gU, gS, gG, tB, tD, tU, tS, tG⟩ := tfhd_accessors_at H F w hf
  obtain ⟨-, -, -, -, -, -, nD, nU, nS, nG⟩ := tfhd_accessors_at H F (Int.ofNat v) hf
  obtain ⟨s0, ⟨l1, s1⟩, ⟨l2, s2⟩, ⟨l3, s3⟩, ⟨l4, s4⟩, ⟨l5, s5⟩⟩ := tfhdOffset_steps F f
  have hview := tfhdView_eq H F hT hf hlay
  have hl := htonl_length (toUInt32 (Int.ofNat v))
  refine ⟨?_, fun h => ⟨by rw [gB, if_pos h], by rw [tB, if_pos h]⟩,
    fun h => ⟨by rw [gD, if_pos h], by rw [tD, if_pos h]⟩,
    fun h => ⟨by rw [gU, if_pos h], by rw [tU, if_pos h]⟩,
    fun h => ⟨by rw [gS, if_pos h], by rw [tS, if_pos h]⟩,
    fun h => ⟨by rw [gG, if_pos h], by rw [tG, if_pos h]⟩, ?_, ?_, ?_, ?_, ?_⟩
  · rw [hview]
    simp only [List.all_cons, List.all_nil, Option.isSome_some, Bool.and_true, Bool.true_and,
      Bool.and_eq_true]
    exact ⟨field32_isSome _ (fun _ => by omega),
      field64_isSome _ (fun h => by have := s1 h; omega),
      field32_isSome _ (fun h => by have := s2 h; omega),
      field32_isSome _ (fun h => by have := s3 h; omega),
      field32_isSome _ (fun h => by have := s4 h; omega),
      field32_isSome _ (fun h => by have := s5 h; omega)⟩
  · intro hp
    have e2 := s2 hp
    obtain ⟨hset, hT', hf', hread⟩ := tfhd_store32 H (o := tfhdOffset F f 1) hT hlen hf
      (by omega) (by omega) hv
    have hpl : tfhdOffset F f 1 + 8 + (htonl (toUInt32 (Int.ofNat v))).length
        ≤ b.data.length := by omega
    refine ⟨_, by rw [nD, if_pos hp]; exact hset, ?_, ?_⟩
    · rw [(tfhd_accessors_at H F 0 hf').2.1, if_pos hp, getInt32_inside H hT' (by omega)]
      show (ntohl (patch _ _ _) _).map _ = _
      rw [hread]
      rfl
    · rw [tfhdView_eq H F hT' hf' hlay, hview]
      show [_, field32 true (patch _ _ _) 12, field64 _ (patch _ _ _) _,
        field32 _ (patch _ _ _) _, field32 _ (patch _ _ _) _, field32 _ (patch _ _ _) _,
        field32 _ (patch _ _ _) _] = _
      rw [field32_apart true hpl (fun _ => Or.inl (by omega)),
        field64_apart (hasFlag f F.baseOffset) hpl (fun h => Or.inl (by have := s1 h; omega)),
        field32_apart (hasFlag f F.sampleDura) hpl (fun h => Or.inr (by omega)),
        field32_apart (hasFlag f F.sampleSize) hpl (fun h => Or.inr (by omega)),
        field32_apart (hasFlag f F.sampleFlag) hpl (fun h => Or.inr (by omega)), hp]
      simp only [field32, if_true, hread, Option.map_some', List.set]
  · intro hp
    have e3 := s3 hp
    obtain ⟨hset, hT', hf', hread⟩ := tfhd_store32 H (o := tfhdOffset F f 2) hT hlen hf
      (by omega) (by omega) hv
    have hpl : tfhdOffset F f 2 + 8 + (htonl (toUInt32 (Int.ofNat v))).length
        ≤ b.data.length := by omega
    refine ⟨_, by rw [nU, if_pos hp]; exact hset, ?_, ?_⟩
    · rw [(tfhd_accessors_at H F 0 hf').2.2.1, if_pos hp, getInt32_inside H hT' (by omega)]
      show (ntohl (patch _ _ _) _).map _ = _
      rw [hread]
      rfl
    · rw [tfhdView_eq H F hT' hf' hlay, hview]
      show [_, field32 true (patch _ _ _) 12, field64 _ (patch _ _ _) _,
        field32 _ (patch _ _ _) _, field32 _ (patch _ _ _) _, field32 _ (patch _ _ _) _,
        field32 _ (patch _ _ _) _] = _
      rw [field32_apart true hpl (fun _ => Or.inl (by omega)),
        field64_apart (hasFlag f F.baseOffset) hpl (fun h => Or.inl (by have := s1 h; omega)),
        field32_apart (hasFlag f F.sampleDesc) hpl (fun h => Or.inl (by have := s2 h; omega)),
        field32_apart (hasFlag f F.sampleSize) hpl (fun h => Or.inr (by omega)),
        field32_apart (hasFlag f F.sampleFlag) hpl (fun h => Or.inr (by omega)), hp]
      simp only [field32, if_true, hread, Option.map_some', List.set]
  · intro hp
    have e4 := s4 hp
    obtain ⟨hset, hT', hf', hread⟩ := tfhd_store32 H (o := tfhdOffset F f 3) hT hlen hf
      (by omega) (by omega) hv
    have hpl : tfhdOffset F f 3 + 8 + (htonl (toUInt32 (Int.ofNat v))).length
        ≤ b.data.length := by omega
    refine ⟨_, by rw [nS, if_pos hp]; exact hset, ?_, ?_⟩
    · rw [(tfhd_accessors_at H F 0 hf').2.2.2.1, if_pos hp, getInt32_inside H hT' (by omega)]
      show (ntohl (patch _ _ _) _).map _ = _
      rw [hread]
      rfl
    · rw [tfhdView_eq H F hT' hf' hlay, hview]
      show [_, field32 true (patch _ _ _) 12, field64 _ (patch _ _ _) _,
        field32 _ (patch _ _ _) _, field32 _ (patch _ _ _) _, field32 _ (patch _ _ _) _,
        field32 _ (patch _ _ _) _] = _
      rw [field32_apart true hpl (fun _ => Or.inl (by omega)),
        field64_apart (hasFlag f F.baseOffset) hpl (fun h => Or.inl (by have := s1 h; omega)),
        field32_apart (hasFlag f F.sampleDesc) hpl (fun h => Or.inl (by have := s2 h; omega)),
        field32_apart (hasFlag f F.sampleDura) hpl (fun h => Or.inl (by have := s3 h; omega)),
        field32_apart (hasFlag f F.sampleFlag) hpl (fun h => Or.inr (by omega)), hp]
      simp only [field32, if_true, hread, Option.map_some', List.set]
  · intro hp
    have e5 := s5 hp
    obtain ⟨hset, hT', hf', hread⟩ := tfhd_store32 H (o := tfhdOffset F f 4) hT hlen hf
      (by omega) (by omega) hv
    have hpl : tfhdOffset F f 4 + 8 + (htonl (toUInt32 (Int.ofNat v))).length
        ≤ b.data.length := by omega
    refine ⟨_, by rw [nG, if_pos hp]; exact hset, ?_, ?_⟩
    · rw [(tfhd_accessors_at H F 0 hf').2.2.2.2.1, if_pos hp,
        getInt32_inside H hT' (by omega)]
      show (ntohl (patch _ _ _) _).map _ = _
      rw [hread]
      rfl
    · rw [tfhdView_eq H F hT' hf' hlay, hview]
      show [_, field32 true (patch _ _ _) 12, field64 _ (patch _ _ _) _,
        field32 _ (patch _ _ _) _, field32 _ (patch _ _ _) _, field32 _ (patch _ _ _) _,
        field32 _ (patch _ _ _) _] = _
      rw [field32_apart true hpl (fun _ => Or.inl (by omega)),
        field64_apart (hasFlag f F.baseOffset) hpl (fun h => Or.inl (by have := s1 h; omega)),
        field32_apart (hasFlag f F.sampleDesc) hpl (fun h => Or.inl (by have := s2 h; omega)),
        field32_apart (hasFlag f F.sampleDura) hpl (fun h => Or.inl (by have := s3 h; omega)),
        field32_apart (hasFlag f F.sampleSize) hpl (fun h => Or.inl (by have := s4 h; omega)),
        hp]
      simp only [field32, if_true, hread, Option.map_some', List.set]
  · intro hp
    have e1 := s1 hp
    have hpl : tfhdOffset F f 0 + 8 + (bytes64 w).length ≤ b.data.length := by
      show _ + 8 ≤ _
      omega
    have hb : (bytes64 w).length = 8 := rfl
    obtain ⟨hT', hf'⟩ := @tfhd_patched H _ _ (tfhdOffset F f 0 + 8) _ (bytes64 w)
      hT hlen hf (by omega) (by omega)
    have hset : b.setInt64 H w (tfhdOffset F f 0)
        = some { b with data := patch b.data (tfhdOffset F f 0 + 8) (bytes64 w) } := by
      unfold Box.setInt64
      simp only [hT, Option.some_bind]
      rw [if_neg (by omega), (patched_size hT (by omega) hpl).1]
      rfl
    refine ⟨_, by rw [tB, if_pos hp]; exact hset, ?_⟩
    intro k hk
    rw [tfhdView_eq H F hT' hf' hlay, hview]
    show [_, field32 true (patch _ _ _) 12, field64 _ (patch _ _ _) _,
      field32 _ (patch _ _ _) _, field32 _ (patch _ _ _) _, field32 _ (patch _ _ _) _,
      field32 _ (patch _ _ _) _][k]? = _
    rw [field32_apart true hpl (fun _ => Or.inl (by omega)),
      field32_apart (hasFlag f F.sampleDesc) hpl (fun h => Or.inr (by omega)),
      field32_apart (hasFlag f F.sampleDura) hpl (fun h => Or.inr (by omega)),
      field32_apart (hasFlag f F.sampleSize) hpl (fun h => Or.inr (by omega)),
      field32_apart (hasFlag f F.sampleFlag) hpl (fun h => Or.inr (by omega))]
    match k, hk with
    | 0, _ => rfl
    | 1, _ => rfl
    | 2, h => exact absurd rfl h
    | 3, _ => rfl
    | 4, _ => rfl
    | 5, _ => rfl
    | 6, _ => rfl
    | _ + 7, _ => rfl

/-- C32, witness: the 40-byte track-fragment header with the flags 59, all five optional
fields present by the ISO masks, and the sample description index set to 258: it is read
back, and the flags 59, the track 7, the base data offset 1, the duration 3, the size 4
and the sample flags 5 are read as before. -/
theorem tfhd_fields_apart_witness :
    ∃ b', TFHD.setSampleDescriptionIndex generous isoTfhdFlags tfhdFull 258 = some b' ∧
      TFHD.getSampleDescriptionIndex generous isoTfhdFlags b' = some (258, b') ∧
      tfhdView generous isoTfhdFlags b'
        = [some 59, some 7, some 1, some 258, some 3, some 4, some 5] :=
  have h := tfhd_fields_apart generous isoTfhdFlags tfhdFull 40 59 258 0 (by decide)
    (by decide) (by decide) (by decide) (by decide)
  (h.2.2.2.2.2.2.1 (by decide)).imp fun _ h' => ⟨h'.1, h'.2.1, h'.2.2.trans (by decide)⟩

end MP4
